import Mathlib

/-!
The restify service: token lifecycle, authorization middleware and error responder.

A shallow embedding of `internal/auth/jwt.go`, `internal/auth/middleware.go`,
`internal/helper/response.go`, `internal/helper/validate.go` and the payload types of
`internal/types`, together with the parts of the Go standard library, of
`github.com/golang-jwt/jwt/v5` and of `github.com/go-playground/validator/v10` that these
files call.

Conventions of the embedding:

* a Go `string` is a `List Char` (valid text); a `[]byte` is a `List Nat` of values below 256,
  and `[]byte(s)` is the UTF-8 encoding of `s`;
* `time.Time` is an `Int` number of nanoseconds since the Unix epoch, `time.Duration` an `Int`
  number of nanoseconds, and the clock read by `time.Now()` is an explicit argument;
* a function returning `(T, error)` returns `Except`, a function returning `error` returns an
  `Option` that is `none` for nil;
* a `float64` is the rational number it stands for;
* the `slog` calls only log and are left out.
-/

namespace Restify

/-- Go strings. -/
abbrev GoString := List Char

/-- Go byte slices: every element is meant to be below 256. -/
abbrev Bytes := List Nat

/-! ## crypto/sha256, crypto/sha512, crypto/hmac -/

/-- Round constants of SHA-256. -/
def sha256K : List Nat :=
  [0x428a2f98, 0x71374491, 0xb5c0fbcf, 0xe9b5dba5, 0x3956c25b, 0x59f111f1, 0x923f82a4, 0xab1c5ed5,
   0xd807aa98, 0x12835b01, 0x243185be, 0x550c7dc3, 0x72be5d74, 0x80deb1fe, 0x9bdc06a7, 0xc19bf174,
   0xe49b69c1, 0xefbe4786, 0xfc19dc6, 0x240ca1cc, 0x2de92c6f, 0x4a7484aa, 0x5cb0a9dc, 0x76f988da,
   0x983e5152, 0xa831c66d, 0xb00327c8, 0xbf597fc7, 0xc6e00bf3, 0xd5a79147, 0x6ca6351, 0x14292967,
   0x27b70a85, 0x2e1b2138, 0x4d2c6dfc, 0x53380d13, 0x650a7354, 0x766a0abb, 0x81c2c92e, 0x92722c85,
   0xa2bfe8a1, 0xa81a664b, 0xc24b8b70, 0xc76c51a3, 0xd192e819, 0xd6990624, 0xf40e3585, 0x106aa070,
   0x19a4c116, 0x1e376c08, 0x2748774c, 0x34b0bcb5, 0x391c0cb3, 0x4ed8aa4a, 0x5b9cca4f, 0x682e6ff3,
   0x748f82ee, 0x78a5636f, 0x84c87814, 0x8cc70208, 0x90befffa, 0xa4506ceb, 0xbef9a3f7, 0xc67178f2]

/-- Initial hash value of SHA-256. -/
def sha256H0 : List Nat :=
  [0x6a09e667, 0xbb67ae85, 0x3c6ef372, 0xa54ff53a, 0x510e527f, 0x9b05688c, 0x1f83d9ab, 0x5be0cd19]

/-- Round constants of SHA-384 and SHA-512. -/
def sha512K : List Nat :=
  [0x428a2f98d728ae22, 0x7137449123ef65cd, 0xb5c0fbcfec4d3b2f, 0xe9b5dba58189dbbc,
   0x3956c25bf348b538, 0x59f111f1b605d019, 0x923f82a4af194f9b, 0xab1c5ed5da6d8118,
   0xd807aa98a3030242, 0x12835b0145706fbe, 0x243185be4ee4b28c, 0x550c7dc3d5ffb4e2,
   0x72be5d74f27b896f, 0x80deb1fe3b1696b1, 0x9bdc06a725c71235, 0xc19bf174cf692694,
   0xe49b69c19ef14ad2, 0xefbe4786384f25e3, 0xfc19dc68b8cd5b5, 0x240ca1cc77ac9c65,
   0x2de92c6f592b0275, 0x4a7484aa6ea6e483, 0x5cb0a9dcbd41fbd4, 0x76f988da831153b5,
   0x983e5152ee66dfab, 0xa831c66d2db43210, 0xb00327c898fb213f, 0xbf597fc7beef0ee4,
   0xc6e00bf33da88fc2, 0xd5a79147930aa725, 0x6ca6351e003826f, 0x142929670a0e6e70,
   0x27b70a8546d22ffc, 0x2e1b21385c26c926, 0x4d2c6dfc5ac42aed, 0x53380d139d95b3df,
   0x650a73548baf63de, 0x766a0abb3c77b2a8, 0x81c2c92e47edaee6, 0x92722c851482353b,
   0xa2bfe8a14cf10364, 0xa81a664bbc423001, 0xc24b8b70d0f89791, 0xc76c51a30654be30,
   0xd192e819d6ef5218, 0xd69906245565a910, 0xf40e35855771202a, 0x106aa07032bbd1b8,
   0x19a4c116b8d2d0c8, 0x1e376c085141ab53, 0x2748774cdf8eeb99, 0x34b0bcb5e19b48a8,
   0x391c0cb3c5c95a63, 0x4ed8aa4ae3418acb, 0x5b9cca4f7763e373, 0x682e6ff3d6b2b8a3,
   0x748f82ee5defb2fc, 0x78a5636f43172f60, 0x84c87814a1f0ab72, 0x8cc702081a6439ec,
   0x90befffa23631e28, 0xa4506cebde82bde9, 0xbef9a3f7b2c67915, 0xc67178f2e372532b,
   0xca273eceea26619c, 0xd186b8c721c0c207, 0xeada7dd6cde0eb1e, 0xf57d4f7fee6ed178,
   0x6f067aa72176fba, 0xa637dc5a2c898a6, 0x113f9804bef90dae, 0x1b710b35131c471b,
   0x28db77f523047d84, 0x32caab7b40c72493, 0x3c9ebe0a15c9bebc, 0x431d67c49c100d4c,
   0x4cc5d4becb3e42b6, 0x597f299cfc657e2a, 0x5fcb6fab3ad6faec, 0x6c44198c4a475817]

/-- Initial hash value of SHA-512. -/
def sha512H0 : List Nat :=
  [0x6a09e667f3bcc908, 0xbb67ae8584caa73b, 0x3c6ef372fe94f82b, 0xa54ff53a5f1d36f1,
   0x510e527fade682d1, 0x9b05688c2b3e6c1f, 0x1f83d9abfb41bd6b, 0x5be0cd19137e2179]

/-- Initial hash value of SHA-384. -/
def sha384H0 : List Nat :=
  [0xcbbb9d5dc1059ed8, 0x629a292a367cd507, 0x9159015a3070dd17, 0x152fecd8f70e5939,
   0x67332667ffc00b31, 0x8eb44a8768581511, 0xdb0c2e0d64f98fa7, 0x47b5481dbefa4fa4]

/-- The parameters that distinguish the SHA-2 functions used by HS256, HS384 and HS512. -/
structure Sha2Params where
  wordBits : Nat
  blockBytes : Nat
  lenBytes : Nat
  outBytes : Nat
  K : List Nat
  H0 : List Nat
  bigSigma0 : Nat × Nat × Nat
  bigSigma1 : Nat × Nat × Nat
  smallSigma0 : Nat × Nat × Nat
  smallSigma1 : Nat × Nat × Nat

/-- Eight working variables of the compression function. -/
structure Sha2State where
  a : Nat
  b : Nat
  c : Nat
  d : Nat
  e : Nat
  f : Nat
  g : Nat
  h : Nat
deriving DecidableEq, Repr

/-- Rotation to the right of a word of w bits. -/
def rotr (w n x : Nat) : Nat := ((x >>> n) ||| (x <<< (w - n))) % 2 ^ w

/-- The functions written with a capital sigma: three rotations. -/
def bigSigma (w : Nat) (r : Nat × Nat × Nat) (x : Nat) : Nat :=
  (rotr w r.1 x ^^^ rotr w r.2.1 x) ^^^ rotr w r.2.2 x

/-- The functions written with a small sigma: two rotations and a shift. -/
def smallSigma (w : Nat) (r : Nat × Nat × Nat) (x : Nat) : Nat :=
  (rotr w r.1 x ^^^ rotr w r.2.1 x) ^^^ (x >>> r.2.2)

/-- Big-endian value of a byte string. -/
def beValue (bs : Bytes) : Nat := bs.foldl (fun acc b => acc * 256 + b) 0

/-- Big-endian bytes of a number, exactly n of them. -/
def beBytes : Nat → Nat → Bytes
  | 0, _ => []
  | n + 1, x => (x / 256 ^ n) % 256 :: beBytes n x

/-- Cuts a byte string into pieces of the given size. -/
def chunks (size : Nat) : Nat → Bytes → List Bytes
  | 0, _ => []
  | fuel + 1, bs => if bs = [] then [] else bs.take size :: chunks size fuel (bs.drop size)

/-- Message schedule, newest word first. -/
def sha2Schedule (p : Sha2Params) : Nat → List Nat → List Nat
  | 0, rev => rev
  | n + 1, rev =>
    let wt := (smallSigma p.wordBits p.smallSigma1 (rev.getD 1 0) + rev.getD 6 0
      + smallSigma p.wordBits p.smallSigma0 (rev.getD 14 0) + rev.getD 15 0) % 2 ^ p.wordBits
    sha2Schedule p n (wt :: rev)

/-- One round of the compression function, on a round constant and a schedule word. -/
def sha2Round (p : Sha2Params) (s : Sha2State) (kw : Nat × Nat) : Sha2State :=
  let m := 2 ^ p.wordBits
  let ch := (s.e &&& s.f) ^^^ ((m - 1 - s.e) &&& s.g)
  let maj := ((s.a &&& s.b) ^^^ (s.a &&& s.c)) ^^^ (s.b &&& s.c)
  let t1 := (s.h + bigSigma p.wordBits p.bigSigma1 s.e + ch + kw.1 + kw.2) % m
  let t2 := (bigSigma p.wordBits p.bigSigma0 s.a + maj) % m
  { a := (t1 + t2) % m, b := s.a, c := s.b, d := s.c, e := (s.d + t1) % m, f := s.e, g := s.f, h := s.g }

/-- The compression function on one block. -/
def sha2Compress (p : Sha2Params) (s : Sha2State) (block : Bytes) : Sha2State :=
  let m := 2 ^ p.wordBits
  let ws := (chunks (p.wordBits / 8) 16 block).map beValue
  let sched := (sha2Schedule p (p.K.length - 16) ws.reverse).reverse
  let t := (p.K.zip sched).foldl (sha2Round p) s
  { a := (s.a + t.a) % m, b := (s.b + t.b) % m, c := (s.c + t.c) % m, d := (s.d + t.d) % m,
    e := (s.e + t.e) % m, f := (s.f + t.f) % m, g := (s.g + t.g) % m, h := (s.h + t.h) % m }

/-- Padding: a one bit, zeros, and the bit length of the message. -/
def sha2Pad (p : Sha2Params) (msg : Bytes) : Bytes :=
  let used := (msg.length + 1 + p.lenBytes) % p.blockBytes
  msg ++ 0x80 :: List.replicate ((p.blockBytes - used) % p.blockBytes) 0
    ++ beBytes p.lenBytes (8 * msg.length)

/-- The initial state. -/
def sha2Init (p : Sha2Params) : Sha2State :=
  { a := p.H0.getD 0 0, b := p.H0.getD 1 0, c := p.H0.getD 2 0, d := p.H0.getD 3 0,
    e := p.H0.getD 4 0, f := p.H0.getD 5 0, g := p.H0.getD 6 0, h := p.H0.getD 7 0 }

/-- The eight words of a state. -/
def Sha2State.words (s : Sha2State) : List Nat := [s.a, s.b, s.c, s.d, s.e, s.f, s.g, s.h]

/-- The digest of a message. -/
def sha2 (p : Sha2Params) (msg : Bytes) : Bytes :=
  let padded := sha2Pad p msg
  let final := (chunks p.blockBytes padded.length padded).foldl (sha2Compress p) (sha2Init p)
  ((final.words.map (beBytes (p.wordBits / 8))).flatten).take p.outBytes

/-- SHA-256. -/
def sha256Params : Sha2Params :=
  { wordBits := 32, blockBytes := 64, lenBytes := 8, outBytes := 32, K := sha256K, H0 := sha256H0,
    bigSigma0 := (2, 13, 22), bigSigma1 := (6, 11, 25),
    smallSigma0 := (7, 18, 3), smallSigma1 := (17, 19, 10) }

/-- SHA-512. -/
def sha512Params : Sha2Params :=
  { wordBits := 64, blockBytes := 128, lenBytes := 16, outBytes := 64, K := sha512K, H0 := sha512H0,
    bigSigma0 := (28, 34, 39), bigSigma1 := (14, 18, 41),
    smallSigma0 := (1, 8, 7), smallSigma1 := (19, 61, 6) }

/-- SHA-384. -/
def sha384Params : Sha2Params := { sha512Params with outBytes := 48, H0 := sha384H0 }

/-- The keyed hash of crypto/hmac: hmac.New(h, key), Write(msg), Sum(nil). -/
def hmacSum (p : Sha2Params) (key msg : Bytes) : Bytes :=
  let k0 := if key.length > p.blockBytes then sha2 p key else key
  let k := k0 ++ List.replicate (p.blockBytes - k0.length) 0
  sha2 p (k.map (· ^^^ 0x5c) ++ sha2 p (k.map (· ^^^ 0x36) ++ msg))

/-! ## unicode/utf8 and encoding/base64 -/

/-- The UTF-8 bytes of one code point, as utf8.AppendRune writes them. -/
def utf8EncodeRune (r : Nat) : Bytes :=
  if r < 0x80 then [r]
  else if r < 0x800 then [0xC0 + r / 64, 0x80 + r % 64]
  else if r < 0x10000 then [0xE0 + r / 4096, 0x80 + r / 64 % 64, 0x80 + r % 64]
  else [0xF0 + r / 262144, 0x80 + r / 4096 % 64, 0x80 + r / 64 % 64, 0x80 + r % 64]

/-- The conversion `[]byte(s)`. -/
def utf8Encode (s : GoString) : Bytes := s.flatMap (fun c => utf8EncodeRune c.toNat)

/-- Whether a byte is a UTF-8 continuation byte. -/
def isCont (b : Nat) : Bool := decide (0x80 ≤ b ∧ b < 0xC0)

/-- The code point a decoded sequence stands for, when it is a scalar value in the range
its length is meant for. -/
def runeInRange (lo hi r : Nat) : Option Char :=
  if lo ≤ r ∧ r < hi ∧ r.isValidChar then some (Char.ofNat r) else none

/-- Reads UTF-8 bytes back into text, one byte at a time: `need` continuation bytes are still
to come for a code point whose bits so far are `acc` and which has to lie in the range from
`lo` up to `hi`. The answer is `none` on any ill-formed sequence. -/
def utf8DecodeFrom : Bytes → Nat → Nat → Nat → Nat → Option GoString
  | [], need, _, _, _ => if need = 0 then some [] else Option.none
  | b :: rest, 0, _, _, _ =>
    if b < 0x80 then
      (runeInRange 0 0x80 b).bind fun c => (utf8DecodeFrom rest 0 0 0 0).map (c :: ·)
    else if b < 0xC0 then Option.none
    else if b < 0xE0 then utf8DecodeFrom rest 1 (b - 0xC0) 0x80 0x800
    else if b < 0xF0 then utf8DecodeFrom rest 2 (b - 0xE0) 0x800 0x10000
    else if b < 0xF8 then utf8DecodeFrom rest 3 (b - 0xF0) 0x10000 0x110000
    else Option.none
  | b :: rest, need + 1, acc, lo, hi =>
    if isCont b then
      if need = 0 then
        (runeInRange lo hi (acc * 64 + (b - 0x80))).bind fun c =>
          (utf8DecodeFrom rest 0 0 0 0).map (c :: ·)
      else utf8DecodeFrom rest need (acc * 64 + (b - 0x80)) lo hi
    else Option.none

/-- Reads UTF-8 bytes back into text; `none` on any ill-formed sequence. -/
def utf8Decode (bs : Bytes) : Option GoString := utf8DecodeFrom bs 0 0 0 0

/-- The alphabet of base64.URLEncoding. -/
def b64Alphabet : List Char :=
  "ABCDEFGHIJKLMNOPQRSTUVWXYZabcdefghijklmnopqrstuvwxyz0123456789-_".toList

/-- The character written for a 6-bit value. -/
def b64Char (n : Nat) : Char := b64Alphabet.getD n 'A'

/-- The 6-bit value of a character of the alphabet. -/
def b64Index (c : Char) : Option Nat :=
  let i := b64Alphabet.indexOf c
  if i < 64 then some i else none

/-- The 6-bit groups of a byte string: three bytes give four groups, a last single byte two and
a last pair three, the unused low bits being zero. -/
def b64Groups : Bytes → List Nat
  | a :: b :: c :: rest =>
    a / 4 :: (a % 4 * 16 + b / 16) :: (b % 16 * 4 + c / 64) :: c % 64 :: b64Groups rest
  | [a, b] => [a / 4, a % 4 * 16 + b / 16, b % 16 * 4]
  | [a] => [a / 4, a % 4 * 16]
  | [] => []

/-- The encoding base64.RawURLEncoding.EncodeToString (no padding). -/
def b64Encode (bs : Bytes) : GoString := (b64Groups bs).map b64Char

/-- The 6-bit values of a text; `none` when a character is outside the alphabet (the padding
character included: RawURLEncoding has none). -/
def b64Values : GoString → Option (List Nat)
  | [] => some []
  | c :: cs => (b64Index c).bind fun v => (b64Values cs).map (v :: ·)

/-- Bytes of a sequence of 6-bit values. A last group of two or three values gives one or two
bytes and its unused low bits are dropped without a check (the decoder is not in strict mode);
a last group of a single value is an error. -/
def b64Bytes : List Nat → Option Bytes
  | a :: b :: c :: d :: rest =>
    (b64Bytes rest).map fun t => (a * 4 + b / 16) :: (b % 16 * 16 + c / 4) :: (c % 4 * 64 + d) :: t
  | [a, b, c] => some [a * 4 + b / 16, b % 16 * 16 + c / 4]
  | [a, b] => some [a * 4 + b / 16]
  | [_] => none
  | [] => some []

/-- The decoding base64.RawURLEncoding.DecodeString: carriage returns and line feeds are
skipped, every other character has to be in the alphabet. -/
def b64Decode (s : GoString) : Option Bytes :=
  (b64Values (s.filter fun c => c != '\n' && c != '\r')).bind b64Bytes

/-! ## strings -/

/-- The call strings.Split(s, sep) for a separator of one character. -/
def splitOnChar (sep : Char) : GoString → List GoString
  | [] => [[]]
  | c :: cs =>
    if c = sep then [] :: splitOnChar sep cs
    else
      match splitOnChar sep cs with
      | [] => [[c]]
      | p :: ps => (c :: p) :: ps

/-! ## encoding/json: what Marshal and Encoder.Encode write -/

/-- Lower-case hexadecimal digit. -/
def hexDigit (n : Nat) : Char := "0123456789abcdef".toList.getD n '0'

/-- What the encoder writes for one character of a string, HTML escaping being on (the default
of json.Marshal and of json.NewEncoder). -/
def jsonEscapeChar (c : Char) : List Char :=
  if c = '\x22' ∨ c = '\x5c' then ['\x5c', c]
  else if c = '\x08' then ['\x5c', 'b']
  else if c = '\x0c' then ['\x5c', 'f']
  else if c = '\n' then ['\x5c', 'n']
  else if c = '\r' then ['\x5c', 'r']
  else if c = '\t' then ['\x5c', 't']
  else if c.toNat < 0x20 ∨ c = '<' ∨ c = '>' ∨ c = '&' then
    ['\x5c', 'u', '0', '0', hexDigit (c.toNat / 16), hexDigit (c.toNat % 16)]
  else if c = '\u2028' ∨ c = '\u2029' then ['\x5c', 'u', '2', '0', '2', hexDigit (c.toNat % 16)]
  else [c]

/-- A JSON string literal. -/
def jsonQuote (s : GoString) : List Char := '\x22' :: s.flatMap jsonEscapeChar ++ ['\x22']

/-- Decimal digits of a number, most significant first. -/
def decDigits : Nat → Nat → List Char
  | 0, _ => []
  | fuel + 1, n =>
    if n < 10 then [Char.ofNat (48 + n)] else decDigits fuel (n / 10) ++ [Char.ofNat (48 + n % 10)]

/-- The call strconv.FormatInt(n, 10). -/
def formatInt (n : Int) : List Char :=
  if n < 0 then '-' :: decDigits (n.natAbs + 1) n.natAbs else decDigits (n.natAbs + 1) n.natAbs

/-- The member values that occur in the objects this program marshals. -/
inductive JVal where
  | str (s : GoString)
  | int (n : Int)
deriving DecidableEq

/-- The text of a member value. -/
def JVal.render : JVal → List Char
  | .str s => jsonQuote s
  | .int n => formatInt n

/-- The members of an object, separated by commas. -/
def renderMembers : List (GoString × JVal) → List Char
  | [] => []
  | [kv] => jsonQuote kv.1 ++ ':' :: kv.2.render
  | kv :: m :: ms => jsonQuote kv.1 ++ ':' :: kv.2.render ++ ',' :: renderMembers (m :: ms)

/-- The text of an object. -/
def renderObject (ms : List (GoString × JVal)) : List Char :=
  '\x7b' :: renderMembers ms ++ ['\x7d']

/-! ## encoding/json: a reference decoder

It reads objects whose member values are strings and integers, written without white space,
with the escapes of JSON except those naming surrogate halves. On any other input it answers
`none`. -/

/-- Value of a hexadecimal digit. -/
def hexValue (c : Char) : Option Nat :=
  if '0' ≤ c ∧ c ≤ '9' then some (c.toNat - 48)
  else if 'a' ≤ c ∧ c ≤ 'f' then some (c.toNat - 87)
  else if 'A' ≤ c ∧ c ≤ 'F' then some (c.toNat - 55)
  else none

/-- The character named by a one-letter escape. -/
def simpleEscape (c : Char) : Option Char :=
  if c = '\x22' ∨ c = '\x5c' ∨ c = '/' then some c
  else if c = 'b' then some '\x08'
  else if c = 'f' then some '\x0c'
  else if c = 'n' then some '\n'
  else if c = 'r' then some '\r'
  else if c = 't' then some '\t'
  else none

/-- Where the reader of a string literal stands: in plain text, after a backslash, or inside
a Unicode escape with some digits still to come. -/
inductive StringState where
  | plain
  | escape
  | hex (more : Nat) (acc : Nat)
deriving DecidableEq

/-- Reads a string literal one character at a time, from after its opening quote: the string
and what follows the closing quote. -/
def parseStringFrom : List Char → StringState → Option (GoString × List Char)
  | [], _ => Option.none
  | c :: rest, .plain =>
    if c = '\x22' then some ([], rest)
    else if c = '\x5c' then parseStringFrom rest .escape
    else if c.toNat < 0x20 then Option.none
    else (parseStringFrom rest .plain).map fun p => (c :: p.1, p.2)
  | c :: rest, .escape =>
    if c = 'u' then parseStringFrom rest (.hex 3 0)
    else (simpleEscape c).bind fun x => (parseStringFrom rest .plain).map fun p => (x :: p.1, p.2)
  | c :: rest, .hex 0 acc =>
    (hexValue c).bind fun v => (runeInRange 0 0x10000 (acc * 16 + v)).bind fun x =>
      (parseStringFrom rest .plain).map fun p => (x :: p.1, p.2)
  | c :: rest, .hex (more + 1) acc =>
    (hexValue c).bind fun v => parseStringFrom rest (.hex more (acc * 16 + v))

/-- Reads the rest of a string literal after its opening quote. -/
def parseStringBody (s : List Char) : Option (GoString × List Char) :=
  parseStringFrom s .plain

/-- Reads decimal digits into an accumulator. -/
def parseDigits : List Char → Nat → Nat × List Char
  | [], acc => (acc, [])
  | c :: cs, acc =>
    if '0' ≤ c ∧ c ≤ '9' then parseDigits cs (acc * 10 + (c.toNat - 48)) else (acc, c :: cs)

/-- Reads an integer: an optional minus sign and at least one digit. -/
def parseInt (s : List Char) : Option (Int × List Char) :=
  match s with
  | [] => none
  | c :: rest =>
    if c = '-' then
      match rest with
      | [] => none
      | d :: _ =>
        if '0' ≤ d ∧ d ≤ '9' then
          some (-((parseDigits rest 0).1 : Int), (parseDigits rest 0).2)
        else none
    else if '0' ≤ c ∧ c ≤ '9' then some (((parseDigits s 0).1 : Int), (parseDigits s 0).2)
    else none

/-- Reads a member value. -/
def parseValue (s : List Char) : Option (JVal × List Char) :=
  match s with
  | [] => none
  | c :: rest =>
    if c = '\x22' then (parseStringBody rest).map fun p => (JVal.str p.1, p.2)
    else (parseInt s).map fun p => (JVal.int p.1, p.2)

/-- Reads one member: a key, a colon and a value. -/
def parseMember (s : List Char) : Option ((GoString × JVal) × List Char) :=
  match s with
  | [] => Option.none
  | q :: rest =>
    if q = '\x22' then
      match parseStringBody rest with
      | some (k, colon :: rest1) =>
        if colon = ':' then (parseValue rest1).map fun v => ((k, v.1), v.2) else Option.none
      | _ => Option.none
    else Option.none

/-- Reads the members of an object up to and including the closing brace. -/
def parseMembers : Nat → List Char → Option (List (GoString × JVal) × List Char)
  | 0, _ => Option.none
  | fuel + 1, s =>
    match parseMember s with
    | some (m, d :: rest) =>
      if d = ',' then (parseMembers fuel rest).map fun ms => (m :: ms.1, ms.2)
      else if d = '\x7d' then some ([m], rest)
      else Option.none
    | _ => Option.none

/-- Reads a whole object; nothing may follow it. -/
def parseObject (s : List Char) : Option (List (GoString × JVal)) :=
  match s with
  | [] => none
  | c :: rest =>
    if c = '\x7b' then
      if rest = ['\x7d'] then some []
      else
        match parseMembers rest.length rest with
        | some (ms, []) => some ms
        | _ => none
    else none

/-! ## github.com/golang-jwt/jwt/v5 -/

/-- The hash functions of the registered signing methods. -/
inductive Hash where
  | SHA256
  | SHA384
  | SHA512
deriving DecidableEq

/-- The registered signing methods, by family. -/
inductive SigningMethod where
  | HMAC (h : Hash)
  | RSA (h : Hash)
  | RSAPSS (h : Hash)
  | ECDSA (h : Hash)
  | Ed25519
  | none
deriving DecidableEq

/-- Parameters of a hash function. -/
def Hash.params : Hash → Sha2Params
  | .SHA256 => sha256Params
  | .SHA384 => sha384Params
  | .SHA512 => sha512Params

/-- Digits in the name of a method using the given hash. -/
def Hash.suffix : Hash → GoString
  | .SHA256 => "256".toList
  | .SHA384 => "384".toList
  | .SHA512 => "512".toList

/-- The method Alg(): the name of a method in a token header. -/
def SigningMethod.Alg : SigningMethod → GoString
  | .HMAC h => "HS".toList ++ h.suffix
  | .RSA h => "RS".toList ++ h.suffix
  | .RSAPSS h => "PS".toList ++ h.suffix
  | .ECDSA h => "ES".toList ++ h.suffix
  | .Ed25519 => "EdDSA".toList
  | .none => "none".toList

/-- Every method the package registers. -/
def registeredMethods : List SigningMethod :=
  [.HMAC .SHA256, .HMAC .SHA384, .HMAC .SHA512, .RSA .SHA256, .RSA .SHA384, .RSA .SHA512,
   .RSAPSS .SHA256, .RSAPSS .SHA384, .RSAPSS .SHA512, .ECDSA .SHA256, .ECDSA .SHA384,
   .ECDSA .SHA512, .Ed25519, .none]

/-- The lookup jwt.GetSigningMethod(alg); `none` stands for the nil method. -/
def GetSigningMethod (alg : GoString) : Option SigningMethod :=
  registeredMethods.find? fun m => m.Alg = alg

/-- The struct auth.Claims: UserID, Role and the embedded jwt.RegisteredClaims. A NumericDate
is a whole number of seconds since the Unix epoch, `none` a nil pointer. The registered
claims iss, sub, aud and jti are left out: neither the program nor the default validator reads
them. -/
structure Claims where
  UserID : GoString
  Role : GoString
  ExpiresAt : Option Int
  NotBefore : Option Int
  IssuedAt : Option Int
deriving DecidableEq

/-- A value of the empty interface type in a decoded token header, as far as it is inspected:
a string, or anything else. -/
inductive Iface where
  | string (s : GoString)
  | other
deriving DecidableEq

/-- The map token.Header. -/
abbrev Header := GoString → Option Iface

/-- The two calls of json.Unmarshal made while parsing a token: into the header map and into
the claims struct; `none` is a decoding error. The decoder is an argument of the model: what
it answers on texts that json.Marshal did not write is left open. -/
structure JSONDecoder where
  unmarshalHeader : Bytes → Option Header
  unmarshalClaims : Bytes → Option Claims

/-- The errors of token handling. -/
inductive JWTError where
  | tokenMalformed
  | tokenUnverifiable
  | tokenSignatureInvalid
  | tokenExpired
  | tokenNotValidYet
  | invalidKeyType
  | invalidToken
deriving DecidableEq

/-- The struct jwt.Token. -/
structure Token where
  Raw : GoString
  Method : SigningMethod
  Header : Header
  Claims : Claims
  Signature : Bytes
  Valid : Bool

/-- Nanoseconds in a second. -/
def Second : Int := 1000000000

/-- Nanoseconds in an hour. -/
def Hour : Int := 3600 * Second

/-- The constructor jwt.NewNumericDate(t): the instant truncated to jwt.TimePrecision, which is
one second. -/
def NewNumericDate (t : Int) : Int := t / Second

/-- The instant a NumericDate stands for, in nanoseconds. -/
def numericDateTime (d : Int) : Int := d * Second

/-- The members json.Marshal writes for a claims struct: user_id and role always, the dates
only when set (omitempty). -/
def claimsMembers (c : Claims) : List (GoString × JVal) :=
  [("user_id".toList, JVal.str c.UserID), ("role".toList, JVal.str c.Role)]
    ++ (c.ExpiresAt.map fun t => ("exp".toList, JVal.int t)).toList
    ++ (c.NotBefore.map fun t => ("nbf".toList, JVal.int t)).toList
    ++ (c.IssuedAt.map fun t => ("iat".toList, JVal.int t)).toList

/-- The call json.Marshal(t.Claims). -/
def marshalClaims (c : Claims) : Bytes := utf8Encode (renderObject (claimsMembers c))

/-- The call json.Marshal(t.Header) for the header of a new token; map keys are written in
sorted order. -/
def marshalHeader (m : SigningMethod) : Bytes :=
  utf8Encode (renderObject [("alg".toList, JVal.str m.Alg), ("typ".toList, JVal.str "JWT".toList)])

/-- The method Sign called with a key of type []byte: the HMAC methods compute the keyed hash,
every other method refuses the key. -/
def SigningMethod.Sign (m : SigningMethod) (signingString : GoString) (key : Bytes) :
    Except JWTError Bytes :=
  match m with
  | .HMAC h => .ok (hmacSum h.params key (utf8Encode signingString))
  | _ => .error .invalidKeyType

/-- The method Verify called with a key of type []byte: hmac.Equal of the given signature and
the recomputed one; every other method refuses the key. -/
def SigningMethod.Verify (m : SigningMethod) (signingString : GoString) (sig key : Bytes) :
    Except JWTError Unit :=
  match m with
  | .HMAC h =>
    if sig = hmacSum h.params key (utf8Encode signingString) then .ok ()
    else .error .tokenSignatureInvalid
  | _ => .error .invalidKeyType

/-- The method SigningString of a new token. -/
def SigningString (m : SigningMethod) (c : Claims) : GoString :=
  b64Encode (marshalHeader m) ++ '.' :: b64Encode (marshalClaims c)

/-- The calls jwt.NewWithClaims(m, c).SignedString(key). -/
def SignedString (m : SigningMethod) (c : Claims) (key : Bytes) : Except JWTError GoString :=
  match m.Sign (SigningString m c) key with
  | .ok sig => .ok (SigningString m c ++ '.' :: b64Encode sig)
  | .error e => .error e

/-- The default validator: exp is checked when present (it is not required), nbf is checked
when present, iat is not checked, and no issuer, subject or audience is expected. -/
def Validate (now : Int) (c : Claims) : Except JWTError Unit :=
  match c.ExpiresAt with
  | some exp =>
    if now < numericDateTime exp then
      match c.NotBefore with
      | some nbf => if now < numericDateTime nbf then .error .tokenNotValidYet else .ok ()
      | none => .ok ()
    else .error .tokenExpired
  | none =>
    match c.NotBefore with
    | some nbf => if now < numericDateTime nbf then .error .tokenNotValidYet else .ok ()
    | none => .ok ()

/-- The method Parser.ParseUnverified: three segments, header and claims decoded, and the
method named by the header looked up. -/
def ParseUnverified (D : JSONDecoder) (tokenString : GoString) :
    Except JWTError (Token × List GoString) :=
  let parts := splitOnChar '.' tokenString
  if parts.length ≠ 3 then .error .tokenMalformed
  else
    match b64Decode (parts.getD 0 []) with
    | none => .error .tokenMalformed
    | some headerBytes =>
      match D.unmarshalHeader headerBytes with
      | none => .error .tokenMalformed
      | some header =>
        match b64Decode (parts.getD 1 []) with
        | none => .error .tokenMalformed
        | some claimBytes =>
          match D.unmarshalClaims claimBytes with
          | none => .error .tokenMalformed
          | some claims =>
            match header "alg".toList with
            | some (.string alg) =>
              match GetSigningMethod alg with
              | some method =>
                .ok ({ Raw := tokenString, Method := method, Header := header, Claims := claims,
                       Signature := [], Valid := false }, parts)
              | none => .error .tokenUnverifiable
            | _ => .error .tokenUnverifiable

/-- The function jwt.ParseWithClaims with the default parser: the signature segment is
decoded, the key function is asked for the key, the method verifies the signature over the
first two segments, and the claims are validated against the clock. -/
def ParseWithClaims (D : JSONDecoder) (now : Int) (tokenString : GoString)
    (keyFunc : Token → Except GoString Bytes) : Except JWTError Token :=
  match ParseUnverified D tokenString with
  | .error e => .error e
  | .ok (token, parts) =>
    match b64Decode (parts.getD 2 []) with
    | none => .error .tokenMalformed
    | some sig =>
      match keyFunc token with
      | .error _ => .error .tokenUnverifiable
      | .ok key =>
        match token.Method.Verify (parts.getD 0 [] ++ '.' :: parts.getD 1 []) sig key with
        | .error _ => .error .tokenSignatureInvalid
        | .ok _ =>
          match Validate now token.Claims with
          | .error e => .error e
          | .ok _ => .ok { token with Signature := sig, Valid := true }

/-! ## internal/auth/jwt.go -/

/-- The struct JWTManager. -/
structure JWTManager where
  SecretKey : GoString
  TokenDuration : Int

/-- The constructor NewJWTManager. -/
def NewJWTManager (secretKey : GoString) (duration : Int) : JWTManager :=
  { SecretKey := secretKey, TokenDuration := duration }

/-- The claims Generate builds; `now` is what time.Now() returns. -/
def JWTManager.newClaims (j : JWTManager) (now : Int) (userID role : GoString) : Claims :=
  { UserID := userID, Role := role,
    ExpiresAt := some (NewNumericDate (now + j.TokenDuration)),
    NotBefore := Option.none, IssuedAt := Option.none }

/-- The method Generate; `now` is what time.Now() returns. -/
def JWTManager.Generate (j : JWTManager) (now : Int) (userID role : GoString) :
    Except JWTError GoString :=
  let claims := j.newClaims now userID role
  SignedString (.HMAC .SHA256) claims (utf8Encode j.SecretKey)

/-- The key function Verify passes to the parser. -/
def JWTManager.keyFunc (j : JWTManager) (token : Token) : Except GoString Bytes :=
  match token.Method with
  | .HMAC _ => .ok (utf8Encode j.SecretKey)
  | _ => .error "unexpected signing method".toList

/-- The method Verify; `now` is the clock the validator reads. -/
def JWTManager.Verify (D : JSONDecoder) (j : JWTManager) (now : Int) (tokenStr : GoString) :
    Except JWTError Claims :=
  match ParseWithClaims D now tokenStr j.keyFunc with
  | .error e => .error e
  | .ok token => if !token.Valid then .error .invalidToken else .ok token.Claims

/-! ## A reference JSON decoder for headers and claims -/

/-- The zero value of the claims struct, which json.Unmarshal fills in. -/
def zeroClaims : Claims :=
  { UserID := [], Role := [], ExpiresAt := Option.none, NotBefore := Option.none,
    IssuedAt := Option.none }

/-- Stores one object member into the claims struct: a known key needs a value of its type,
an unknown key is skipped. -/
def Claims.setMember (c : Claims) (kv : GoString × JVal) : Option Claims :=
  if kv.1 = "user_id".toList then
    match kv.2 with
    | .str s => some { c with UserID := s }
    | _ => Option.none
  else if kv.1 = "role".toList then
    match kv.2 with
    | .str s => some { c with Role := s }
    | _ => Option.none
  else if kv.1 = "exp".toList then
    match kv.2 with
    | .int n => some { c with ExpiresAt := some n }
    | _ => Option.none
  else if kv.1 = "nbf".toList then
    match kv.2 with
    | .int n => some { c with NotBefore := some n }
    | _ => Option.none
  else if kv.1 = "iat".toList then
    match kv.2 with
    | .int n => some { c with IssuedAt := some n }
    | _ => Option.none
  else some c

/-- Stores the members of an object in order, so that a later duplicate wins. -/
def setMembers : Claims → List (GoString × JVal) → Option Claims
  | c, [] => some c
  | c, kv :: rest => (c.setMember kv).bind fun c1 => setMembers c1 rest

/-- The header map holding the members of an object; a later duplicate wins. -/
def headerOfMembers (ms : List (GoString × JVal)) : Header := fun k =>
  (ms.reverse.find? fun kv => kv.1 = k).map fun kv =>
    match kv.2 with
    | .str s => Iface.string s
    | .int _ => Iface.other

/-- The reference decoder: it reads back the objects json.Marshal writes for headers and claims.
Unlike encoding/json it matches member names letter by letter and refuses an object that holds
a member value other than a string or an integer; the theorems below use it on tokens that
Generate wrote. -/
def goJSON : JSONDecoder :=
  { unmarshalHeader := fun bs => ((utf8Decode bs).bind parseObject).map headerOfMembers
    unmarshalClaims := fun bs => ((utf8Decode bs).bind parseObject).bind (setMembers zeroClaims) }

/-- A decoder reads back the header of a new token and the given claims as json.Marshal wrote
them. For encoding/json this holds of all text and of every date that a float64 holds
exactly. -/
def JSONDecoder.ReadsBack (D : JSONDecoder) (m : SigningMethod) (c : Claims) : Prop :=
  (∃ h, D.unmarshalHeader (marshalHeader m) = some h ∧ h "alg".toList = some (Iface.string m.Alg))
    ∧ D.unmarshalClaims (marshalClaims c) = some c

/-! ## net/http and context -/

/-- A value stored in a request context: a pointer to claims, or anything else. -/
inductive CtxValue where
  | claims (c : Claims)
  | other
deriving DecidableEq

/-- The struct http.Request, as far as the middleware reads it: the first value of each header
field, the context as the list of its key and value pairs (newest first), and the URL path. -/
structure Request where
  Header : List (GoString × GoString)
  Context : List (GoString × CtxValue)
  Path : GoString
deriving DecidableEq

/-- The call r.Header.Get(key): the empty string when the field is absent. -/
def Request.HeaderGet (r : Request) (key : GoString) : GoString :=
  ((r.Header.find? fun kv => kv.1 = key).map fun kv => kv.2).getD []

/-- The call r.WithContext(context.WithValue(r.Context(), key, v)). -/
def Request.WithValue (r : Request) (key : GoString) (v : CtxValue) : Request :=
  { r with Context := (key, v) :: r.Context }

/-- The call r.Context().Value(key). -/
def Request.Value (r : Request) (key : GoString) : Option CtxValue :=
  (r.Context.find? fun kv => kv.1 = key).map fun kv => kv.2

/-- What a handler does to an http.ResponseWriter. -/
inductive WriterOp where
  | setHeader (key value : GoString)
  | writeHeader (statusCode : Nat)
  | write (p : GoString)
deriving DecidableEq

/-- An http.ResponseWriter: the operations performed on it so far, oldest first. -/
structure ResponseWriter where
  ops : List WriterOp
deriving DecidableEq

/-- One more operation on a writer. -/
def ResponseWriter.push (w : ResponseWriter) (op : WriterOp) : ResponseWriter :=
  { ops := w.ops ++ [op] }

/-- The status code of the response: that of the first WriteHeader, or 200 when the body was
written first; `none` while neither has happened. -/
def ResponseWriter.status (w : ResponseWriter) : Option Nat :=
  w.ops.findSome? fun op =>
    match op with
    | .writeHeader code => some code
    | .write _ => some 200
    | .setHeader _ _ => Option.none

/-- Everything written to the body. -/
def ResponseWriter.body (w : ResponseWriter) : GoString :=
  w.ops.flatMap fun op =>
    match op with
    | .write p => p
    | _ => []

/-- An http.HandlerFunc. -/
abbrev HandlerFunc := ResponseWriter → Request → ResponseWriter

/-! ## internal/helper/response.go -/

/-- The order in which the encoder writes the keys of a map: byte by byte, which for text is
character by character. -/
def keyLE : GoString → GoString → Bool
  | [], _ => true
  | _ :: _, [] => false
  | a :: as, b :: bs => if a < b then true else if a = b then keyLE as bs else false

/-- The entries of a map of strings in the order of their keys. -/
def sortEntries (m : List (GoString × GoString)) : List (GoString × GoString) :=
  m.insertionSort fun a b => keyLE a.1 b.1 = true

/-- The output of json.NewEncoder(w).Encode(resp) for an ErrorResponse holding fieldErrors, and
for a map holding fieldErrors under the key errors: the object, its entries in the order of
their keys, then a line feed. The map is given as the list of its entries. -/
def encodeErrorResponse (fieldErrors : List (GoString × GoString)) : GoString :=
  '\x7b' :: jsonQuote "errors".toList ++ ':'
    :: renderObject ((sortEntries fieldErrors).map fun kv => (kv.1, JVal.str kv.2))
    ++ ['\x7d', '\n']

/-- The function WriteErrorResponse. -/
def WriteErrorResponse (w : ResponseWriter) (statusCode : Nat)
    (fieldErrors : List (GoString × GoString)) : ResponseWriter :=
  ((w.push (.setHeader "Content-Type".toList "application/json".toList)).push
    (.writeHeader statusCode)).push (.write (encodeErrorResponse fieldErrors))

/-- The function WriteSimpleError. -/
def WriteSimpleError (w : ResponseWriter) (statusCode : Nat) (message : GoString) :
    ResponseWriter :=
  WriteErrorResponse w statusCode [("message".toList, message)]

/-! ## internal/auth/middleware.go -/

/-- What one run of the middleware leaves behind: the response writer, and the requests it
handed to the wrapped handler, in order. -/
structure Outcome where
  w : ResponseWriter
  calls : List Request
deriving DecidableEq

/-- The handler returned by NewAuthMiddleware(secret)(allowedRoles...)(next), applied to a
writer and a request; `now` is the clock at the time of the request. -/
def NewAuthMiddleware (D : JSONDecoder) (secret : GoString) (allowedRoles : List GoString)
    (next : HandlerFunc) (now : Int) (w : ResponseWriter) (r : Request) : Outcome :=
  let authHeader := r.HeaderGet "Authorization".toList
  if authHeader = [] then
    { w := WriteSimpleError w 401 "Missing Authorization header".toList, calls := [] }
  else
    let tokenParts := splitOnChar ' ' authHeader
    if tokenParts.length ≠ 2 ∨ tokenParts.getD 0 [] ≠ "Bearer".toList then
      { w := WriteSimpleError w 401 "Invalid Authorization header format".toList, calls := [] }
    else
      let tokenStr := tokenParts.getD 1 []
      let jwtManager := NewJWTManager secret (24 * Hour)
      match jwtManager.Verify D now tokenStr with
      | .error _ =>
        { w := WriteSimpleError w 401 "Invalid or expired token".toList, calls := [] }
      | .ok claims =>
        let allowed := allowedRoles.any fun role => claims.Role = role
        if !allowed then
          { w := WriteSimpleError w 403 "Access denied: insufficient permissions".toList,
            calls := [] }
        else
          let r1 := r.WithValue "claims".toList (.claims claims)
          { w := next w r1, calls := [r1] }

/-! ## Sample values -/

/-- A clock reading: 14 November 2023, 22:13:20 UTC and some nanoseconds. -/
def sampleNow : Int := 1700000000123456789

/-- A manager as the middleware builds it. -/
def sampleManager : JWTManager := NewJWTManager "secret".toList (24 * Hour)

/-- The claims the sample manager issues at the sample time for subject u1 and role customer. -/
def sampleClaims : Claims :=
  { UserID := "u1".toList, Role := "customer".toList, ExpiresAt := some 1700086400,
    NotBefore := Option.none, IssuedAt := Option.none }

/-- The first two segments of the sample token, with the dot that ends them. -/
def sampleSigned : GoString :=
  ("eyJhbGciOiJIUzI1NiIsInR5cCI6IkpXVCJ9"
    ++ ".eyJ1c2VyX2lkIjoidTEiLCJyb2xlIjoiY3VzdG9tZXIiLCJleHAiOjE3MDAwODY0MDB9.").toList

/-- The token the sample manager issues at the sample time for subject u1 and role customer. -/
def sampleToken : GoString := sampleSigned ++ "3gAzpGDaNR-oSDSkha4hlNm_BqRDSS5H_EP-BnZou34".toList

/-- The sample token with the last character of its third segment changed from 4 to 5. -/
def sampleTokenAltered : GoString :=
  sampleSigned ++ "3gAzpGDaNR-oSDSkha4hlNm_BqRDSS5H_EP-BnZou35".toList

/-- A token signed with the sample secret whose claims carry no expiry. -/
def sampleTokenNoExpiry : GoString :=
  ("eyJhbGciOiJIUzI1NiIsInR5cCI6IkpXVCJ9.eyJ1c2VyX2lkIjoidTEiLCJyb2xlIjoiY3VzdG9tZXIifQ"
    ++ ".LZU9qixdkXg5NmezdQxHY_SFv3KUOJCOoJYOdJpf-_0").toList

/-- An unsigned token whose header names the method none and whose claims name the role
admin. -/
def sampleTokenNone : GoString :=
  "eyJhbGciOiJub25lIiwidHlwIjoiSldUIn0.eyJ1c2VyX2lkIjoidTEiLCJyb2xlIjoiYWRtaW4ifQ.".toList

/-- A request carrying the given value in its Authorization header. -/
def sampleRequest (authorization : GoString) : Request :=
  { Header := [("Authorization".toList, authorization)], Context := [],
    Path := "/api/orders".toList }

/-- A request without any header. -/
def bareRequest : Request := { Header := [], Context := [], Path := "/api/orders".toList }

/-- A writer on which nothing has been done yet. -/
def freshWriter : ResponseWriter := { ops := [] }

/-- A handler that answers 200 with a short body. -/
def okHandler : HandlerFunc := fun w _ => (w.push (.writeHeader 200)).push (.write "ok".toList)

/-- The body of a simple error response carrying the given message: the JSON object and the
line feed the encoder ends it with. -/
def simpleErrorBody (message : String) : GoString :=
  ("\x7b\x22errors\x22:\x7b\x22message\x22:\x22" ++ message ++ "\x22\x7d\x7d\n").toList

/-! ## github.com/go-playground/validator/v10

The payloads of this program are structs of strings, numbers, byte arrays, times and slices,
with at most one level of nesting (an embedded struct, or a slice of structs). The model holds
such a struct as the list of its exported fields, each with the constraints of its validate
tag, which is what the library reads through reflection. -/

/-- A field value without fields of its own. A float64 is held as the rational number it
stands for (a finite float64 is rational; JSON carries no others). -/
inductive Scalar where
  | string (s : GoString)
  | int (n : Int)
  | float (x : ℚ)
  | bool (b : Bool)
  | bytes (elems : Bytes)
  | time (t : Int)
  | strings (elems : Option (List GoString))
deriving DecidableEq

/-- The constraints that occur in the validate tags of this program. -/
inductive Tag where
  | required
  | omitempty
  | min (n : Nat)
  | max (n : Nat)
  | gt (n : Nat)
  | gte (n : Nat)
  | email
  | e164
  | oneof (vals : List GoString)
  | dive
deriving DecidableEq

/-- The name of a constraint, which FieldError.Tag() returns. -/
def Tag.name : Tag → GoString
  | .required => "required".toList
  | .omitempty => "omitempty".toList
  | .min _ => "min".toList
  | .max _ => "max".toList
  | .gt _ => "gt".toList
  | .gte _ => "gte".toList
  | .email => "email".toList
  | .e164 => "e164".toList
  | .oneof _ => "oneof".toList
  | .dive => "dive".toList

/-- The text after the equals sign of a constraint, which FieldError.Param() returns. -/
def Tag.param : Tag → GoString
  | .min n => formatInt n
  | .max n => formatInt n
  | .gt n => formatInt n
  | .gte n => formatInt n
  | .oneof vals => List.intercalate " ".toList vals
  | _ => []

/-- One entry of validator.ValidationErrors. -/
structure FieldError where
  Namespace : GoString
  Field : GoString
  Tag : GoString
  Param : GoString
deriving DecidableEq

/-- A validator instance, as validator.New() builds it. The pattern behind the email
constraint is an argument of the model. -/
structure Validator where
  isEmail : GoString → Bool

/-- The instant time.Time holds as its zero value: the first of January of the year 1. -/
def zeroTime : Int := -62135596800 * Second

/-- The test behind required and omitempty: a slice is there when it is not nil, any other
value when it is not the zero value of its type. -/
def Scalar.hasValue : Scalar → Bool
  | .string s => decide (s ≠ [])
  | .int n => decide (n ≠ 0)
  | .float x => decide (x ≠ 0)
  | .bool b => b
  | .bytes elems => elems.any fun b => decide (b ≠ 0)
  | .time t => decide (t ≠ zeroTime)
  | .strings elems => elems.isSome

/-- The test behind min and gte: the number of characters of a string, the length of a slice
or array, or the number itself is at least the parameter. -/
def Scalar.atLeast (v : Scalar) (p : Nat) : Bool :=
  match v with
  | .string s => decide (p ≤ s.length)
  | .int n => decide ((p : Int) ≤ n)
  | .float x => decide ((p : ℚ) ≤ x)
  | .bytes elems => decide (p ≤ elems.length)
  | .strings elems => decide (p ≤ (elems.getD []).length)
  | _ => false

/-- The test behind max. -/
def Scalar.atMost (v : Scalar) (p : Nat) : Bool :=
  match v with
  | .string s => decide (s.length ≤ p)
  | .int n => decide (n ≤ (p : Int))
  | .float x => decide (x ≤ (p : ℚ))
  | .bytes elems => decide (elems.length ≤ p)
  | .strings elems => decide ((elems.getD []).length ≤ p)
  | _ => false

/-- The test behind gt. -/
def Scalar.above (v : Scalar) (p : Nat) : Bool :=
  match v with
  | .string s => decide (p < s.length)
  | .int n => decide ((p : Int) < n)
  | .float x => decide ((p : ℚ) < x)
  | .bytes elems => decide (p < elems.length)
  | .strings elems => decide (p < (elems.getD []).length)
  | _ => false

/-- The pattern behind e164: a plus sign, then seven to fourteen digits, before which one
more digit other than zero may stand. -/
def isE164 (s : GoString) : Bool :=
  match s with
  | '+' :: ds =>
    ds.all (fun c => decide ('0' ≤ c ∧ c ≤ '9'))
      && ((decide (7 ≤ ds.length) && decide (ds.length ≤ 14))
        || (decide (ds.length = 15) && decide (ds.head? ≠ some '0')))
  | _ => false

/-- Whether a value meets a constraint. The words omitempty and dive steer the walk over the
tag and are met by every value. -/
def Tag.check (V : Validator) (t : Tag) (v : Scalar) : Bool :=
  match t with
  | .required => v.hasValue
  | .omitempty => true
  | .min n => v.atLeast n
  | .max n => v.atMost n
  | .gt n => v.above n
  | .gte n => v.atLeast n
  | .email =>
    match v with
    | .string s => V.isEmail s
    | _ => false
  | .e164 =>
    match v with
    | .string s => isE164 s
    | _ => false
  | .oneof vals =>
    match v with
    | .string s => decide (s ∈ vals)
    | .int n => decide (formatInt n ∈ vals)
    | _ => false
  | .dive => true

/-- The walk over the constraints of a field that holds a scalar: omitempty ends it on an
empty value, and the first constraint the value does not meet ends it with one error. -/
def traverseScalar (V : Validator) (ns name : GoString) (v : Scalar) :
    List Tag → List FieldError
  | [] => []
  | .omitempty :: rest => if v.hasValue then traverseScalar V ns name v rest else []
  | .dive :: _ => []
  | t :: rest =>
    if t.check V v then traverseScalar V ns name v rest
    else [{ Namespace := ns ++ name, Field := name, Tag := t.name, Param := t.param }]

/-- A field that holds a scalar. -/
structure Leaf where
  name : GoString
  tags : List Tag
  value : Scalar
deriving DecidableEq

/-- A field of a payload: a scalar, a struct without tag (its fields are validated in turn),
or a slice of structs. -/
inductive Field where
  | leaf (f : Leaf)
  | nested (name : GoString) (fields : List Leaf)
  | slice (name : GoString) (tags : List Tag) (elems : Option (List (List Leaf)))
deriving DecidableEq

/-- The name of a field. -/
def Field.name : Field → GoString
  | .leaf f => f.name
  | .nested name _ => name
  | .slice name _ _ => name

/-- A payload: the name of its type and its exported fields in declaration order. -/
structure StructValue where
  name : GoString
  fields : List Field
deriving DecidableEq

/-- The walk over the fields of a struct all of whose fields hold scalars. A field whose
name, after the names of the structs around it, is excluded is passed over; every other field
is visited, whatever the fields before it gave. -/
def validateLeaves (V : Validator) (excluded : List GoString) (structNs : GoString) :
    List Leaf → List FieldError
  | [] => []
  | f :: rest =>
    (if structNs ++ f.name ∈ excluded then []
      else traverseScalar V structNs f.name f.value f.tags)
      ++ validateLeaves V excluded structNs rest

/-- The walk over the elements of a slice of structs, from the given index on: each element is
validated under the name of the slice with the index in brackets. -/
def diveElements (V : Validator) (excluded : List GoString) (ns name : GoString) :
    Nat → List (List Leaf) → List FieldError
  | _, [] => []
  | i, e :: rest =>
    validateLeaves V excluded (ns ++ name ++ '[' :: formatInt i ++ "].".toList) e
      ++ diveElements V excluded ns name (i + 1) rest

/-- Whether a slice meets a constraint on the slice itself. -/
def Tag.checkSlice (t : Tag) (elems : Option (List (List Leaf))) : Bool :=
  match t with
  | .required => elems.isSome
  | .omitempty => true
  | .min n => decide (n ≤ (elems.getD []).length)
  | .max n => decide ((elems.getD []).length ≤ n)
  | .gt n => decide (n < (elems.getD []).length)
  | .gte n => decide (n ≤ (elems.getD []).length)
  | .dive => true
  | _ => false

/-- The walk over the constraints of a field that holds a slice of structs: as for a scalar,
and dive visits the elements. -/
def traverseSlice (V : Validator) (excluded : List GoString) (ns name : GoString)
    (elems : Option (List (List Leaf))) : List Tag → List FieldError
  | [] => []
  | .omitempty :: rest =>
    if elems.isSome then traverseSlice V excluded ns name elems rest else []
  | .dive :: _ => diveElements V excluded ns name 0 (elems.getD [])
  | t :: rest =>
    if t.checkSlice elems then traverseSlice V excluded ns name elems rest
    else [{ Namespace := ns ++ name, Field := name, Tag := t.name, Param := t.param }]

/-- The walk over one field. -/
def traverseField (V : Validator) (excluded : List GoString) (ns : GoString) :
    Field → List FieldError
  | .leaf f => traverseScalar V ns f.name f.value f.tags
  | .nested name fields => validateLeaves V excluded (ns ++ name ++ ".".toList) fields
  | .slice name tags elems => traverseSlice V excluded ns name elems tags

/-- The walk over the fields of a payload (validateStruct): a field whose name, after the
names of the structs around it, is excluded is passed over; every other field is visited,
whatever the fields before it gave. -/
def validateFields (V : Validator) (excluded : List GoString) (ns : GoString) :
    List Field → List FieldError
  | [] => []
  | f :: rest =>
    (if ns ++ f.name ∈ excluded then [] else traverseField V excluded ns f)
      ++ validateFields V excluded ns rest

/-- The name of a struct type and a dot, with which the names of its fields begin; nothing
for a type without name. -/
def StructValue.namespace (s : StructValue) : GoString :=
  if s.name = [] then [] else s.name ++ ".".toList

/-- The values of type error that reach the error responder: the violation list of the
validator, or any other error with its text. -/
inductive GoError where
  | validationErrors (errs : List FieldError)
  | other (text : GoString)
deriving DecidableEq

/-- The error a walk ends with: nil when no violation was found. -/
def toError (errs : List FieldError) : Option GoError :=
  if errs = [] then Option.none else some (.validationErrors errs)

/-- The method Struct of a validator. -/
def Validator.Struct (V : Validator) (s : StructValue) : Option GoError :=
  toError (validateFields V [] s.namespace s.fields)

/-- The method StructExcept of a validator. -/
def Validator.StructExcept (V : Validator) (s : StructValue) (fields : List GoString) :
    Option GoError :=
  toError (validateFields V (fields.map fun key => s.namespace ++ key) s.namespace s.fields)

/-- The violations an error carries. -/
def violations : Option GoError → List FieldError
  | some (.validationErrors errs) => errs
  | _ => []

/-! ## internal/types -/

/-- The type primitive.ObjectID: an array of twelve bytes. -/
abbrev ObjectID := Bytes

/-- The method IsZero of an ObjectID: every byte is zero. -/
def ObjectID.IsZero (id : ObjectID) : Bool := id.all fun b => decide (b = 0)

/-- The struct types.Base. -/
structure Base where
  ID : ObjectID
  CreatedAt : Int
  UpdatedAt : Int
deriving DecidableEq

/-- The struct types.User. -/
structure User where
  ID : ObjectID
  Name : GoString
  Email : GoString
  Password : GoString
  Role : GoString
  CreatedAt : Int
  UpdatedAt : Int
deriving DecidableEq

/-- The struct types.MenuItem. -/
structure MenuItem where
  Base : Base
  Restaurant : ObjectID
  Name : GoString
  Category : GoString
  Price : ℚ
  Available : Bool
deriving DecidableEq

/-- The struct types.OrderItem. -/
structure OrderItem where
  MenuItemID : ObjectID
  Quantity : Int
  Price : ℚ
deriving DecidableEq

/-- The struct types.Order; a nil slice of items is `none`. -/
structure Order where
  Base : Base
  UserID : ObjectID
  Restaurant : ObjectID
  Items : Option (List OrderItem)
  Status : GoString
  TotalPrice : ℚ
deriving DecidableEq

/-- The fields of types.Base; none carries a validate tag. -/
def Base.leaves (b : Base) : List Leaf :=
  [{ name := "ID".toList, tags := [], value := .bytes b.ID },
   { name := "CreatedAt".toList, tags := [], value := .time b.CreatedAt },
   { name := "UpdatedAt".toList, tags := [], value := .time b.UpdatedAt }]

/-- What the validator sees of a user: the fields of types.User with their validate tags. -/
def User.toStruct (u : User) : StructValue :=
  { name := "User".toList,
    fields :=
      [.leaf { name := "ID".toList, tags := [], value := .bytes u.ID },
       .leaf { name := "Name".toList, tags := [.required, .min 2, .max 100],
               value := .string u.Name },
       .leaf { name := "Email".toList, tags := [.required, .email], value := .string u.Email },
       .leaf { name := "Password".toList, tags := [.required, .min 8],
               value := .string u.Password },
       .leaf { name := "Role".toList,
               tags := [.omitempty, .oneof ["admin".toList, "customer".toList]],
               value := .string u.Role },
       .leaf { name := "CreatedAt".toList, tags := [], value := .time u.CreatedAt },
       .leaf { name := "UpdatedAt".toList, tags := [], value := .time u.UpdatedAt }] }

/-- What the validator sees of a menu item. -/
def MenuItem.toStruct (m : MenuItem) : StructValue :=
  { name := "MenuItem".toList,
    fields :=
      [.nested "Base".toList m.Base.leaves,
       .leaf { name := "Restaurant".toList, tags := [.required], value := .bytes m.Restaurant },
       .leaf { name := "Name".toList, tags := [.required, .min 1, .max 100],
               value := .string m.Name },
       .leaf { name := "Category".toList, tags := [.required, .min 1, .max 50],
               value := .string m.Category },
       .leaf { name := "Price".toList, tags := [.required, .gt 0], value := .float m.Price },
       .leaf { name := "Available".toList, tags := [], value := .bool m.Available }] }

/-- The fields of types.OrderItem with their validate tags. -/
def OrderItem.leaves (i : OrderItem) : List Leaf :=
  [{ name := "MenuItemID".toList, tags := [.required], value := .bytes i.MenuItemID },
   { name := "Quantity".toList, tags := [.required, .gt 0], value := .int i.Quantity },
   { name := "Price".toList, tags := [.required, .gt 0], value := .float i.Price }]

/-- The order statuses of internal/types/constant.go, as the oneof tag of Order.Status lists
them. -/
def orderStatuses : List GoString :=
  ["pending".toList, "preparing".toList, "ready".toList, "completed".toList,
   "cancelled".toList]

/-- What the validator sees of an order. -/
def Order.toStruct (o : Order) : StructValue :=
  { name := "Order".toList,
    fields :=
      [.nested "Base".toList o.Base.leaves,
       .leaf { name := "UserID".toList, tags := [.required], value := .bytes o.UserID },
       .leaf { name := "Restaurant".toList, tags := [.required], value := .bytes o.Restaurant },
       .slice "Items".toList [.required, .min 1, .dive]
         (o.Items.map fun items => items.map OrderItem.leaves),
       .leaf { name := "Status".toList, tags := [.required, .oneof orderStatuses],
               value := .string o.Status },
       .leaf { name := "TotalPrice".toList, tags := [.required, .gte 0],
               value := .float o.TotalPrice }] }

/-! ## internal/helper/validate.go -/

/-- The function ValidateStruct; `validate` is the validator of the package. -/
def ValidateStruct (validate : Validator) (s : StructValue) : Option GoError :=
  validate.Struct s

/-- The function ValidateStructExcept. -/
def ValidateStructExcept (validate : Validator) (s : StructValue) (exceptKeys : List GoString) :
    Option GoError :=
  validate.StructExcept s exceptKeys

/-- The message WriteValidationError records for one violation. -/
def violationMessage (e : FieldError) : GoString :=
  if e.Tag = "required".toList then e.Field ++ " is required".toList
  else if e.Tag = "email".toList then e.Field ++ " must be a valid email address".toList
  else if e.Tag = "min".toList then
    e.Field ++ " must be at least ".toList ++ e.Param ++ " characters long".toList
  else if e.Tag = "max".toList then
    e.Field ++ " must not exceed ".toList ++ e.Param ++ " characters".toList
  else if e.Tag = "oneof".toList then e.Field ++ " must be one of: ".toList ++ e.Param
  else e.Field ++ " is invalid (".toList ++ e.Tag ++ ")".toList

/-- The assignment `m[key] = value` on a map of strings, held as the list of its entries: the
entry of the key is replaced where it stands, a new key is added at the end. -/
def mapSet (m : List (GoString × GoString)) (key value : GoString) :
    List (GoString × GoString) :=
  match m with
  | [] => [(key, value)]
  | e :: rest => if e.1 = key then (key, value) :: rest else e :: mapSet rest key value

/-- The read `m[key]` on a map of strings; `none` when the key is absent. -/
def mapGet (m : List (GoString × GoString)) (key : GoString) : Option GoString :=
  match m with
  | [] => Option.none
  | e :: rest => if e.1 = key then some e.2 else mapGet rest key

/-- The map WriteValidationError fills: one assignment per violation, in list order. -/
def errorsMap (errs : List FieldError) : List (GoString × GoString) :=
  errs.foldl (fun m e => mapSet m e.Field (violationMessage e)) []

/-- The function http.Error. -/
def httpError (w : ResponseWriter) (error : GoString) (code : Nat) : ResponseWriter :=
  (((w.push (.setHeader "Content-Type".toList "text/plain; charset=utf-8".toList)).push
    (.setHeader "X-Content-Type-Options".toList "nosniff".toList)).push
    (.writeHeader code)).push (.write (error ++ ['\n']))

/-- The function WriteValidationError. -/
def WriteValidationError (w : ResponseWriter) (err : GoError) : ResponseWriter :=
  match err with
  | .validationErrors validationErrors =>
    ((w.push (.setHeader "Content-Type".toList "application/json".toList)).push
      (.writeHeader 400)).push (.write (encodeErrorResponse (errorsMap validationErrors)))
  | .other text => httpError w text 400

/-- The value of a header field of the response as it is sent: the last one set before the
status or the body was first written. -/
def ResponseWriter.sentHeader (w : ResponseWriter) (key : GoString) : Option GoString :=
  ((w.ops.takeWhile fun op =>
      match op with
      | .setHeader _ _ => true
      | _ => false).reverse.findSome? fun op =>
    match op with
    | .setHeader k v => if k = key then some v else Option.none
    | _ => Option.none)

/-! ## Sample payloads -/

/-- A validator for which an email is a text with an at sign. -/
def sampleValidator : Validator := { isEmail := fun s => decide ('@' ∈ s) }

/-- The ObjectID of twelve zero bytes. -/
def zeroObjectID : ObjectID := List.replicate 12 0

/-- An ObjectID other than zero. -/
def sampleObjectID : ObjectID := List.replicate 12 1

/-- A base record. -/
def sampleBase : Base := { ID := zeroObjectID, CreatedAt := 0, UpdatedAt := 0 }

/-- A user with an empty name and nothing else to object to. -/
def sampleUser : User :=
  { ID := zeroObjectID, Name := [], Email := "u1@example.com".toList,
    Password := "12345678".toList, Role := [], CreatedAt := 0, UpdatedAt := 0 }

/-- A menu item with a restaurant, an empty name, an empty category and a negative price. -/
def sampleMenuItem : MenuItem :=
  { Base := sampleBase, Restaurant := sampleObjectID, Name := [], Category := [], Price := -5,
    Available := true }

/-- An order with two items of quantity zero and a negative total price. -/
def sampleOrder : Order :=
  { Base := sampleBase, UserID := sampleObjectID, Restaurant := sampleObjectID,
    Items := some [{ MenuItemID := sampleObjectID, Quantity := 0, Price := 3 },
                   { MenuItemID := sampleObjectID, Quantity := 0, Price := 4 }],
    Status := "pending".toList, TotalPrice := -1 }

/-- A violation of a min constraint. -/
def sampleMinViolation : FieldError :=
  { Namespace := "User.Name".toList, Field := "Name".toList, Tag := "min".toList,
    Param := "2".toList }

/-- A violation of a gt constraint. -/
def sampleGtViolation : FieldError :=
  { Namespace := "MenuItem.Price".toList, Field := "Price".toList, Tag := "gt".toList,
    Param := "0".toList }

/-- A violation of a max constraint. -/
def sampleMaxViolation : FieldError :=
  { Namespace := "User.Name".toList, Field := "Name".toList, Tag := "max".toList,
    Param := "100".toList }

/-! ## go.mongodb.org/mongo-driver, golang.org/x/crypto/bcrypt and the clock -/

/-- The method Hex of an ObjectID: two lower-case hexadecimal digits for each byte. -/
def ObjectID.Hex (id : ObjectID) : GoString :=
  id.flatMap fun b => [hexDigit (b / 16), hexDigit (b % 16)]

/-- The bytes a text of hexadecimal digits stands for, two digits to the byte; `none` when a
character is no such digit or the number of characters is odd. -/
def hexBytes : List Char → Option Bytes
  | a :: b :: rest =>
    (hexValue a).bind fun x => (hexValue b).bind fun y =>
      (hexBytes rest).map fun bs => (16 * x + y) :: bs
  | [] => some []
  | [_] => Option.none

/-- The function primitive.ObjectIDFromHex: a string of 24 hexadecimal digits gives the twelve
bytes it stands for, any other string an error. The text of the error differs between the
versions of the driver and is an argument of the model. -/
def ObjectIDFromHex (errorText : GoString → GoString) (s : GoString) :
    Except GoString ObjectID :=
  if (utf8Encode s).length ≠ 24 then .error (errorText s)
  else
    match hexBytes s with
    | some oid => .ok oid
    | Option.none => .error (errorText s)

/-- The errors of a query on a collection: mongo.ErrNoDocuments, or any other error with its
text. -/
inductive MongoError where
  | ErrNoDocuments
  | other (text : GoString)
deriving DecidableEq

/-- The filters this program queries with: bson.M holding the key email, or the key _id. -/
inductive Filter where
  | email (value : GoString)
  | id (value : ObjectID)
deriving DecidableEq

/-- A mongo.Collection of documents of one type, as the replies it gives: to
FindOne(ctx, filter).Decode(&v) the document or an error, to InsertOne(ctx, doc) the inserted
id or the text of an error. A handler calls each at most once, so the replies of the database
at the time of the call are all the model needs. -/
structure Collection (α : Type) where
  FindOne : Filter → Except MongoError α
  InsertOne : α → Except GoString ObjectID

/-- What a handler reads from outside the program during one call: the validator of package
helper, the successive readings of time.Now() that reach data, the id primitive.NewObjectID()
returns, bcrypt.GenerateFromPassword at the default cost, bcrypt.CompareHashAndPassword (the
text of its error, or `none`), the text of the error of ObjectIDFromHex, the layout
time.RFC3339 and the JSON text of an order. -/
structure Env where
  validate : Validator
  clock : Nat → Int
  NewObjectID : ObjectID
  GenerateFromPassword : GoString → Except GoString GoString
  CompareHashAndPassword : GoString → GoString → Option GoString
  hexErrorText : GoString → GoString
  formatRFC3339 : Int → GoString
  marshalOrder : Order → GoString

/-- The text of an error of token handling: that of the value package jwt declares for it, and
for invalidToken that of the error Verify builds. -/
def JWTError.Error : JWTError → GoString
  | .tokenMalformed => "token is malformed".toList
  | .tokenUnverifiable => "token is unverifiable".toList
  | .tokenSignatureInvalid => "token signature is invalid".toList
  | .tokenExpired => "token is expired".toList
  | .tokenNotValidYet => "token is not valid yet".toList
  | .invalidKeyType => "key is of invalid type".toList
  | .invalidToken => "invalid token".toList

/-! ## internal/storage/mongodb -/

/-- The struct UserStore. -/
structure UserStore where
  Collection : Collection User

/-- The method CreateUser: the text of the error of the insert, or `none`. -/
def UserStore.CreateUser (s : UserStore) (u : User) : Option GoString :=
  match s.Collection.InsertOne u with
  | .ok _ => Option.none
  | .error err => some err

/-- The method GetUserByEmail: no document is no user and no error. -/
def UserStore.GetUserByEmail (s : UserStore) (email : GoString) :
    Except GoString (Option User) :=
  match s.Collection.FindOne (.email email) with
  | .ok user => .ok (some user)
  | .error .ErrNoDocuments => .ok Option.none
  | .error (.other text) => .error text

/-- The struct OrderStore. -/
structure OrderStore where
  Collection : Collection Order

/-- The method CreateOrder; `t1` and `t2` are its two readings of the clock. -/
def OrderStore.CreateOrder (s : OrderStore) (t1 t2 : Int) (order : Order) :
    Except GoString Order :=
  let order := { order with Base := { order.Base with CreatedAt := t1, UpdatedAt := t2 } }
  match s.Collection.InsertOne order with
  | .error err => .error err
  | .ok insertedID => .ok { order with Base := { order.Base with ID := insertedID } }

/-- The method GetOrderByID: no document is no order and no error. -/
def OrderStore.GetOrderByID (s : OrderStore) (id : ObjectID) :
    Except GoString (Option Order) :=
  match s.Collection.FindOne (.id id) with
  | .ok order => .ok (some order)
  | .error .ErrNoDocuments => .ok Option.none
  | .error (.other text) => .error text

/-! ## internal/handler -/

/-- A call a handler makes on its store. -/
inductive StoreCall where
  | GetUserByEmail (email : GoString)
  | CreateUser (u : User)
  | CreateOrder (order : Order)
  | GetOrderByID (id : ObjectID)
deriving DecidableEq

/-- What one call of a handler leaves behind: the response writer, and the calls it made on
its store, in order. -/
structure Handled where
  w : ResponseWriter
  store : List StoreCall
deriving DecidableEq

/-- The output of json.NewEncoder(w).Encode(m) for a map of strings, given as the list of its
entries: the object, its entries in the order of their keys, then a line feed. -/
def encodeMap (m : List (GoString × GoString)) : GoString :=
  renderObject ((sortEntries m).map fun kv => (kv.1, JVal.str kv.2)) ++ ['\n']

/-- The struct UserHandler. -/
structure UserHandler where
  Store : UserStore
  JWT : JWTManager
  AdminSecret : GoString

/-- The method Signup; `body` is what json.NewDecoder(r.Body).Decode(&user) gives: the user
it filled in, or the text of its error. -/
def UserHandler.Signup (h : UserHandler) (env : Env) (body : Except GoString User)
    (w : ResponseWriter) (r : Request) : Handled :=
  match body with
  | .error err =>
    { w := WriteSimpleError w 400 ("Invalid JSON body: ".toList ++ err), store := [] }
  | .ok user =>
    match ValidateStruct env.validate user.toStruct with
    | some err => { w := WriteValidationError w err, store := [] }
    | Option.none =>
      match h.Store.GetUserByEmail user.Email with
      | .error err =>
        { w := WriteSimpleError w 500 ("Database error while checking user: ".toList ++ err),
          store := [.GetUserByEmail user.Email] }
      | .ok (some _) =>
        { w := WriteSimpleError w 409 "Email already registered".toList,
          store := [.GetUserByEmail user.Email] }
      | .ok Option.none =>
        let refusal : Option GoString :=
          if user.Role = "admin".toList then
            let adminKey := r.HeaderGet "Admin-Secret".toList
            if adminKey = [] then some "Missing Admin-Secret header".toList
            else if adminKey ≠ h.AdminSecret then some "Invalid Admin-Secret key".toList
            else Option.none
          else Option.none
        match refusal with
        | some message =>
          { w := WriteSimpleError w 401 message, store := [.GetUserByEmail user.Email] }
        | Option.none =>
          let user := if user.Role = [] then { user with Role := "customer".toList } else user
          match env.GenerateFromPassword user.Password with
          | .error err =>
            { w := WriteSimpleError w 500 ("Failed to hash password: ".toList ++ err),
              store := [.GetUserByEmail user.Email] }
          | .ok hashed =>
            let user := { user with Password := hashed, ID := env.NewObjectID,
                                    CreatedAt := env.clock 0, UpdatedAt := env.clock 1 }
            match h.Store.CreateUser user with
            | some err =>
              { w := WriteSimpleError w 500 ("Failed to create user: ".toList ++ err),
                store := [.GetUserByEmail user.Email, .CreateUser user] }
            | Option.none =>
              { w := (w.push (.writeHeader 201)).push
                  (.write (encodeMap [("message".toList, "User created successfully".toList),
                                      ("user_id".toList, user.ID.Hex)])),
                store := [.GetUserByEmail user.Email, .CreateUser user] }

/-- The payload of Login: a struct without a type name. -/
structure LoginRequest where
  Email : GoString
  Password : GoString
deriving DecidableEq

/-- What the validator sees of a login payload. -/
def LoginRequest.toStruct (req : LoginRequest) : StructValue :=
  { name := [],
    fields :=
      [.leaf { name := "Email".toList, tags := [.required, .email], value := .string req.Email },
       .leaf { name := "Password".toList, tags := [.required],
               value := .string req.Password }] }

/-- The method Login; `body` is what json.NewDecoder(r.Body).Decode(&req) gives. -/
def UserHandler.Login (h : UserHandler) (env : Env) (body : Except GoString LoginRequest)
    (w : ResponseWriter) (_r : Request) : Handled :=
  match body with
  | .error err =>
    { w := WriteSimpleError w 400 ("Invalid JSON body: ".toList ++ err), store := [] }
  | .ok req =>
    match ValidateStruct env.validate req.toStruct with
    | some err => { w := WriteValidationError w err, store := [] }
    | Option.none =>
      match h.Store.GetUserByEmail req.Email with
      | .error err =>
        { w := WriteSimpleError w 500 ("Database error: ".toList ++ err),
          store := [.GetUserByEmail req.Email] }
      | .ok Option.none =>
        { w := WriteSimpleError w 401 "Invalid email or password".toList,
          store := [.GetUserByEmail req.Email] }
      | .ok (some user) =>
        match env.CompareHashAndPassword user.Password req.Password with
        | some _ =>
          { w := WriteSimpleError w 401 "Invalid email or password".toList,
            store := [.GetUserByEmail req.Email] }
        | Option.none =>
          match h.JWT.Generate (env.clock 0) user.ID.Hex user.Role with
          | .error err =>
            { w := WriteSimpleError w 500 ("Failed to generate token: ".toList ++ err.Error),
              store := [.GetUserByEmail req.Email] }
          | .ok token =>
            { w := w.push
                (.write (encodeMap [("token".toList, token), ("role".toList, user.Role)])),
              store := [.GetUserByEmail req.Email] }

/-- The struct OrderHandler. -/
structure OrderHandler where
  Store : OrderStore

/-- The method CreateOrder; `body` is what json.NewDecoder(r.Body).Decode(&order) gives. -/
def OrderHandler.CreateOrder (h : OrderHandler) (env : Env) (body : Except GoString Order)
    (w : ResponseWriter) (r : Request) : Handled :=
  match r.Value "claims".toList with
  | some (.claims claims) =>
    match body with
    | .error err =>
      { w := WriteSimpleError w 400 ("Invalid JSON body: ".toList ++ err), store := [] }
    | .ok order =>
      match ValidateStructExcept env.validate order.toStruct ["UserID".toList] with
      | some err => { w := WriteValidationError w err, store := [] }
      | Option.none =>
        let owned : Except ResponseWriter Order :=
          if claims.Role = "admin".toList then
            if order.UserID.IsZero then
              .error (WriteSimpleError w 400 "Admin must specify user_id for the order".toList)
            else .ok order
          else
            match ObjectIDFromHex env.hexErrorText claims.UserID with
            | .error err =>
              .error (WriteSimpleError w 401 ("Invalid user ID in token: ".toList ++ err))
            | .ok userObjID => .ok { order with UserID := userObjID }
        match owned with
        | .error w1 => { w := w1, store := [] }
        | .ok order =>
          let order :=
            { order with Base := { order.Base with CreatedAt := env.clock 0,
                                                   UpdatedAt := env.clock 1 } }
          match h.Store.CreateOrder (env.clock 2) (env.clock 3) order with
          | .error err =>
            { w := WriteSimpleError w 500 ("Failed to create order: ".toList ++ err),
              store := [.CreateOrder order] }
          | .ok created =>
            { w := (w.push (.writeHeader 201)).push
                (.write ('\x7b' :: jsonQuote "createdAt".toList ++ ':'
                  :: jsonQuote (env.formatRFC3339 (env.clock 4)) ++ ','
                  :: jsonQuote "message".toList ++ ':'
                  :: jsonQuote "Order created successfully".toList ++ ','
                  :: jsonQuote "order".toList ++ ':' :: env.marshalOrder created
                  ++ ['\x7d', '\n'])),
              store := [.CreateOrder order] }
  | _ =>
    { w := WriteSimpleError w 500 "Failed to read user info from context".toList, store := [] }

/-- The method GetOrderByID; `none` is the panic of slicing a path of fewer than eight bytes,
which does not happen behind the route /orders/. A rest of the path that is not text is no
hexadecimal string. -/
def OrderHandler.GetOrderByID (h : OrderHandler) (env : Env) (w : ResponseWriter)
    (r : Request) : Option Handled :=
  match r.Value "claims".toList with
  | some (.claims claims) =>
    if (utf8Encode r.Path).length < "/orders/".length then Option.none
    else
      let parsed : Except GoString ObjectID :=
        match utf8Decode ((utf8Encode r.Path).drop "/orders/".length) with
        | some idStr => ObjectIDFromHex env.hexErrorText idStr
        | Option.none => .error []
      match parsed with
      | .error _ =>
        some { w := WriteSimpleError w 400 "Invalid order ID format".toList, store := [] }
      | .ok orderID =>
        match h.Store.GetOrderByID orderID with
        | .error err =>
          some { w := WriteSimpleError w 500 ("Failed to fetch order: ".toList ++ err),
                 store := [.GetOrderByID orderID] }
        | .ok Option.none =>
          some { w := WriteSimpleError w 404 "Order not found".toList,
                 store := [.GetOrderByID orderID] }
        | .ok (some order) =>
          if claims.Role ≠ "admin".toList ∧ order.UserID.Hex ≠ claims.UserID then
            some { w := WriteSimpleError w 403 "You can only access your own orders".toList,
                   store := [.GetOrderByID orderID] }
          else
            some { w := w.push
                     (.write ('\x7b' :: jsonQuote "fetchedAt".toList ++ ':'
                       :: jsonQuote (env.formatRFC3339 (env.clock 0)) ++ ','
                       :: jsonQuote "order".toList ++ ':' :: env.marshalOrder order ++ ','
                       :: jsonQuote "requestedBy".toList ++ ':' :: jsonQuote claims.UserID
                       ++ ['\x7d', '\n'])),
                   store := [.GetOrderByID orderID] }
  | _ =>
    some { w := WriteSimpleError w 500 "Failed to read user info from context".toList,
           store := [] }

/-! ## Sample handlers -/

/-- Stand-ins for what a handler reads from outside: the sample validator, a clock that
advances by a nanosecond per reading, and a password hash that is the password after a
marker. -/
def sampleEnv : Env :=
  { validate := sampleValidator
    clock := fun k => sampleNow + k
    NewObjectID := sampleObjectID
    GenerateFromPassword := fun password => .ok ("hashed:".toList ++ password)
    CompareHashAndPassword := fun hashed password =>
      if hashed = "hashed:".toList ++ password then Option.none
      else some "crypto/bcrypt: hashedPassword is not the hash of the given password".toList
    hexErrorText := fun _ => "the provided hex string is not a valid ObjectID".toList
    formatRFC3339 := fun _ => "2023-11-14T22:13:20Z".toList
    marshalOrder := fun o => jsonQuote o.Status }

/-- A collection of users that holds no document and accepts every insert. -/
def noUsers : Collection User :=
  { FindOne := fun _ => .error .ErrNoDocuments, InsertOne := fun u => .ok u.ID }

/-- A collection of users that holds the one given document. -/
def usersHolding (u : User) : Collection User :=
  { FindOne := fun f => if f = .email u.Email then .ok u else .error .ErrNoDocuments
    InsertOne := fun v => .ok v.ID }

/-- A collection of orders that holds the one given document and gives every insert the
sample id. -/
def ordersHolding (o : Order) : Collection Order :=
  { FindOne := fun f => if f = .id o.Base.ID then .ok o else .error .ErrNoDocuments
    InsertOne := fun _ => .ok sampleObjectID }

/-- A user handler over the given collection, with the sample manager. -/
def sampleUserHandler (users : Collection User) : UserHandler :=
  { Store := { Collection := users }, JWT := sampleManager, AdminSecret := "s3cret".toList }

/-- A signup payload with the given role and nothing to object to otherwise. -/
def sampleSignup (role : GoString) : User :=
  { ID := zeroObjectID, Name := "Ann Lee".toList, Email := "ann@example.com".toList,
    Password := "12345678".toList, Role := role, CreatedAt := zeroTime, UpdatedAt := zeroTime }

/-- The record Signup hands to the store for the sample payload without role. -/
def sampleStoredUser : User :=
  { ID := sampleObjectID, Name := "Ann Lee".toList, Email := "ann@example.com".toList,
    Password := "hashed:12345678".toList, Role := "customer".toList,
    CreatedAt := sampleNow, UpdatedAt := sampleNow + 1 }

/-- A login payload for the sample user with the given password. -/
def sampleLogin (password : GoString) : LoginRequest :=
  { Email := "ann@example.com".toList, Password := password }

/-- An order payload with the given owner and total price and nothing to object to
otherwise. -/
def sampleOrderPayload (userID : ObjectID) (totalPrice : ℚ) : Order :=
  { Base := sampleBase, UserID := userID, Restaurant := sampleObjectID,
    Items := some [{ MenuItemID := sampleObjectID, Quantity := 2, Price := 3 }],
    Status := "pending".toList, TotalPrice := totalPrice }

/-- The claims of a customer whose subject is the given text. -/
def customerClaims (userID : GoString) : Claims :=
  { UserID := userID, Role := "customer".toList, ExpiresAt := some 1700086400,
    NotBefore := Option.none, IssuedAt := Option.none }

/-- The claims of an administrator. -/
def adminClaims : Claims :=
  { UserID := "u0".toList, Role := "admin".toList, ExpiresAt := some 1700086400,
    NotBefore := Option.none, IssuedAt := Option.none }

/-- A request as the middleware hands it on: the given claims in its context, and the given
path. -/
def authedRequest (claims : Claims) (path : GoString) : Request :=
  { Header := [], Context := [("claims".toList, .claims claims)], Path := path }

/-- A signup request carrying the given value in its Admin-Secret header. -/
def signupRequest (adminSecret : GoString) : Request :=
  { Header := [("Admin-Secret".toList, adminSecret)], Context := [],
    Path := "/signup".toList }

/-- The violation of required on the field TotalPrice of an order. -/
def totalPriceRequired : FieldError :=
  { Namespace := "Order.TotalPrice".toList, Field := "TotalPrice".toList,
    Tag := "required".toList, Param := [] }

/-- An order handler over the collection holding the given order. -/
def sampleOrderHandler (o : Order) : OrderHandler := { Store := { Collection := ordersHolding o } }

/-! ## The fields a validation stops at -/

/-- Whether a text can be the value of a header field as the server of net/http hands it to a
handler: its reader takes the spaces and tabs off both ends of the line. -/
def isTrimmed (s : GoString) : Bool :=
  decide (s.head? ≠ some ' ') && decide (s.head? ≠ some '\t')
    && decide (s.getLast? ≠ some ' ') && decide (s.getLast? ≠ some '\t')

/-- A field at which the walk over a payload stops to check constraints, with the namespace
in front of its name: a field that holds a scalar, or a field that holds a list of structs,
whose own constraints see whether the list is nil and how long it is. -/
inductive Stop where
  | scalar (ns : GoString) (f : Leaf)
  | list (ns name : GoString) (tags : List Tag) (elems : Option (List (List Leaf)))
deriving DecidableEq

/-- The name of the field of a stop. -/
def Stop.name : Stop → GoString
  | .scalar _ f => f.name
  | .list _ name _ _ => name

/-- The namespace in front of the name of the field of a stop. -/
def Stop.ns : Stop → GoString
  | .scalar ns _ => ns
  | .list ns _ _ _ => ns

/-- The constraints declared on the field of a stop, in tag order. -/
def Stop.tags : Stop → List Tag
  | .scalar _ f => f.tags
  | .list _ _ tags _ => tags

/-- Whether the value at a stop meets a constraint. -/
def Stop.met (V : Validator) (u : Stop) (t : Tag) : Bool :=
  match u with
  | .scalar _ f => t.check V f.value
  | .list _ _ _ elems => t.checkSlice elems

/-- Whether the value at a stop is a number. -/
def Stop.isNumber : Stop → Bool
  | .scalar _ f =>
    match f.value with
    | .int _ => true
    | .float _ => true
    | _ => false
  | .list _ _ _ _ => false

/-- Whether a constraint bounds a number or a length. -/
def Tag.isRange : Tag → Bool
  | .min _ => true
  | .max _ => true
  | .gt _ => true
  | .gte _ => true
  | _ => false

/-- The list with the fields of its elements taken away: what the constraints on the list
itself see. -/
def bare (elems : Option (List (List Leaf))) : Option (List (List Leaf)) :=
  elems.map fun es => es.map fun _ => []

/-- The violations the walk reports at a stop, for the field of the stop itself. -/
def Stop.errors (V : Validator) (u : Stop) : List FieldError :=
  match u with
  | .scalar ns f => traverseScalar V ns f.name f.value f.tags
  | .list ns name tags elems => traverseSlice V [] ns name (bare elems) tags

/-- The violation of a constraint at a stop. -/
def Stop.error (u : Stop) (t : Tag) : FieldError :=
  { Namespace := u.ns ++ u.name, Field := u.name, Tag := t.name, Param := t.param }

/-- Whether a constraint is the first, in tag order, that the value at a stop violates:
it is declared on the field, the value does not meet it, and every constraint before it is
met, none of them being dive and omitempty finding a value. -/
def Stop.violatesFirst (V : Validator) (u : Stop) (t : Tag) : Bool :=
  decide (t ∈ u.tags) && decide (t ≠ .omitempty) && decide (t ≠ .dive) && !u.met V t
    && (u.tags.takeWhile fun p => decide (p ≠ t)).all fun p =>
        decide (p ≠ .dive) && u.met V p && (decide (p ≠ .omitempty) || u.met V .required)

/-- Whether the value at a stop violates none of the constraints the walk checks: the field
begins with omitempty and holds no value, or every constraint before dive is met. -/
def Stop.passes (V : Validator) (u : Stop) : Bool :=
  (decide (u.tags.head? = some .omitempty) && !u.met V .required)
    || (u.tags.takeWhile fun p => decide (p ≠ .dive)).all fun p => u.met V p

/-- The stops at the fields of the elements of a list, from the given index on. -/
def elementStops (ns name : GoString) : Nat → List (List Leaf) → List Stop
  | _, [] => []
  | i, e :: rest =>
    e.map (Stop.scalar (ns ++ name ++ '[' :: formatInt i ++ "].".toList))
      ++ elementStops ns name (i + 1) rest

/-- The stops of the walk over one field: the field itself when it holds a scalar, the fields
of an embedded struct, and for a list the list itself and, when dive is declared and the list
meets every constraint before it, the fields of its elements. -/
def Field.stops (ns : GoString) : Field → List Stop
  | .leaf f => [.scalar ns f]
  | .nested name fields => fields.map (Stop.scalar (ns ++ name ++ ".".toList))
  | .slice name tags elems =>
    .list ns name tags elems
      :: (if decide (Tag.dive ∈ tags)
            && (tags.takeWhile fun p => decide (p ≠ .dive)).all fun p => p.checkSlice elems
          then elementStops ns name 0 (elems.getD []) else [])

/-- The stops of the walk over a payload, in the order of the walk. -/
def StructValue.stops (s : StructValue) : List Stop :=
  s.fields.flatMap (Field.stops s.namespace)

/-- The stop of the walk over the sample menu item at a position. -/
def sampleStop (k : Nat) : Stop :=
  sampleMenuItem.toStruct.stops.getD k (.list [] [] [] Option.none)

/-- The list field of an order whose list of items is nil, as a stop. -/
def nilItemsStop : Stop :=
  .list "Order.".toList "Items".toList [.required, .min 1, .dive] Option.none

/-- The field Name of the sample user, as a stop. -/
def sampleNameStop : Stop :=
  .scalar "User.".toList
    { name := "Name".toList, tags := [.required, .min 2, .max 100],
      value := .string sampleUser.Name }

/-! # Properties of the library model -/

theorem splitOnChar_ne_nil (sep : Char) (s : GoString) : splitOnChar sep s ≠ [] := by
  induction s with
  | nil => simp [splitOnChar]
  | cons c cs ih =>
    unfold splitOnChar
    split
    · simp
    · split <;> simp

theorem splitOnChar_of_not_mem (sep : Char) (s : GoString) (h : sep ∉ s) :
    splitOnChar sep s = [s] := by
  induction s with
  | nil => rfl
  | cons c cs ih =>
    have hc : c ≠ sep := fun e => h (by simp [e])
    have hcs : sep ∉ cs := fun e => h (by simp [e])
    simp [splitOnChar, hc, ih hcs]

theorem splitOnChar_append (sep : Char) (a rest : GoString) (h : sep ∉ a) :
    splitOnChar sep (a ++ sep :: rest) = a :: splitOnChar sep rest := by
  induction a with
  | nil => simp [splitOnChar]
  | cons c cs ih =>
    have hc : c ≠ sep := fun e => h (by simp [e])
    have hcs : sep ∉ cs := fun e => h (by simp [e])
    simp [splitOnChar, hc, ih hcs]

/-- Every piece of a split is free of the separator, and the pieces joined by the separator
give the text back. -/
theorem splitOnChar_spec (sep : Char) (s : GoString) :
    (∀ p ∈ splitOnChar sep s, sep ∉ p) ∧ List.intercalate [sep] (splitOnChar sep s) = s := by
  induction s with
  | nil => simp [splitOnChar, List.intercalate]
  | cons c cs ih =>
    obtain ⟨ih1, ih2⟩ := ih
    unfold splitOnChar
    by_cases hc : c = sep
    · subst hc
      simp only [if_true]
      refine ⟨?_, ?_⟩
      · intro p hp
        rcases List.mem_cons.1 hp with rfl | hp
        · simp
        · exact ih1 p hp
      · cases hsp : splitOnChar c cs with
        | nil => exact absurd hsp (splitOnChar_ne_nil c cs)
        | cons p ps =>
          rw [hsp] at ih2
          simp [List.intercalate] at ih2 ⊢
          exact ih2
    · simp only [if_neg hc]
      cases hsp : splitOnChar sep cs with
      | nil => exact absurd hsp (splitOnChar_ne_nil sep cs)
      | cons p ps =>
        rw [hsp] at ih1 ih2
        refine ⟨?_, ?_⟩
        · intro q hq
          rcases List.mem_cons.1 hq with rfl | hq
          · intro hmem
            rcases List.mem_cons.1 hmem with e | e
            · exact hc e.symm
            · exact ih1 p (by simp) e
          · exact ih1 q (by simp [hq])
        · cases ps with
          | nil => simp [List.intercalate] at ih2 ⊢; exact ih2
          | cons q qs => simp [List.intercalate] at ih2 ⊢; exact ih2

theorem b64Char_mem (n : Nat) : b64Char n ∈ b64Alphabet := by
  unfold b64Char
  by_cases h : n < b64Alphabet.length
  · rw [List.getD_eq_getElem _ _ h]
    exact List.getElem_mem h
  · rw [List.getD_eq_default _ _ (Nat.le_of_not_lt h)]
    decide

theorem b64Alphabet_plain : ∀ c ∈ b64Alphabet, c ≠ '.' ∧ c ≠ '\n' ∧ c ≠ '\r' := by
  decide

set_option maxRecDepth 10000 in
theorem b64Index_b64Char : ∀ n < 64, b64Index (b64Char n) = some n := by
  decide

theorem b64Encode_plain (bs : Bytes) : ∀ c ∈ b64Encode bs, c ≠ '.' ∧ c ≠ '\n' ∧ c ≠ '\r' := by
  intro c hc
  simp only [b64Encode, List.mem_map] at hc
  obtain ⟨n, -, rfl⟩ := hc
  exact b64Alphabet_plain _ (b64Char_mem n)

theorem b64Encode_no_dot (bs : Bytes) : '.' ∉ b64Encode bs :=
  fun h => (b64Encode_plain bs _ h).1 rfl

theorem b64Groups_lt (bs : Bytes) (h : ∀ b ∈ bs, b < 256) : ∀ g ∈ b64Groups bs, g < 64 := by
  induction bs using b64Groups.induct with
  | case1 a b c rest ih =>
    intro g hg
    have ha := h a (by simp)
    have hb := h b (by simp)
    have hc := h c (by simp)
    simp only [b64Groups, List.mem_cons] at hg
    rcases hg with rfl | rfl | rfl | rfl | hg
    · omega
    · omega
    · omega
    · omega
    · exact ih (fun x hx => h x (by simp [hx])) g hg
  | case2 a b =>
    intro g hg
    have ha := h a (by simp)
    have hb := h b (by simp)
    simp only [b64Groups, List.mem_cons, List.mem_singleton] at hg
    rcases hg with rfl | rfl | rfl | hg
    · omega
    · omega
    · omega
    · simp at hg
  | case3 a =>
    intro g hg
    have ha := h a (by simp)
    simp only [b64Groups, List.mem_cons, List.mem_singleton] at hg
    rcases hg with rfl | rfl | hg
    · omega
    · omega
    · simp at hg
  | case4 => simp [b64Groups]

theorem b64Values_map_b64Char (gs : List Nat) (h : ∀ g ∈ gs, g < 64) :
    b64Values (gs.map b64Char) = some gs := by
  induction gs with
  | nil => rfl
  | cons g gs ih =>
    simp [b64Values, b64Index_b64Char g (h g (by simp)), ih (fun x hx => h x (by simp [hx]))]

theorem b64Bytes_b64Groups (bs : Bytes) (h : ∀ b ∈ bs, b < 256) :
    b64Bytes (b64Groups bs) = some bs := by
  induction bs using b64Groups.induct with
  | case1 a b c rest ih =>
    have ha := h a (by simp)
    have hb := h b (by simp)
    have hc := h c (by simp)
    simp only [b64Groups, b64Bytes, ih (fun x hx => h x (by simp [hx])), Option.map_some']
    congr 2
    · omega
    · congr 1
      · omega
      · congr 1
        omega
  | case2 a b =>
    have ha := h a (by simp)
    have hb := h b (by simp)
    simp only [b64Groups, b64Bytes]
    congr 2
    · omega
    · congr 1
      omega
  | case3 a =>
    have ha := h a (by simp)
    simp only [b64Groups, b64Bytes]
    congr 2
    omega
  | case4 => rfl

/-- Decoding inverts encoding. -/
theorem b64Decode_b64Encode (bs : Bytes) (h : ∀ b ∈ bs, b < 256) :
    b64Decode (b64Encode bs) = some bs := by
  have hf : (b64Encode bs).filter (fun c => c != '\n' && c != '\r') = b64Encode bs := by
    apply List.filter_eq_self.2
    intro c hc
    have := b64Encode_plain bs c hc
    simp [this.2.1, this.2.2]
  unfold b64Decode
  rw [hf]
  simp [b64Encode, b64Values_map_b64Char _ (b64Groups_lt bs h), b64Bytes_b64Groups bs h]

theorem utf8EncodeRune_lt (r : Nat) (h : r < 0x110000) : ∀ b ∈ utf8EncodeRune r, b < 256 := by
  intro b hb
  unfold utf8EncodeRune at hb
  split at hb
  · simp at hb; omega
  · split at hb
    · simp at hb; omega
    · split at hb
      · simp at hb; omega
      · simp at hb; omega

theorem char_toNat_lt (c : Char) : c.toNat < 0x110000 := by
  have h := c.valid
  simp only [UInt32.isValidChar, Nat.isValidChar] at h
  show c.val.toNat < 0x110000
  omega

theorem utf8Encode_lt (s : GoString) : ∀ b ∈ utf8Encode s, b < 256 := by
  intro b hb
  simp only [utf8Encode, List.mem_flatMap] at hb
  obtain ⟨c, -, hb⟩ := hb
  exact utf8EncodeRune_lt _ (char_toNat_lt c) b hb

theorem beBytes_lt (n x : Nat) : ∀ b ∈ beBytes n x, b < 256 := by
  induction n with
  | zero => simp [beBytes]
  | succ n ih =>
    intro b hb
    simp only [beBytes, List.mem_cons] at hb
    rcases hb with rfl | hb
    · exact Nat.mod_lt _ (by decide)
    · exact ih b hb

theorem sha2_lt (p : Sha2Params) (msg : Bytes) : ∀ b ∈ sha2 p msg, b < 256 := by
  intro b hb
  simp only [sha2] at hb
  have hb := List.mem_of_mem_take hb
  simp only [List.mem_flatten, List.mem_map] at hb
  obtain ⟨l, ⟨x, -, rfl⟩, hb⟩ := hb
  exact beBytes_lt _ _ b hb

theorem hmacSum_lt (p : Sha2Params) (key msg : Bytes) : ∀ b ∈ hmacSum p key msg, b < 256 :=
  sha2_lt p _

theorem GetSigningMethod_HMAC (h : Hash) :
    GetSigningMethod (SigningMethod.HMAC h).Alg = some (SigningMethod.HMAC h) := by
  cases h <;> rfl

theorem b64Values_plain (s : GoString) (vs : List Nat) (h : b64Values s = some vs) : '.' ∉ s := by
  induction s generalizing vs with
  | nil => simp
  | cons c cs ih =>
    simp only [b64Values, Option.bind_eq_some, Option.map_eq_some'] at h
    obtain ⟨v, hv, vs1, hvs, -⟩ := h
    intro hmem
    rcases List.mem_cons.1 hmem with e | e
    · subst e
      have hdot : b64Index '.' = Option.none := by decide
      rw [hdot] at hv
      cases hv
    · exact ih vs1 hvs e

theorem b64Decode_no_dot (s : GoString) (bs : Bytes) (h : b64Decode s = some bs) : '.' ∉ s := by
  simp only [b64Decode, Option.bind_eq_some] at h
  obtain ⟨vs, hvs, -⟩ := h
  intro hmem
  exact b64Values_plain _ vs hvs (List.mem_filter.2 ⟨hmem, by decide⟩)

theorem splitOnChar_token (a b s : GoString) (ha : '.' ∉ a) (hb : '.' ∉ b) :
    splitOnChar '.' ((a ++ '.' :: b) ++ '.' :: s) = a :: b :: splitOnChar '.' s := by
  rw [List.append_assoc, List.cons_append, splitOnChar_append _ _ _ ha,
    splitOnChar_append _ _ _ hb]

theorem splitOnChar_single (sep : Char) (s p : GoString) (h : splitOnChar sep s = [p]) :
    p = s := by
  have := (splitOnChar_spec sep s).2
  rw [h] at this
  simpa [List.intercalate] using this

/-- Parsing a token of three segments whose first two decode. -/
theorem parseUnverified_ok (D : JSONDecoder) (a b s : GoString) (hb cb : Bytes) (hdr : Header)
    (c : Claims) (alg : GoString) (m : SigningMethod)
    (ha : '.' ∉ a) (hbd : '.' ∉ b) (hs : splitOnChar '.' s = [s])
    (h1 : b64Decode a = some hb) (h2 : D.unmarshalHeader hb = some hdr)
    (h3 : b64Decode b = some cb) (h4 : D.unmarshalClaims cb = some c)
    (h5 : hdr "alg".toList = some (Iface.string alg)) (h6 : GetSigningMethod alg = some m) :
    ParseUnverified D ((a ++ '.' :: b) ++ '.' :: s)
      = .ok ({ Raw := (a ++ '.' :: b) ++ '.' :: s, Method := m, Header := hdr, Claims := c,
               Signature := [], Valid := false }, [a, b, s]) := by
  have hsplit := splitOnChar_token a b s ha hbd
  unfold ParseUnverified
  simp only [hsplit, hs, List.length_cons, List.length_nil, List.getD_cons_zero,
    List.getD_cons_succ, h1, h2, h3, h4, h5, h6]
  simp

/-- A token with more or fewer than three segments is malformed. -/
theorem parseUnverified_segments (D : JSONDecoder) (a b s : GoString)
    (ha : '.' ∉ a) (hbd : '.' ∉ b) (hs : splitOnChar '.' s ≠ [s]) :
    ParseUnverified D ((a ++ '.' :: b) ++ '.' :: s) = .error .tokenMalformed := by
  have hsplit := splitOnChar_token a b s ha hbd
  have hlen : (splitOnChar '.' s).length ≠ 1 := by
    intro hl
    obtain ⟨p, hp⟩ := List.length_eq_one.1 hl
    exact hs (by rw [hp, splitOnChar_single _ _ _ hp])
  have hlen3 : (a :: b :: splitOnChar '.' s).length ≠ 3 := by
    simp only [List.length_cons]
    omega
  unfold ParseUnverified
  simp only [hsplit]
  rw [if_pos hlen3]

/-- What Verify answers on a token of three segments whose header names an HMAC method. -/
theorem verify_eq (D : JSONDecoder) (j : JWTManager) (now : Int) (a b s : GoString)
    (hb cb : Bytes) (hdr : Header) (c : Claims) (alg : GoString) (h : Hash)
    (ha : '.' ∉ a) (hbd : '.' ∉ b) (hs : splitOnChar '.' s = [s])
    (h1 : b64Decode a = some hb) (h2 : D.unmarshalHeader hb = some hdr)
    (h3 : b64Decode b = some cb) (h4 : D.unmarshalClaims cb = some c)
    (h5 : hdr "alg".toList = some (Iface.string alg))
    (h6 : GetSigningMethod alg = some (.HMAC h)) :
    j.Verify D now ((a ++ '.' :: b) ++ '.' :: s) =
      match b64Decode s with
      | Option.none => .error .tokenMalformed
      | some sig =>
        if sig = hmacSum h.params (utf8Encode j.SecretKey) (utf8Encode (a ++ '.' :: b)) then
          match Validate now c with
          | .error e => .error e
          | .ok _ => .ok c
        else .error .tokenSignatureInvalid := by
  have hp := parseUnverified_ok D a b s hb cb hdr c alg (.HMAC h) ha hbd hs h1 h2 h3 h4 h5 h6
  unfold JWTManager.Verify ParseWithClaims
  rw [hp]
  simp only [List.getD_cons_zero, List.getD_cons_succ]
  cases b64Decode s with
  | none => rfl
  | some sig =>
    simp only [JWTManager.keyFunc, SigningMethod.Verify]
    by_cases hsig : sig = hmacSum h.params (utf8Encode j.SecretKey) (utf8Encode (a ++ '.' :: b))
    · simp only [if_pos hsig]
      cases Validate now c with
      | error e => rfl
      | ok u => rfl
    · simp only [if_neg hsig]

theorem marshalHeader_lt (m : SigningMethod) : ∀ b ∈ marshalHeader m, b < 256 :=
  utf8Encode_lt _

theorem marshalClaims_lt (c : Claims) : ∀ b ∈ marshalClaims c, b < 256 :=
  utf8Encode_lt _

/-- The answer of Verify on the signing string of given claims followed by any third segment
free of dots. -/
theorem verify_signed_eq (D : JSONDecoder) (j : JWTManager) (now : Int) (h : Hash) (c : Claims)
    (s : GoString) (hdr : Header) (hsp : splitOnChar '.' s = [s])
    (h2 : D.unmarshalHeader (marshalHeader (.HMAC h)) = some hdr)
    (h5 : hdr "alg".toList = some (Iface.string (SigningMethod.HMAC h).Alg))
    (h4 : D.unmarshalClaims (marshalClaims c) = some c) :
    j.Verify D now ((b64Encode (marshalHeader (.HMAC h)) ++ '.' :: b64Encode (marshalClaims c))
        ++ '.' :: s) =
      match b64Decode s with
      | Option.none => .error .tokenMalformed
      | some sig =>
        if sig = hmacSum h.params (utf8Encode j.SecretKey)
            (utf8Encode (b64Encode (marshalHeader (.HMAC h)) ++ '.'
              :: b64Encode (marshalClaims c))) then
          match Validate now c with
          | .error e => .error e
          | .ok _ => .ok c
        else .error .tokenSignatureInvalid :=
  verify_eq D j now (b64Encode (marshalHeader (.HMAC h))) (b64Encode (marshalClaims c)) s
    (marshalHeader (.HMAC h)) (marshalClaims c) hdr c (SigningMethod.HMAC h).Alg h
    (b64Encode_no_dot _) (b64Encode_no_dot _) hsp
    (b64Decode_b64Encode _ (marshalHeader_lt _)) h2
    (b64Decode_b64Encode _ (marshalClaims_lt _)) h4 h5 (GetSigningMethod_HMAC h)

theorem readsBack_facts (D : JSONDecoder) (h : Hash) (c : Claims)
    (hD : D.ReadsBack (.HMAC h) c) :
    ∃ hdr, D.unmarshalHeader (marshalHeader (.HMAC h)) = some hdr
      ∧ hdr "alg".toList = some (Iface.string (SigningMethod.HMAC h).Alg)
      ∧ D.unmarshalClaims (marshalClaims c) = some c := by
  obtain ⟨⟨hdr, h1, h2⟩, h3⟩ := hD
  exact ⟨hdr, h1, h2, h3⟩

/-- A token made of the signing string of given claims and a third segment that decodes to the
keyed hash of the signing string verifies whenever the claims are valid at the time. -/
theorem verify_of_tag (D : JSONDecoder) (j : JWTManager) (now : Int) (h : Hash) (c : Claims)
    (s : GoString) (hD : D.ReadsBack (.HMAC h) c)
    (hs : b64Decode s = some (hmacSum h.params (utf8Encode j.SecretKey)
      (utf8Encode (SigningString (.HMAC h) c))))
    (hv : Validate now c = .ok ()) :
    j.Verify D now (SigningString (.HMAC h) c ++ '.' :: s) = .ok c := by
  have hsp : splitOnChar '.' s = [s] := splitOnChar_of_not_mem _ _ (b64Decode_no_dot _ _ hs)
  obtain ⟨hdr, h2, h5, h4⟩ := readsBack_facts D h c hD
  unfold SigningString at hs ⊢
  rw [verify_signed_eq D j now h c s hdr hsp h2 h5 h4, hs]
  simp only [if_true, hv]

/-- A token made of the signing string of given claims and a third segment that does not decode
to the keyed hash of the signing string is rejected. -/
theorem verify_of_not_tag (D : JSONDecoder) (j : JWTManager) (now : Int) (h : Hash) (c : Claims)
    (s : GoString) (hD : D.ReadsBack (.HMAC h) c)
    (hs : b64Decode s ≠ some (hmacSum h.params (utf8Encode j.SecretKey)
      (utf8Encode (SigningString (.HMAC h) c)))) :
    ∃ e, j.Verify D now (SigningString (.HMAC h) c ++ '.' :: s) = .error e := by
  unfold SigningString at hs ⊢
  by_cases hsp : splitOnChar '.' s = [s]
  · obtain ⟨hdr, h2, h5, h4⟩ := readsBack_facts D h c hD
    rw [verify_signed_eq D j now h c s hdr hsp h2 h5 h4]
    cases hdec : b64Decode s with
    | none => exact ⟨_, rfl⟩
    | some sig =>
      have hne : sig ≠ hmacSum h.params (utf8Encode j.SecretKey)
          (utf8Encode (b64Encode (marshalHeader (.HMAC h)) ++ '.'
            :: b64Encode (marshalClaims c))) := by
        intro e
        exact hs (by rw [hdec, e])
      simp only [if_neg hne]
      exact ⟨_, rfl⟩
  · refine ⟨.tokenMalformed, ?_⟩
    unfold JWTManager.Verify ParseWithClaims
    rw [parseUnverified_segments D (b64Encode (marshalHeader (.HMAC h)))
      (b64Encode (marshalClaims c)) s (b64Encode_no_dot _) (b64Encode_no_dot _) hsp]

/-- A token whose claims are not valid at the time is rejected, whatever its third segment. -/
theorem verify_of_invalid (D : JSONDecoder) (j : JWTManager) (now : Int) (h : Hash) (c : Claims)
    (s : GoString) (e : JWTError) (hD : D.ReadsBack (.HMAC h) c)
    (hv : Validate now c = .error e) :
    ∃ e1, j.Verify D now (SigningString (.HMAC h) c ++ '.' :: s) = .error e1 := by
  unfold SigningString
  by_cases hsp : splitOnChar '.' s = [s]
  · obtain ⟨hdr, h2, h5, h4⟩ := readsBack_facts D h c hD
    rw [verify_signed_eq D j now h c s hdr hsp h2 h5 h4]
    cases b64Decode s with
    | none => exact ⟨_, rfl⟩
    | some sig =>
      simp only [hv]
      split
      · exact ⟨_, rfl⟩
      · exact ⟨_, rfl⟩
  · refine ⟨.tokenMalformed, ?_⟩
    unfold JWTManager.Verify ParseWithClaims
    rw [parseUnverified_segments D (b64Encode (marshalHeader (.HMAC h)))
      (b64Encode (marshalClaims c)) s (b64Encode_no_dot _) (b64Encode_no_dot _) hsp]

/-- What Generate returns: the signing string of the new claims, a dot, and the encoded keyed
hash of the signing string. -/
theorem generate_eq (j : JWTManager) (now : Int) (userID role : GoString) :
    j.Generate now userID role =
      .ok (SigningString (.HMAC .SHA256) (j.newClaims now userID role)
          ++ '.' :: b64Encode (hmacSum sha256Params (utf8Encode j.SecretKey)
            (utf8Encode (SigningString (.HMAC .SHA256) (j.newClaims now userID role))))) := by
  unfold JWTManager.Generate SignedString SigningMethod.Sign
  rfl

/-! # Properties of the middleware -/

/-- A header made of Bearer, one space and a token free of spaces splits in two. -/
theorem splitOnChar_bearer (t : GoString) (ht : ' ' ∉ t) :
    splitOnChar ' ' ("Bearer ".toList ++ t) = ["Bearer".toList, t] := by
  have h : "Bearer ".toList ++ t = "Bearer".toList ++ ' ' :: t := rfl
  rw [h, splitOnChar_append _ _ _ (by decide), splitOnChar_of_not_mem _ _ ht]

/-- A text that splits in two at its spaces is the two pieces around one space. -/
theorem splitOnChar_two (s a b : GoString) (h : splitOnChar ' ' s = [a, b]) :
    s = a ++ ' ' :: b ∧ ' ' ∉ b := by
  obtain ⟨h1, h2⟩ := splitOnChar_spec ' ' s
  rw [h] at h1 h2
  refine ⟨?_, h1 b (by simp)⟩
  rw [← h2]
  simp [List.intercalate]

/-- The format check of the middleware passes exactly on Bearer, one space and a token free of
spaces. -/
theorem format_check_iff (s : GoString) :
    ((splitOnChar ' ' s).length ≠ 2 ∨ (splitOnChar ' ' s).getD 0 [] ≠ "Bearer".toList)
      ↔ ¬ ∃ t, ' ' ∉ t ∧ s = "Bearer ".toList ++ t := by
  constructor
  · rintro h ⟨t, ht, rfl⟩
    rw [splitOnChar_bearer t ht] at h
    simp at h
  · intro h
    by_contra hc
    push_neg at hc
    obtain ⟨hlen, hfirst⟩ := hc
    match hsp : splitOnChar ' ' s, hlen, hfirst with
    | [a, b], _, hfirst =>
      simp only [List.getD_cons_zero] at hfirst
      obtain ⟨hs, hb⟩ := splitOnChar_two s a b hsp
      exact h ⟨b, hb, by rw [hs, hfirst]; rfl⟩

theorem verify_empty (D : JSONDecoder) (j : JWTManager) (now : Int) :
    j.Verify D now [] = .error .tokenMalformed := rfl

theorem writeSimpleError_ops (w : ResponseWriter) (code : Nat) (msg : GoString) :
    (WriteSimpleError w code msg).ops = w.ops ++
      [.setHeader "Content-Type".toList "application/json".toList, .writeHeader code,
       .write (encodeErrorResponse [("message".toList, msg)])] := by
  simp [WriteSimpleError, WriteErrorResponse, ResponseWriter.push]

theorem writeSimpleError_fresh (w : ResponseWriter) (code : Nat) (msg : GoString)
    (hw : w.ops = []) :
    (WriteSimpleError w code msg).status = some code
      ∧ (WriteSimpleError w code msg).body = encodeErrorResponse [("message".toList, msg)] := by
  simp [ResponseWriter.status, ResponseWriter.body, writeSimpleError_ops, hw]

/-- The run of the middleware on a request whose header passes the format check. -/
theorem middleware_bearer (D : JSONDecoder) (secret : GoString) (allowedRoles : List GoString)
    (next : HandlerFunc) (now : Int) (w : ResponseWriter) (r : Request) (tok : GoString)
    (hh : r.HeaderGet "Authorization".toList = "Bearer ".toList ++ tok) (ht : ' ' ∉ tok) :
    NewAuthMiddleware D secret allowedRoles next now w r =
      match (NewJWTManager secret (24 * Hour)).Verify D now tok with
      | .error _ =>
        { w := WriteSimpleError w 401 "Invalid or expired token".toList, calls := [] }
      | .ok claims =>
        if allowedRoles.any (fun role => claims.Role = role) then
          { w := next w (r.WithValue "claims".toList (.claims claims)),
            calls := [r.WithValue "claims".toList (.claims claims)] }
        else
          { w := WriteSimpleError w 403 "Access denied: insufficient permissions".toList,
            calls := [] } := by
  unfold NewAuthMiddleware
  simp only [hh, splitOnChar_bearer tok ht]
  rw [if_neg (by simp [String.toList]), if_neg (by simp)]
  simp only [List.getD_cons_succ, List.getD_cons_zero]
  cases (NewJWTManager secret (24 * Hour)).Verify D now tok with
  | error e => rfl
  | ok claims =>
    by_cases ha : allowedRoles.any (fun role => claims.Role = role) = true
    · simp [ha]
    · simp [ha]

/-! # The reference decoder reads back what the encoder writes -/

theorem runeInRange_toNat (lo hi : Nat) (c : Char) (h1 : lo ≤ c.toNat) (h2 : c.toNat < hi) :
    runeInRange lo hi c.toNat = some c := by
  have hv : c.toNat.isValidChar := c.valid
  simp [runeInRange, h1, h2, hv, Char.ofNat_toNat]

theorem runeInRange_eq (lo hi n : Nat) (c : Char) (hn : n = c.toNat) (h1 : lo ≤ c.toNat)
    (h2 : c.toNat < hi) : runeInRange lo hi n = some c := by
  rw [hn]
  exact runeInRange_toNat lo hi c h1 h2

theorem isCont_low (n : Nat) (h : n < 64) : isCont (0x80 + n) = true := by
  simp only [isCont, decide_eq_true_eq]
  omega

theorem utf8Decode_encodeRune (c : Char) (rest : Bytes) :
    utf8DecodeFrom (utf8EncodeRune c.toNat ++ rest) 0 0 0 0
      = (utf8DecodeFrom rest 0 0 0 0).map (c :: ·) := by
  have hlt := char_toNat_lt c
  unfold utf8EncodeRune
  by_cases h1 : c.toNat < 0x80
  · rw [if_pos h1, List.singleton_append, utf8DecodeFrom.eq_2, if_pos h1,
      runeInRange_toNat 0 0x80 c (Nat.zero_le _) h1]
    rfl
  · rw [if_neg h1]
    by_cases h2 : c.toNat < 0x800
    · rw [if_pos h2]
      have e1 : ¬ (0xC0 + c.toNat / 64 < 0x80) := by omega
      have e2 : ¬ (0xC0 + c.toNat / 64 < 0xC0) := by omega
      have e3 : 0xC0 + c.toNat / 64 < 0xE0 := by omega
      rw [List.cons_append, List.cons_append, List.nil_append, utf8DecodeFrom.eq_2, if_neg e1,
        if_neg e2, if_pos e3, utf8DecodeFrom.eq_3, if_pos (isCont_low _ (Nat.mod_lt _ (by decide))),
        if_pos rfl, runeInRange_eq 0x80 0x800 _ c (by omega) (by omega) h2]
      rfl
    · rw [if_neg h2]
      by_cases h3 : c.toNat < 0x10000
      · rw [if_pos h3]
        have e1 : ¬ (0xE0 + c.toNat / 4096 < 0x80) := by omega
        have e2 : ¬ (0xE0 + c.toNat / 4096 < 0xC0) := by omega
        have e3 : ¬ (0xE0 + c.toNat / 4096 < 0xE0) := by omega
        have e4 : 0xE0 + c.toNat / 4096 < 0xF0 := by omega
        rw [List.cons_append, List.cons_append, List.cons_append, List.nil_append,
          utf8DecodeFrom.eq_2, if_neg e1, if_neg e2, if_neg e3, if_pos e4,
          utf8DecodeFrom.eq_3, if_pos (isCont_low _ (Nat.mod_lt _ (by decide))),
          if_neg (by decide),
          utf8DecodeFrom.eq_3, if_pos (isCont_low _ (Nat.mod_lt _ (by decide))),
          if_pos rfl, runeInRange_eq 0x800 0x10000 _ c (by omega) (by omega) h3]
        rfl
      · rw [if_neg h3]
        have e1 : ¬ (0xF0 + c.toNat / 262144 < 0x80) := by omega
        have e2 : ¬ (0xF0 + c.toNat / 262144 < 0xC0) := by omega
        have e3 : ¬ (0xF0 + c.toNat / 262144 < 0xE0) := by omega
        have e4 : ¬ (0xF0 + c.toNat / 262144 < 0xF0) := by omega
        have e5 : 0xF0 + c.toNat / 262144 < 0xF8 := by omega
        rw [List.cons_append, List.cons_append, List.cons_append, List.cons_append,
          List.nil_append,
          utf8DecodeFrom.eq_2, if_neg e1, if_neg e2, if_neg e3, if_neg e4, if_pos e5,
          utf8DecodeFrom.eq_3, if_pos (isCont_low _ (Nat.mod_lt _ (by decide))),
          if_neg (by decide),
          utf8DecodeFrom.eq_3, if_pos (isCont_low _ (Nat.mod_lt _ (by decide))),
          if_neg (by decide),
          utf8DecodeFrom.eq_3, if_pos (isCont_low _ (Nat.mod_lt _ (by decide))),
          if_pos rfl, runeInRange_eq 0x10000 0x110000 _ c (by omega) (by omega) hlt]
        rfl

/-- Decoding UTF-8 inverts encoding. -/
theorem utf8Decode_utf8Encode (s : GoString) : utf8Decode (utf8Encode s) = some s := by
  unfold utf8Decode
  induction s with
  | nil => rfl
  | cons c cs ih =>
    have : utf8Encode (c :: cs) = utf8EncodeRune c.toNat ++ utf8Encode cs := by
      simp [utf8Encode]
    rw [this, utf8Decode_encodeRune, ih]
    rfl

theorem hexValue_hexDigit : ∀ k < 16, hexValue (hexDigit k) = some k := by
  decide

theorem parse_hex_escape (a b : Nat) (c : Char) (tail : List Char) (ha : a < 16) (hb : b < 16)
    (hc : a * 16 + b = c.toNat) :
    parseStringFrom ('\x5c' :: 'u' :: '0' :: '0' :: hexDigit a :: hexDigit b :: tail) .plain
      = (parseStringFrom tail .plain).map fun p => (c :: p.1, p.2) := by
  have h0 : hexValue '0' = some 0 := by decide
  have hr : runeInRange 0 0x10000 ((0 * 16 + a) * 16 + b) = some c :=
    runeInRange_eq 0 0x10000 _ c (by omega) (Nat.zero_le _) (by omega)
  rw [parseStringFrom.eq_2, if_neg (by decide), if_pos rfl, parseStringFrom.eq_3, if_pos rfl,
    parseStringFrom.eq_5, h0, Option.some_bind, parseStringFrom.eq_5, h0, Option.some_bind,
    parseStringFrom.eq_5, hexValue_hexDigit a ha, Option.some_bind,
    parseStringFrom.eq_4, hexValue_hexDigit b hb, Option.some_bind]
  simp only [Nat.zero_mul, Nat.zero_add, Nat.mul_zero] at hr ⊢
  rw [hr]
  rfl

theorem parse_simple_escape (e x : Char) (tail : List Char) (he : e ≠ 'u')
    (hx : simpleEscape e = some x) :
    parseStringFrom ('\x5c' :: e :: tail) .plain
      = (parseStringFrom tail .plain).map fun p => (x :: p.1, p.2) := by
  rw [parseStringFrom.eq_2, if_neg (by decide), if_pos rfl, parseStringFrom.eq_3, if_neg he, hx]
  rfl

/-- Reading inverts the escaping of one character. -/
theorem parse_jsonEscapeChar (c : Char) (tail : List Char) :
    parseStringFrom (jsonEscapeChar c ++ tail) .plain
      = (parseStringFrom tail .plain).map fun p => (c :: p.1, p.2) := by
  unfold jsonEscapeChar
  split_ifs with h1 h2 h3 h4 h5 h6 h7 h8
  · rcases h1 with rfl | rfl
    · exact parse_simple_escape _ _ tail (by decide) (by decide)
    · exact parse_simple_escape _ _ tail (by decide) (by decide)
  · subst h2; exact parse_simple_escape _ _ tail (by decide) (by decide)
  · subst h3; exact parse_simple_escape _ _ tail (by decide) (by decide)
  · subst h4; exact parse_simple_escape _ _ tail (by decide) (by decide)
  · subst h5; exact parse_simple_escape _ _ tail (by decide) (by decide)
  · subst h6; exact parse_simple_escape _ _ tail (by decide) (by decide)
  · have hlt : c.toNat < 0x80 := by
      rcases h7 with h | rfl | rfl | rfl
      · omega
      · decide
      · decide
      · decide
    exact parse_hex_escape (c.toNat / 16) (c.toNat % 16) c tail (by omega) (by omega) (by omega)
  · rcases h8 with rfl | rfl
    · rfl
    · rfl
  · push_neg at h1 h7
    have hq : c ≠ '\x22' := h1.1
    have hb : c ≠ '\x5c' := h1.2
    have hn : ¬ c.toNat < 0x20 := by omega
    rw [List.singleton_append, parseStringFrom.eq_2, if_neg hq, if_neg hb, if_neg hn]

/-- Reading a string literal inverts writing it. -/
theorem parseStringBody_escape (s : GoString) (tail : List Char) :
    parseStringBody (s.flatMap jsonEscapeChar ++ '\x22' :: tail) = some (s, tail) := by
  unfold parseStringBody
  induction s with
  | nil =>
    rw [List.flatMap_nil, List.nil_append, parseStringFrom.eq_2, if_pos rfl]
  | cons c cs ih =>
    rw [List.flatMap_cons, List.append_assoc, parse_jsonEscapeChar, ih]
    rfl

theorem parseStringBody_jsonQuote (s : GoString) (tail : List Char) :
    ∃ body, jsonQuote s ++ tail = '\x22' :: body ∧ parseStringBody body = some (s, tail) := by
  refine ⟨s.flatMap jsonEscapeChar ++ '\x22' :: tail, ?_, parseStringBody_escape s tail⟩
  simp [jsonQuote]

theorem digit_facts : ∀ k < 10, ('0' ≤ Char.ofNat (48 + k) ∧ Char.ofNat (48 + k) ≤ '9')
    ∧ (Char.ofNat (48 + k)).toNat - 48 = k ∧ Char.ofNat (48 + k) ≠ '\x22'
    ∧ Char.ofNat (48 + k) ≠ '-' := by
  decide

theorem parseDigits_stop (c : Char) (rest : List Char) (acc : Nat)
    (hc : ¬ ('0' ≤ c ∧ c ≤ '9')) : parseDigits (c :: rest) acc = (acc, c :: rest) := by
  rw [parseDigits, if_neg hc]

/-- Reading the digits of a number gives the number back, and the digits begin with one. -/
theorem parseDigits_decDigits (fuel : Nat) :
    ∀ (n : Nat) (rest : List Char), n < fuel →
      (∃ d ds, decDigits fuel n ++ rest = d :: ds ∧ ('0' ≤ d ∧ d ≤ '9') ∧ d ≠ '\x22' ∧ d ≠ '-')
        ∧ ∀ acc, ∃ k, parseDigits (decDigits fuel n ++ rest) acc
            = parseDigits rest (acc * 10 ^ k + n) := by
  induction fuel with
  | zero => intro n rest h; omega
  | succ fuel ih =>
    intro n rest h
    rw [decDigits]
    by_cases hn : n < 10
    · obtain ⟨hd, hv, hq, hm⟩ := digit_facts n hn
      rw [if_pos hn]
      refine ⟨⟨_, rest, rfl, hd, hq, hm⟩, fun acc => ⟨1, ?_⟩⟩
      rw [List.singleton_append, parseDigits, if_pos hd, hv, pow_one]
    · rw [if_neg hn, List.append_assoc]
      obtain ⟨hd, hv, -, -⟩ := digit_facts (n % 10) (Nat.mod_lt _ (by decide))
      obtain ⟨⟨d, ds, h1, h2⟩, h3⟩ := ih (n / 10) ([Char.ofNat (48 + n % 10)] ++ rest) (by omega)
      refine ⟨⟨d, ds, h1, h2⟩, fun acc => ?_⟩
      obtain ⟨k, hk⟩ := h3 acc
      refine ⟨k + 1, ?_⟩
      rw [hk, List.singleton_append, parseDigits, if_pos hd, hv]
      congr 1
      rw [pow_succ]
      have := Nat.div_add_mod n 10
      nlinarith [this]

/-- Reading an integer inverts strconv.FormatInt when no digit follows. -/
theorem parseInt_formatInt (n : Int) (c : Char) (rest : List Char)
    (hc : ¬ ('0' ≤ c ∧ c ≤ '9')) :
    parseInt (formatInt n ++ c :: rest) = some (n, c :: rest)
      ∧ ∃ d ds, formatInt n ++ c :: rest = d :: ds ∧ d ≠ '\x22' := by
  obtain ⟨⟨d, ds, h1, h2, h3, h4⟩, h5⟩ :=
    parseDigits_decDigits (n.natAbs + 1) n.natAbs (c :: rest) (Nat.lt_succ_self _)
  obtain ⟨k, hk⟩ := h5 0
  rw [Nat.zero_mul, Nat.zero_add, parseDigits_stop c rest _ hc] at hk
  unfold formatInt
  by_cases hneg : n < 0
  · rw [if_pos hneg, List.cons_append]
    refine ⟨?_, _, _, rfl, by decide⟩
    rw [parseInt.eq_def]
    simp only [if_true]
    rw [h1] at hk ⊢
    simp only [h2, hk, and_self, if_true]
    congr 2
    omega
  · rw [if_neg hneg]
    refine ⟨?_, d, ds, h1, h3⟩
    rw [parseInt.eq_def, h1]
    simp only [if_neg h4, h2, and_self, if_true]
    rw [← h1, hk]
    congr 2
    omega

/-- Reading a member value inverts writing it when a comma or a closing brace follows. -/
theorem parseValue_render (v : JVal) (c : Char) (rest : List Char)
    (hc : c = ',' ∨ c = '\x7d') :
    parseValue (v.render ++ c :: rest) = some (v, c :: rest) := by
  have hnd : ¬ ('0' ≤ c ∧ c ≤ '9') := by
    rcases hc with rfl | rfl <;> decide
  cases v with
  | str s =>
    obtain ⟨body, h1, h2⟩ := parseStringBody_jsonQuote s (c :: rest)
    rw [JVal.render, h1, parseValue, if_pos rfl, h2]
    rfl
  | int n =>
    obtain ⟨h1, d, ds, h2, h3⟩ := parseInt_formatInt n c rest hnd
    rw [JVal.render]
    rw [h2] at h1 ⊢
    rw [parseValue, if_neg h3, h1]
    rfl

/-- Reading a member inverts writing it when a comma or a closing brace follows. -/
theorem parseMember_render (kv : GoString × JVal) (c : Char) (rest : List Char)
    (hc : c = ',' ∨ c = '\x7d') :
    parseMember (jsonQuote kv.1 ++ ':' :: kv.2.render ++ c :: rest) = some (kv, c :: rest) := by
  obtain ⟨body, h1, h2⟩ := parseStringBody_jsonQuote kv.1 (':' :: kv.2.render ++ c :: rest)
  have e : jsonQuote kv.1 ++ ':' :: kv.2.render ++ c :: rest
      = jsonQuote kv.1 ++ (':' :: kv.2.render ++ c :: rest) := by simp
  rw [e, h1, parseMember.eq_def]
  simp only [if_true, h2]
  rw [show (':' :: kv.2.render ++ c :: rest) = ':' :: (kv.2.render ++ c :: rest) from rfl]
  simp only [if_true, parseValue_render kv.2 c rest hc]
  rfl

theorem renderMembers_cons (kv : GoString × JVal) (ms : List (GoString × JVal))
    (tail : List Char) :
    ∃ c rest, (c = ',' ∨ c = '\x7d')
      ∧ renderMembers (kv :: ms) ++ '\x7d' :: tail
          = jsonQuote kv.1 ++ ':' :: kv.2.render ++ c :: rest
      ∧ ((c = '\x7d' ∧ ms = [] ∧ rest = tail)
          ∨ (c = ',' ∧ ms ≠ [] ∧ rest = renderMembers ms ++ '\x7d' :: tail)) := by
  cases ms with
  | nil =>
    refine ⟨'\x7d', tail, Or.inr rfl, ?_, Or.inl ⟨rfl, rfl, rfl⟩⟩
    simp [renderMembers]
  | cons m ms =>
    refine ⟨',', renderMembers (m :: ms) ++ '\x7d' :: tail, Or.inl rfl, ?_,
      Or.inr ⟨rfl, by simp, rfl⟩⟩
    simp [renderMembers]

/-- Reading the members of an object inverts writing them. -/
theorem parseMembers_render (ms : List (GoString × JVal)) :
    ∀ (fuel : Nat) (tail : List Char), ms ≠ [] → ms.length ≤ fuel →
      parseMembers fuel (renderMembers ms ++ '\x7d' :: tail) = some (ms, tail) := by
  induction ms with
  | nil => intro fuel tail h; exact absurd rfl h
  | cons kv ms ih =>
    intro fuel tail _ hlen
    obtain ⟨fuel, rfl⟩ : ∃ f, fuel = f + 1 := ⟨fuel - 1, by simp at hlen; omega⟩
    obtain ⟨c, rest, hc, heq, hcase⟩ := renderMembers_cons kv ms tail
    rw [heq, parseMembers.eq_2, parseMember_render kv c rest hc]
    rcases hcase with ⟨rfl, rfl, rfl⟩ | ⟨rfl, hne, rfl⟩
    · simp
    · have := ih fuel tail hne (by simp at hlen; omega)
      simp [this]

theorem renderMembers_length (ms : List (GoString × JVal)) :
    ms.length ≤ (renderMembers ms).length := by
  induction ms with
  | nil => simp
  | cons kv ms ih =>
    cases ms with
    | nil => simp [renderMembers, jsonQuote]
    | cons m ms =>
      simp only [renderMembers, List.length_append, List.length_cons] at ih ⊢
      omega

theorem renderMembers_head (kv : GoString × JVal) (ms : List (GoString × JVal)) :
    ∃ rest, renderMembers (kv :: ms) = '\x22' :: rest := by
  cases ms with
  | nil => exact ⟨_, by simp [renderMembers, jsonQuote]; rfl⟩
  | cons m ms => exact ⟨_, by simp [renderMembers, jsonQuote]; rfl⟩

/-- Reading an object inverts writing it. -/
theorem parseObject_render (ms : List (GoString × JVal)) (hne : ms ≠ []) :
    parseObject (renderObject ms) = some ms := by
  obtain ⟨kv, ms1, rfl⟩ := List.exists_cons_of_ne_nil hne
  obtain ⟨rest, hrest⟩ := renderMembers_head kv ms1
  have hp := parseMembers_render (kv :: ms1)
    (renderMembers (kv :: ms1) ++ ['\x7d']).length [] hne
    (by rw [List.length_append]; have := renderMembers_length (kv :: ms1); omega)
  have hnot : renderMembers (kv :: ms1) ++ ['\x7d'] ≠ ['\x7d'] := by
    rw [hrest]
    simp
  unfold renderObject
  rw [parseObject.eq_def, List.cons_append]
  simp only [if_true, if_neg hnot, hp]

theorem setMembers_claimsMembers (c : Claims) :
    setMembers zeroClaims (claimsMembers c) = some c := by
  obtain ⟨u, r, e, n, i⟩ := c
  cases e <;> cases n <;> cases i <;>
    simp [claimsMembers, setMembers, Claims.setMember, zeroClaims]

theorem claimsMembers_ne_nil (c : Claims) : claimsMembers c ≠ [] := by
  simp [claimsMembers]

/-- The reference decoder reads back the header of every new token and all claims. -/
theorem goJSON_readsBack (m : SigningMethod) (c : Claims) : goJSON.ReadsBack m c := by
  refine ⟨⟨headerOfMembers [("alg".toList, JVal.str m.Alg), ("typ".toList, JVal.str "JWT".toList)],
    ?_, ?_⟩, ?_⟩
  · show ((utf8Decode (marshalHeader m)).bind parseObject).map headerOfMembers = _
    rw [marshalHeader, utf8Decode_utf8Encode, Option.some_bind,
      parseObject_render _ (by simp)]
    rfl
  · simp [headerOfMembers]
  · show ((utf8Decode (marshalClaims c)).bind parseObject).bind (setMembers zeroClaims) = _
    rw [marshalClaims, utf8Decode_utf8Encode, Option.some_bind,
      parseObject_render _ (claimsMembers_ne_nil c), Option.some_bind,
      setMembers_claimsMembers]

/-! # Evaluations at the sample values -/

theorem validate_ok_of_expiry (now exp : Int) (c : Claims) (hc : c.ExpiresAt = some exp)
    (hn : c.NotBefore = Option.none) (h : now < numericDateTime exp) :
    Validate now c = .ok () := by
  simp [Validate, hc, hn, h]

theorem validate_error_of_expiry (now exp : Int) (c : Claims) (hc : c.ExpiresAt = some exp)
    (h : numericDateTime exp ≤ now) : Validate now c = .error .tokenExpired := by
  have : ¬ now < numericDateTime exp := not_lt.2 h
  simp [Validate, hc, this]

theorem issuance_before_expiry (now : Int) :
    now < numericDateTime (NewNumericDate (now + 24 * Hour)) := by
  simp only [numericDateTime, NewNumericDate, Hour, Second]
  omega

theorem expiry_of_negative_second (now tv : Int) (h : now ≤ tv) :
    numericDateTime (NewNumericDate (now + -Second)) ≤ tv := by
  simp only [numericDateTime, NewNumericDate, Second]
  omega

set_option maxRecDepth 1000000 in
theorem sample_generate :
    sampleManager.Generate sampleNow "u1".toList "customer".toList = .ok sampleToken := by
  rfl

set_option maxRecDepth 1000000 in
theorem sample_verify : sampleManager.Verify goJSON sampleNow sampleToken = .ok sampleClaims := by
  rfl


/-- Claims that Verify returns passed the validator. -/
theorem validate_of_verify (D : JSONDecoder) (j : JWTManager) (now : Int) (tok : GoString)
    (claims : Claims) (hv : j.Verify D now tok = .ok claims) : Validate now claims = .ok () := by
  unfold JWTManager.Verify ParseWithClaims at hv
  split at hv
  · cases hv
  · rename_i token hp
    split at hp
    · cases hp
    · rename_i t parts hu
      split at hp
      · cases hp
      · split at hp
        · cases hp
        · split at hp
          · cases hp
          · split at hp
            · cases hp
            · rename_i hval
              cases hp
              simp only [Bool.not_true, Bool.false_eq_true, if_false, Except.ok.injEq] at hv
              rw [← hv]
              exact hval

theorem expiry_of_validate (now exp : Int) (c : Claims) (hc : c.ExpiresAt = some exp)
    (hv : Validate now c = .ok ()) : now < numericDateTime exp := by
  by_contra h
  rw [validate_error_of_expiry now exp c hc (not_lt.1 h)] at hv
  cases hv


theorem getSigningMethod_alg (alg : GoString) (m : SigningMethod)
    (h : GetSigningMethod alg = some m) : m.Alg = alg := by
  have := List.find?_some h
  simpa using this


/-! # The claims -/

/-- C1. A token issued by a manager with a non-empty secret and the 24-hour duration, for any
subject and role, verifies under a manager with the same secret at the instant of issuance and
at any instant before its expiry, and the claims returned carry the subject and the role given
to Generate. The decoder is any that reads back what json.Marshal wrote for this token, as the
reference decoder does for every subject and role. -/
theorem generate_verify_roundtrip (D : JSONDecoder) (secret userID role : GoString)
    (duration now tv : Int) (_hsecret : secret ≠ [])
    (hD : D.ReadsBack (.HMAC .SHA256)
      ((NewJWTManager secret (24 * Hour)).newClaims now userID role))
    (htv : tv = now ∨ tv < numericDateTime (NewNumericDate (now + 24 * Hour))) :
    ∃ tok claims, (NewJWTManager secret (24 * Hour)).Generate now userID role = .ok tok
      ∧ (NewJWTManager secret duration).Verify D tv tok = .ok claims
      ∧ claims.UserID = userID ∧ claims.Role = role := by
  have hlt : tv < numericDateTime (NewNumericDate (now + 24 * Hour)) := by
    rcases htv with rfl | h
    · exact issuance_before_expiry tv
    · exact h
  refine ⟨_, (NewJWTManager secret (24 * Hour)).newClaims now userID role,
    generate_eq _ now userID role, ?_, rfl, rfl⟩
  exact verify_of_tag D (NewJWTManager secret duration) tv .SHA256 _ _ hD
    (b64Decode_b64Encode _ (hmacSum_lt _ _ _)) (validate_ok_of_expiry tv _ _ rfl rfl hlt)

theorem generate_verify_roundtrip_witness :
    "secret".toList ≠ []
      ∧ goJSON.ReadsBack (.HMAC .SHA256)
          ((NewJWTManager "secret".toList (24 * Hour)).newClaims sampleNow "u1".toList
            "customer".toList)
      ∧ ∃ tok claims,
          (NewJWTManager "secret".toList (24 * Hour)).Generate sampleNow "u1".toList
              "customer".toList = .ok tok
            ∧ (NewJWTManager "secret".toList (24 * Hour)).Verify goJSON sampleNow tok = .ok claims
            ∧ claims.UserID = "u1".toList ∧ claims.Role = "customer".toList :=
  ⟨by decide, (goJSON_readsBack _ _),
    generate_verify_roundtrip goJSON "secret".toList "u1".toList "customer".toList (24 * Hour)
      sampleNow sampleNow (by decide) (goJSON_readsBack _ _) (Or.inl rfl)⟩

/-- C2. When the Authorization header is well formed and the token verifies with a role that
is in none of the allowed roles, the middleware answers through WriteSimpleError with
status 403 and the body made of the object errors holding the single entry message with the
text Access denied: insufficient permissions (as the JSON encoder writes it, a line feed after
the object), and does not call the wrapped handler. -/
theorem role_outside_allowlist_forbidden (D : JSONDecoder) (secret : GoString)
    (allowedRoles : List GoString) (next : HandlerFunc) (now : Int) (w : ResponseWriter)
    (r : Request) (tok : GoString) (claims : Claims)
    (hh : r.HeaderGet "Authorization".toList = "Bearer ".toList ++ tok) (ht : ' ' ∉ tok)
    (hv : (NewJWTManager secret (24 * Hour)).Verify D now tok = .ok claims)
    (hr : claims.Role ∉ allowedRoles) :
    (NewAuthMiddleware D secret allowedRoles next now w r).calls = []
      ∧ (NewAuthMiddleware D secret allowedRoles next now w r).w
          = WriteSimpleError w 403 "Access denied: insufficient permissions".toList
      ∧ (w.ops = [] →
          (NewAuthMiddleware D secret allowedRoles next now w r).w.status = some 403
            ∧ (NewAuthMiddleware D secret allowedRoles next now w r).w.body
                = simpleErrorBody "Access denied: insufficient permissions") := by
  have hany : allowedRoles.any (fun role => claims.Role = role) = false := by
    rw [List.any_eq_false]
    intro x hx
    simp only [decide_eq_true_eq]
    intro e
    exact hr (e ▸ hx)
  rw [middleware_bearer D secret allowedRoles next now w r tok hh ht, hv]
  simp only [hany]
  refine ⟨rfl, rfl, fun hw => ?_⟩
  exact writeSimpleError_fresh w 403 _ hw

theorem role_outside_allowlist_forbidden_witness :
    (sampleRequest ("Bearer ".toList ++ sampleToken)).HeaderGet "Authorization".toList
        = "Bearer ".toList ++ sampleToken
      ∧ ' ' ∉ sampleToken
      ∧ (NewJWTManager "secret".toList (24 * Hour)).Verify goJSON sampleNow sampleToken
          = .ok sampleClaims
      ∧ sampleClaims.Role ∉ ["admin".toList]
      ∧ (NewAuthMiddleware goJSON "secret".toList ["admin".toList] okHandler sampleNow
            freshWriter (sampleRequest ("Bearer ".toList ++ sampleToken))).calls = []
      ∧ (NewAuthMiddleware goJSON "secret".toList ["admin".toList] okHandler sampleNow
            freshWriter (sampleRequest ("Bearer ".toList ++ sampleToken))).w.status = some 403 :=
  ⟨rfl, by decide, sample_verify, by decide,
    (role_outside_allowlist_forbidden goJSON "secret".toList ["admin".toList] okHandler
      sampleNow freshWriter (sampleRequest ("Bearer ".toList ++ sampleToken)) sampleToken
      sampleClaims rfl (by decide) sample_verify (by decide)).1,
    ((role_outside_allowlist_forbidden goJSON "secret".toList ["admin".toList] okHandler
      sampleNow freshWriter (sampleRequest ("Bearer ".toList ++ sampleToken)) sampleToken
      sampleClaims rfl (by decide) sample_verify (by decide)).2.2 rfl).1⟩

/-- C3. When the Authorization header is well formed and the token verifies with a role that
is one of the allowed roles, the middleware writes nothing itself and calls the wrapped
handler exactly once, on the untouched writer and on the request whose context holds, under
the key claims, the verified claims. -/
theorem role_in_allowlist_allowed (D : JSONDecoder) (secret : GoString)
    (allowedRoles : List GoString) (next : HandlerFunc) (now : Int) (w : ResponseWriter)
    (r : Request) (tok : GoString) (claims : Claims)
    (hh : r.HeaderGet "Authorization".toList = "Bearer ".toList ++ tok) (ht : ' ' ∉ tok)
    (hv : (NewJWTManager secret (24 * Hour)).Verify D now tok = .ok claims)
    (hr : claims.Role ∈ allowedRoles) :
    (NewAuthMiddleware D secret allowedRoles next now w r).calls
        = [r.WithValue "claims".toList (.claims claims)]
      ∧ (NewAuthMiddleware D secret allowedRoles next now w r).w
          = next w (r.WithValue "claims".toList (.claims claims))
      ∧ (r.WithValue "claims".toList (.claims claims)).Value "claims".toList
          = some (.claims claims) := by
  have hany : allowedRoles.any (fun role => claims.Role = role) = true :=
    List.any_eq_true.2 ⟨claims.Role, hr, by simp⟩
  rw [middleware_bearer D secret allowedRoles next now w r tok hh ht, hv]
  simp only [hany]
  refine ⟨rfl, rfl, ?_⟩
  simp [Request.Value, Request.WithValue]

theorem role_in_allowlist_allowed_witness :
    (sampleRequest ("Bearer ".toList ++ sampleToken)).HeaderGet "Authorization".toList
        = "Bearer ".toList ++ sampleToken
      ∧ ' ' ∉ sampleToken
      ∧ (NewJWTManager "secret".toList (24 * Hour)).Verify goJSON sampleNow sampleToken
          = .ok sampleClaims
      ∧ sampleClaims.Role ∈ ["admin".toList, "customer".toList]
      ∧ sampleClaims.UserID = "u1".toList ∧ sampleClaims.Role = "customer".toList
      ∧ (NewAuthMiddleware goJSON "secret".toList ["admin".toList, "customer".toList] okHandler
            sampleNow freshWriter (sampleRequest ("Bearer ".toList ++ sampleToken))).calls
          = [(sampleRequest ("Bearer ".toList ++ sampleToken)).WithValue "claims".toList
              (.claims sampleClaims)] :=
  ⟨rfl, by decide, sample_verify, by decide, rfl, rfl,
    (role_in_allowlist_allowed goJSON "secret".toList ["admin".toList, "customer".toList]
      okHandler sampleNow freshWriter (sampleRequest ("Bearer ".toList ++ sampleToken))
      sampleToken sampleClaims rfl (by decide) sample_verify (by decide)).1⟩

/-- C4. When the Authorization header has the two-part Bearer shape and Verify fails on the
token, the middleware writes status 401 with the message Invalid or expired token and does not
call the wrapped handler, whatever the allowed roles are. -/
theorem failed_verification_unauthorized (D : JSONDecoder) (secret : GoString)
    (allowedRoles : List GoString) (next : HandlerFunc) (now : Int) (w : ResponseWriter)
    (r : Request) (tok : GoString) (e : JWTError)
    (hh : r.HeaderGet "Authorization".toList = "Bearer ".toList ++ tok) (ht : ' ' ∉ tok)
    (hv : (NewJWTManager secret (24 * Hour)).Verify D now tok = .error e) :
    (NewAuthMiddleware D secret allowedRoles next now w r).calls = []
      ∧ (NewAuthMiddleware D secret allowedRoles next now w r).w
          = WriteSimpleError w 401 "Invalid or expired token".toList
      ∧ (w.ops = [] →
          (NewAuthMiddleware D secret allowedRoles next now w r).w.status = some 401
            ∧ (NewAuthMiddleware D secret allowedRoles next now w r).w.body
                = simpleErrorBody "Invalid or expired token") := by
  rw [middleware_bearer D secret allowedRoles next now w r tok hh ht, hv]
  refine ⟨rfl, rfl, fun hw => ?_⟩
  exact writeSimpleError_fresh w 401 _ hw

set_option maxRecDepth 1000000 in
theorem failed_verification_unauthorized_witness :
    (sampleRequest ("Bearer ".toList ++ sampleTokenNone)).HeaderGet "Authorization".toList
        = "Bearer ".toList ++ sampleTokenNone
      ∧ ' ' ∉ sampleTokenNone
      ∧ (NewJWTManager "secret".toList (24 * Hour)).Verify goJSON sampleNow sampleTokenNone
          = .error .tokenUnverifiable
      ∧ (NewAuthMiddleware goJSON "secret".toList ["admin".toList] okHandler sampleNow
            freshWriter (sampleRequest ("Bearer ".toList ++ sampleTokenNone))).w
          = WriteSimpleError freshWriter 401 "Invalid or expired token".toList :=
  ⟨rfl, by decide, rfl,
    (failed_verification_unauthorized goJSON "secret".toList ["admin".toList] okHandler
      sampleNow freshWriter (sampleRequest ("Bearer ".toList ++ sampleTokenNone))
      sampleTokenNone .tokenUnverifiable rfl (by decide) rfl).2.1⟩

/-- C5. A request without Authorization header gets status 401 with the body made of the
object errors holding the single entry message with the text Missing Authorization header (as
the JSON encoder writes it, a line feed after the object), and the wrapped handler is not
called, whatever the allowed roles and the handler are. -/
theorem missing_header_unauthorized (D : JSONDecoder) (secret : GoString)
    (allowedRoles : List GoString) (next : HandlerFunc) (now : Int) (w : ResponseWriter)
    (r : Request) (hh : r.HeaderGet "Authorization".toList = []) :
    (NewAuthMiddleware D secret allowedRoles next now w r).calls = []
      ∧ (NewAuthMiddleware D secret allowedRoles next now w r).w
          = WriteSimpleError w 401 "Missing Authorization header".toList
      ∧ (w.ops = [] →
          (NewAuthMiddleware D secret allowedRoles next now w r).w.status = some 401
            ∧ (NewAuthMiddleware D secret allowedRoles next now w r).w.body
                = simpleErrorBody "Missing Authorization header") := by
  have hm : NewAuthMiddleware D secret allowedRoles next now w r
      = { w := WriteSimpleError w 401 "Missing Authorization header".toList, calls := [] } := by
    unfold NewAuthMiddleware
    simp only [hh]
    rfl
  rw [hm]
  refine ⟨rfl, rfl, fun hw => ?_⟩
  exact writeSimpleError_fresh w 401 _ hw

theorem missing_header_unauthorized_witness :
    bareRequest.HeaderGet "Authorization".toList = []
      ∧ (NewAuthMiddleware goJSON "secret".toList ["admin".toList] okHandler sampleNow
            freshWriter bareRequest).calls = []
      ∧ (NewAuthMiddleware goJSON "secret".toList ["admin".toList] okHandler sampleNow
            freshWriter bareRequest).w.status = some 401 :=
  ⟨rfl,
    (missing_header_unauthorized goJSON "secret".toList ["admin".toList] okHandler sampleNow
      freshWriter bareRequest rfl).1,
    ((missing_header_unauthorized goJSON "secret".toList ["admin".toList] okHandler sampleNow
      freshWriter bareRequest rfl).2.2 rfl).1⟩
/-- C6. For every request whose Authorization header value, as the server of net/http hands
it on (spaces and tabs taken off its ends), is non-empty and is not the word Bearer, one space
and a non-empty token free of spaces, the middleware answers with status 401 and the message
Invalid Authorization header format, whatever the decoder, the secret and the clock are (Verify
is not consulted), and the wrapped handler is not called. -/
theorem malformed_header_unauthorized (D : JSONDecoder) (secret : GoString)
    (allowedRoles : List GoString) (next : HandlerFunc) (now : Int) (w : ResponseWriter)
    (r : Request) (hne : r.HeaderGet "Authorization".toList ≠ [])
    (htrim : isTrimmed (r.HeaderGet "Authorization".toList) = true)
    (hshape : ¬ ∃ t, t ≠ [] ∧ ' ' ∉ t
      ∧ r.HeaderGet "Authorization".toList = "Bearer ".toList ++ t) :
    (NewAuthMiddleware D secret allowedRoles next now w r).calls = []
      ∧ (NewAuthMiddleware D secret allowedRoles next now w r).w
          = WriteSimpleError w 401 "Invalid Authorization header format".toList
      ∧ (w.ops = [] →
          (NewAuthMiddleware D secret allowedRoles next now w r).w.status = some 401
            ∧ (NewAuthMiddleware D secret allowedRoles next now w r).w.body
                = simpleErrorBody "Invalid Authorization header format") := by
  have hshape2 : ¬ ∃ t, ' ' ∉ t ∧ r.HeaderGet "Authorization".toList = "Bearer ".toList ++ t := by
    rintro ⟨t, ht, heq⟩
    by_cases h0 : t = []
    · subst h0
      rw [heq] at htrim
      exact absurd htrim (by decide)
    · exact hshape ⟨t, h0, ht, heq⟩
  have hfmt := (format_check_iff _).2 hshape2
  have hm : NewAuthMiddleware D secret allowedRoles next now w r
      = { w := WriteSimpleError w 401 "Invalid Authorization header format".toList,
          calls := [] } := by
    unfold NewAuthMiddleware
    simp only [if_neg hne, if_pos hfmt]
  rw [hm]
  exact ⟨rfl, rfl, fun hw => writeSimpleError_fresh w 401 _ hw⟩

theorem malformed_header_unauthorized_witness :
    (sampleRequest "Basic dXNlcjpwYXNz".toList).HeaderGet "Authorization".toList ≠ []
      ∧ isTrimmed ((sampleRequest "Basic dXNlcjpwYXNz".toList).HeaderGet
          "Authorization".toList) = true
      ∧ (¬ ∃ t, t ≠ [] ∧ ' ' ∉ t ∧ (sampleRequest "Basic dXNlcjpwYXNz".toList).HeaderGet
            "Authorization".toList = "Bearer ".toList ++ t)
      ∧ (NewAuthMiddleware goJSON "secret".toList ["admin".toList] okHandler sampleNow
            freshWriter (sampleRequest "Basic dXNlcjpwYXNz".toList)).w
          = WriteSimpleError freshWriter 401 "Invalid Authorization header format".toList
      ∧ (NewAuthMiddleware goJSON "secret".toList ["admin".toList] okHandler sampleNow
            freshWriter (sampleRequest "Bearer".toList)).w
          = WriteSimpleError freshWriter 401 "Invalid Authorization header format".toList :=
  have hbasic : ¬ ∃ t, t ≠ [] ∧ ' ' ∉ t ∧ (sampleRequest "Basic dXNlcjpwYXNz".toList).HeaderGet
      "Authorization".toList = "Bearer ".toList ++ t :=
    fun ⟨_, _, _, heq⟩ =>
      absurd (show 'a' = 'e' from congrArg (fun s => s.getD 1 'x') heq) (by decide)
  have hbearer : ¬ ∃ t, t ≠ [] ∧ ' ' ∉ t ∧ (sampleRequest "Bearer".toList).HeaderGet
      "Authorization".toList = "Bearer ".toList ++ t :=
    fun ⟨_, _, _, heq⟩ =>
      absurd (show 'x' = ' ' from congrArg (fun s => s.getD 6 'x') heq) (by decide)
  ⟨by decide, by decide, hbasic,
    (malformed_header_unauthorized goJSON "secret".toList ["admin".toList] okHandler sampleNow
      freshWriter (sampleRequest "Basic dXNlcjpwYXNz".toList) (by decide) (by decide)
      hbasic).2.1,
    (malformed_header_unauthorized goJSON "secret".toList ["admin".toList] okHandler sampleNow
      freshWriter (sampleRequest "Bearer".toList) (by decide) (by decide) hbearer).2.1⟩

/-- C7, as amended. The token Generate returns is the signing string of the new claims, a dot
and the base64url text of the keyed hash of the signing string. Every token that keeps the
signing string and carries a third segment that does not decode to that keyed hash (decoding
fails, or gives other bytes) is rejected by Verify under the same secret. A change of the third
segment that leaves the decoded bytes the same, as a change of the unused low bits of its last
character does, is outside this statement. -/
theorem altered_tag_rejected (D : JSONDecoder) (secret userID role : GoString)
    (duration now tv : Int) (s : GoString)
    (hD : D.ReadsBack (.HMAC .SHA256) ((NewJWTManager secret duration).newClaims now userID role))
    (hs : b64Decode s ≠ some (hmacSum sha256Params (utf8Encode secret)
      (utf8Encode (SigningString (.HMAC .SHA256)
        ((NewJWTManager secret duration).newClaims now userID role))))) :
    (NewJWTManager secret duration).Generate now userID role
        = .ok (SigningString (.HMAC .SHA256)
            ((NewJWTManager secret duration).newClaims now userID role)
          ++ '.' :: b64Encode (hmacSum sha256Params (utf8Encode secret)
            (utf8Encode (SigningString (.HMAC .SHA256)
              ((NewJWTManager secret duration).newClaims now userID role)))))
      ∧ ∃ e, (NewJWTManager secret duration).Verify D tv
          (SigningString (.HMAC .SHA256)
            ((NewJWTManager secret duration).newClaims now userID role) ++ '.' :: s)
          = .error e :=
  ⟨generate_eq _ now userID role,
    verify_of_not_tag D (NewJWTManager secret duration) tv .SHA256 _ s hD hs⟩

set_option maxRecDepth 1000000 in
theorem altered_tag_rejected_witness :
    goJSON.ReadsBack (.HMAC .SHA256)
        ((NewJWTManager "secret".toList (24 * Hour)).newClaims sampleNow "u1".toList
          "customer".toList)
      ∧ b64Decode "AAAA".toList ≠ some (hmacSum sha256Params (utf8Encode "secret".toList)
          (utf8Encode (SigningString (.HMAC .SHA256)
            ((NewJWTManager "secret".toList (24 * Hour)).newClaims sampleNow "u1".toList
              "customer".toList))))
      ∧ ∃ e, (NewJWTManager "secret".toList (24 * Hour)).Verify goJSON sampleNow
          (SigningString (.HMAC .SHA256)
            ((NewJWTManager "secret".toList (24 * Hour)).newClaims sampleNow "u1".toList
              "customer".toList) ++ '.' :: "AAAA".toList)
          = .error e :=
  ⟨(goJSON_readsBack _ _), by decide!,
    (altered_tag_rejected goJSON "secret".toList "u1".toList "customer".toList (24 * Hour)
      sampleNow sampleNow "AAAA".toList (goJSON_readsBack _ _) (by decide!)).2⟩

set_option maxRecDepth 1000000 in
/-- C7 as stated fails on the sample token: changing the last character of its third segment
from 4 to 5 leaves the first two segments alone and gives a different token that Verify
accepts under the same secret. -/
theorem altered_tag_accepted_counterexample :
    sampleManager.Generate sampleNow "u1".toList "customer".toList = .ok sampleToken
      ∧ (splitOnChar '.' sampleTokenAltered).take 2 = (splitOnChar '.' sampleToken).take 2
      ∧ (splitOnChar '.' sampleToken).getD 2 []
          = "3gAzpGDaNR-oSDSkha4hlNm_BqRDSS5H_EP-BnZou34".toList
      ∧ (splitOnChar '.' sampleTokenAltered).getD 2 []
          = "3gAzpGDaNR-oSDSkha4hlNm_BqRDSS5H_EP-BnZou35".toList
      ∧ sampleManager.Verify goJSON sampleNow sampleTokenAltered = .ok sampleClaims :=
  ⟨rfl, rfl, rfl, rfl, rfl⟩

/-- C8. A token issued by a manager whose duration is minus one second is rejected by Verify
under the same secret at the instant of issuance and at every later instant. The decoder is
any that reads back what json.Marshal wrote for this token. -/
theorem expired_token_rejected (D : JSONDecoder) (secret userID role : GoString)
    (duration now tv : Int)
    (hD : D.ReadsBack (.HMAC .SHA256) ((NewJWTManager secret (-Second)).newClaims now userID role))
    (htv : now ≤ tv) :
    ∃ tok, (NewJWTManager secret (-Second)).Generate now userID role = .ok tok
      ∧ ∃ e, (NewJWTManager secret duration).Verify D tv tok = .error e :=
  ⟨_, generate_eq _ now userID role,
    verify_of_invalid D (NewJWTManager secret duration) tv .SHA256 _ _ .tokenExpired hD
      (validate_error_of_expiry tv _ _ rfl (expiry_of_negative_second now tv htv))⟩

theorem expired_token_rejected_witness :
    goJSON.ReadsBack (.HMAC .SHA256)
        ((NewJWTManager "secret".toList (-Second)).newClaims sampleNow "u1".toList
          "customer".toList)
      ∧ sampleNow ≤ sampleNow
      ∧ ∃ tok, (NewJWTManager "secret".toList (-Second)).Generate sampleNow "u1".toList
            "customer".toList = .ok tok
          ∧ ∃ e, (NewJWTManager "secret".toList (24 * Hour)).Verify goJSON sampleNow tok
              = .error e :=
  ⟨goJSON_readsBack _ _, le_refl _,
    expired_token_rejected goJSON "secret".toList "u1".toList "customer".toList (24 * Hour)
      sampleNow sampleNow (goJSON_readsBack _ _) (le_refl _)⟩
/-- C9. Verify returns an error for every token whose header names a signing method that is
not one of the HMAC methods, whatever its claims and its signature segment are; and the key
function hands out the secret only for a token whose method is an HMAC method. -/
theorem non_hmac_method_rejected (D : JSONDecoder) (j : JWTManager) (now : Int)
    (tok : GoString) (headerBytes : Bytes) (header : Header) (alg : GoString)
    (h1 : b64Decode ((splitOnChar '.' tok).getD 0 []) = some headerBytes)
    (h2 : D.unmarshalHeader headerBytes = some header)
    (h3 : header "alg".toList = some (Iface.string alg))
    (h4 : ∀ h : Hash, alg ≠ (SigningMethod.HMAC h).Alg) :
    (∃ e, j.Verify D now tok = .error e)
      ∧ ∀ (t : Token) (key : Bytes), j.keyFunc t = .ok key →
          (∃ h : Hash, t.Method = .HMAC h) ∧ key = utf8Encode j.SecretKey := by
  constructor
  · unfold JWTManager.Verify ParseWithClaims ParseUnverified
    simp only [h1, h2]
    split
    · exact ⟨_, rfl⟩
    · rename_i token hp
      exfalso
      split at hp
      · cases hp
      · rename_i t parts hu
        split at hu
        · cases hu
        · split at hu
          · cases hu
          · split at hu
            · cases hu
            · rw [h3] at hu
              simp only at hu
              split at hu
              · rename_i method hm
                have hmalg := getSigningMethod_alg alg method hm
                cases hu
                simp only at hp
                split at hp
                · cases hp
                · cases method with
                  | HMAC h => exact h4 h hmalg.symm
                  | _ => simp [JWTManager.keyFunc] at hp
              · cases hu
  · intro t key hk
    unfold JWTManager.keyFunc at hk
    split at hk
    · rename_i h hm
      cases hk
      exact ⟨⟨h, hm⟩, rfl⟩
    · cases hk

set_option maxRecDepth 1000000 in
theorem non_hmac_method_rejected_witness :
    b64Decode ((splitOnChar '.' sampleTokenNone).getD 0 []) = some (marshalHeader .none)
      ∧ (∃ header, goJSON.unmarshalHeader (marshalHeader .none) = some header
          ∧ header "alg".toList = some (Iface.string "none".toList))
      ∧ (∀ h : Hash, "none".toList ≠ (SigningMethod.HMAC h).Alg)
      ∧ ∃ e, sampleManager.Verify goJSON sampleNow sampleTokenNone = .error e :=
  ⟨rfl, ⟨_, rfl, rfl⟩, fun h => by cases h <;> decide,
    (non_hmac_method_rejected goJSON sampleManager sampleNow sampleTokenNone
      (marshalHeader .none) _ "none".toList rfl rfl rfl (fun h => by cases h <;> decide)).1⟩

/-- C10, as amended. Claims that Verify returns and that carry an expiry carry one strictly
later than the time of verification, and a correctly signed token whose claims carry an expiry
at or before that time is rejected. Claims without expiry are not rejected on that ground: the
validator checks the expiry only when there is one. -/
theorem verified_expiry_in_future (D : JSONDecoder) (j : JWTManager) (now : Int) :
    (∀ (tok : GoString) (claims : Claims) (exp : Int), j.Verify D now tok = .ok claims →
        claims.ExpiresAt = some exp → now < numericDateTime exp)
      ∧ ∀ (c : Claims) (exp : Int) (tok : GoString), D.ReadsBack (.HMAC .SHA256) c →
          SignedString (.HMAC .SHA256) c (utf8Encode j.SecretKey) = .ok tok →
          c.ExpiresAt = some exp → numericDateTime exp ≤ now →
          ∃ e, j.Verify D now tok = .error e := by
  constructor
  · intro tok claims exp hv hc
    exact expiry_of_validate now exp claims hc (validate_of_verify D j now tok claims hv)
  · intro c exp tok hD hs hc hle
    unfold SignedString SigningMethod.Sign at hs
    simp only [Except.ok.injEq] at hs
    rw [← hs]
    exact verify_of_invalid D j now .SHA256 c _ .tokenExpired hD
      (validate_error_of_expiry now exp c hc hle)

theorem verified_expiry_in_future_witness :
    sampleManager.Verify goJSON sampleNow sampleToken = .ok sampleClaims
      ∧ sampleClaims.ExpiresAt = some 1700086400
      ∧ sampleNow < numericDateTime 1700086400 :=
  ⟨sample_verify, rfl,
    (verified_expiry_in_future goJSON sampleManager sampleNow).1 sampleToken sampleClaims
      1700086400 sample_verify rfl⟩

set_option maxRecDepth 1000000 in
/-- C10 as stated fails on a token signed with the secret whose claims carry no expiry: Verify
returns its claims, and they carry no expiry instant. -/
theorem no_expiry_accepted_counterexample :
    SignedString (.HMAC .SHA256)
        (Claims.mk "u1".toList "customer".toList Option.none Option.none Option.none)
        (utf8Encode sampleManager.SecretKey) = .ok sampleTokenNoExpiry
      ∧ sampleManager.Verify goJSON sampleNow sampleTokenNoExpiry
          = .ok (Claims.mk "u1".toList "customer".toList Option.none Option.none Option.none)
      ∧ (Claims.mk "u1".toList "customer".toList Option.none Option.none Option.none).ExpiresAt
          = Option.none :=
  ⟨rfl, rfl, rfl⟩

/-! # Properties of the validator -/

theorem violations_toError (errs : List FieldError) : violations (toError errs) = errs := by
  unfold toError
  split
  · rename_i h; rw [h]; rfl
  · rfl

theorem toError_eq_some (errs : List FieldError) (err : GoError) (h : toError errs = some err) :
    err = .validationErrors errs ∧ errs ≠ [] := by
  unfold toError at h
  split at h
  · cases h
  · rename_i hne
    simp only [Option.some.injEq] at h
    exact ⟨h.symm, hne⟩

/-- Every error of the walk over a scalar field carries the name of the field. -/
theorem traverseScalar_field (V : Validator) (ns name : GoString) (v : Scalar)
    (tags : List Tag) :
    ∀ e ∈ traverseScalar V ns name v tags, e.Field = name ∧ e.Namespace = ns ++ name := by
  induction tags with
  | nil => intro e he; simp [traverseScalar] at he
  | cons t rest ih =>
    intro e he
    cases t <;> simp only [traverseScalar] at he <;>
      first
      | (split at he
         · exact ih e he
         · first
           | (simp only [List.mem_singleton] at he; subst he; exact ⟨rfl, rfl⟩)
           | simp at he)
      | simp at he

/-- The walk over a scalar field gives one error at most. -/
theorem traverseScalar_length (V : Validator) (ns name : GoString) (v : Scalar)
    (tags : List Tag) : (traverseScalar V ns name v tags).length ≤ 1 := by
  induction tags with
  | nil => simp [traverseScalar]
  | cons t rest ih =>
    cases t <;> simp only [traverseScalar] <;>
      first
      | (split
         · exact ih
         · simp)
      | simp

/-- The walk over a scalar field without omitempty and dive stops at the first constraint the
value does not meet and reports it. -/
theorem traverseScalar_find (V : Validator) (ns name : GoString) (v : Scalar)
    (tags : List Tag) (homit : Tag.omitempty ∉ tags) (hdive : Tag.dive ∉ tags) :
    traverseScalar V ns name v tags =
      match tags.find? (fun t => !t.check V v) with
      | some t => [{ Namespace := ns ++ name, Field := name, Tag := t.name, Param := t.param }]
      | Option.none => [] := by
  induction tags with
  | nil => rfl
  | cons t rest ih =>
    have ho : Tag.omitempty ∉ rest := fun h => homit (List.mem_cons_of_mem _ h)
    have hd : Tag.dive ∉ rest := fun h => hdive (List.mem_cons_of_mem _ h)
    have ht1 : t ≠ Tag.omitempty := fun h => homit (h ▸ List.mem_cons_self _ _)
    have ht2 : t ≠ Tag.dive := fun h => hdive (h ▸ List.mem_cons_self _ _)
    have hstep : traverseScalar V ns name v (t :: rest) =
        if t.check V v then traverseScalar V ns name v rest
        else [{ Namespace := ns ++ name, Field := name, Tag := t.name, Param := t.param }] := by
      cases t <;> first | exact absurd rfl ht1 | exact absurd rfl ht2 | rfl
    rw [hstep, List.find?_cons]
    by_cases hc : t.check V v = true
    · simp only [hc, if_true, Bool.not_true]
      exact ih ho hd
    · simp only [Bool.not_eq_true] at hc
      simp [hc]

theorem validateLeaves_field (V : Validator) (excluded : List GoString) (ns : GoString)
    (leaves : List Leaf) :
    ∀ e ∈ validateLeaves V excluded ns leaves,
      ∃ l ∈ leaves, e.Field = l.name ∧ e.Namespace = ns ++ l.name := by
  induction leaves with
  | nil => intro e he; simp [validateLeaves] at he
  | cons l rest ih =>
    intro e he
    simp only [validateLeaves, List.mem_append] at he
    rcases he with he | he
    · split at he
      · simp at he
      · exact ⟨l, List.mem_cons_self _ _, traverseScalar_field V ns l.name l.value l.tags e he⟩
    · obtain ⟨l1, hl1, h⟩ := ih e he
      exact ⟨l1, List.mem_cons_of_mem _ hl1, h⟩

/-- Among the fields of a struct of scalars, the errors of a field that is not excluded are
errors of the struct. -/
theorem validateLeaves_mem (V : Validator) (excluded : List GoString) (ns : GoString)
    (leaves : List Leaf) (l : Leaf) (hl : l ∈ leaves) (hex : ns ++ l.name ∉ excluded) :
    ∀ e ∈ traverseScalar V ns l.name l.value l.tags, e ∈ validateLeaves V excluded ns leaves := by
  induction leaves with
  | nil => simp at hl
  | cons l1 rest ih =>
    intro e he
    simp only [validateLeaves, List.mem_append]
    rcases List.mem_cons.1 hl with rfl | hl
    · left
      rw [if_neg hex]
      exact he
    · right
      exact ih hl e he

theorem diveElements_field (V : Validator) (excluded : List GoString) (ns name : GoString)
    (elems : List (List Leaf)) :
    ∀ (start : Nat), ∀ e ∈ diveElements V excluded ns name start elems,
      ∃ leaves ∈ elems, ∃ l ∈ leaves, e.Field = l.name := by
  induction elems with
  | nil => intro start e he; simp [diveElements] at he
  | cons x rest ih =>
    intro start e he
    simp only [diveElements, List.mem_append] at he
    rcases he with he | he
    · obtain ⟨l, hl, h, -⟩ := validateLeaves_field V excluded _ x e he
      exact ⟨x, List.mem_cons_self _ _, l, hl, h⟩
    · obtain ⟨leaves, h1, h2⟩ := ih (start + 1) e he
      exact ⟨leaves, List.mem_cons_of_mem _ h1, h2⟩

/-- The errors of the element at a position of a slice are errors of the walk over the
slice, under the name of the slice with that position in brackets. -/
theorem diveElements_mem (V : Validator) (excluded : List GoString) (ns name : GoString)
    (elems : List (List Leaf)) :
    ∀ (start k : Nat) (x : List Leaf), elems[k]? = some x →
      ∀ e ∈ validateLeaves V excluded
          (ns ++ name ++ '[' :: formatInt ((start + k : Nat) : Int) ++ "].".toList) x,
        e ∈ diveElements V excluded ns name start elems := by
  induction elems with
  | nil => intro start k x hk; simp at hk
  | cons y rest ih =>
    intro start k x hk e he
    simp only [diveElements, List.mem_append]
    cases k with
    | zero =>
      simp only [List.getElem?_cons_zero, Option.some.injEq] at hk
      subst hk
      left
      simpa using he
    | succ k =>
      simp only [List.getElem?_cons_succ] at hk
      right
      have := ih (start + 1) k x hk e
      rw [show start + 1 + k = start + (k + 1) by omega] at this
      exact this he

/-- No field is skipped: the errors of every field that is not excluded are errors of the
walk over the struct, whatever the other fields give. -/
theorem validateFields_mem (V : Validator) (excluded : List GoString) (ns : GoString)
    (fields : List Field) (f : Field) (hf : f ∈ fields) (hex : ns ++ f.name ∉ excluded) :
    ∀ e ∈ traverseField V excluded ns f, e ∈ validateFields V excluded ns fields := by
  induction fields with
  | nil => simp at hf
  | cons g rest ih =>
    intro e he
    simp only [validateFields, List.mem_append]
    rcases List.mem_cons.1 hf with rfl | hf
    · left
      rw [if_neg hex]
      exact he
    · right
      exact ih hf e he

theorem validateFields_cons (V : Validator) (excluded : List GoString) (ns : GoString)
    (f : Field) (rest : List Field) :
    validateFields V excluded ns (f :: rest) =
      (if ns ++ f.name ∈ excluded then [] else traverseField V excluded ns f)
        ++ validateFields V excluded ns rest := rfl

/-- The excluded names do not matter to a struct of scalars none of whose fields is
excluded. -/
theorem validateLeaves_excluded (V : Validator) (excluded : List GoString) (ns : GoString)
    (leaves : List Leaf) (h : ∀ l ∈ leaves, ns ++ l.name ∉ excluded) :
    validateLeaves V excluded ns leaves = validateLeaves V [] ns leaves := by
  induction leaves with
  | nil => rfl
  | cons l rest ih =>
    simp only [validateLeaves, List.not_mem_nil, if_false]
    rw [if_neg (h l (List.mem_cons_self _ _)), ih (fun x hx => h x (List.mem_cons_of_mem _ hx))]

theorem diveElements_excluded (V : Validator) (excluded : List GoString) (ns name : GoString)
    (elems : List (List Leaf))
    (h : ∀ (i : Nat), ∀ leaves ∈ elems, ∀ l ∈ leaves,
      (ns ++ name ++ '[' :: formatInt (i : Int) ++ "].".toList) ++ l.name ∉ excluded) :
    ∀ start, diveElements V excluded ns name start elems
      = diveElements V [] ns name start elems := by
  induction elems with
  | nil => intro start; rfl
  | cons x rest ih =>
    intro start
    simp only [diveElements]
    rw [validateLeaves_excluded V excluded _ x (fun l hl => h start x (List.mem_cons_self _ _) l hl),
      ih (fun i leaves hl => h i leaves (List.mem_cons_of_mem _ hl))]

/-! # Properties of the validation error responder -/

theorem mapGet_mapSet (m : List (GoString × GoString)) (k v k1 : GoString) :
    mapGet (mapSet m k v) k1 = if k1 = k then some v else mapGet m k1 := by
  induction m with
  | nil =>
    by_cases h : k1 = k
    · simp [mapSet, mapGet, h]
    · have h2 : ¬ k = k1 := fun e => h e.symm
      simp [mapSet, mapGet, h, h2]
  | cons e rest ih =>
    by_cases hek : e.1 = k
    · by_cases h : k1 = k
      · simp [mapSet, mapGet, hek, h]
      · have h2 : ¬ k = k1 := fun e => h e.symm
        have h3 : ¬ e.1 = k1 := fun e1 => h (e1.symm.trans hek)
        simp [mapSet, mapGet, hek, h, h2, h3]
    · simp only [mapSet, if_neg hek, mapGet, ih]
      by_cases h : k1 = k
      · subst h
        simp [hek]
      · simp [h]

theorem mapGet_isSome_iff (m : List (GoString × GoString)) (k : GoString) :
    (mapGet m k).isSome = true ↔ k ∈ m.map (·.1) := by
  induction m with
  | nil => simp [mapGet]
  | cons e rest ih =>
    by_cases h : e.1 = k
    · simp [mapGet, h]
    · have h2 : ¬ k = e.1 := fun e1 => h e1.symm
      simp only [mapGet, if_neg h, ih, List.map_cons, List.mem_cons, h2, false_or]

theorem mapSet_keys (m : List (GoString × GoString)) (k v : GoString) :
    (mapSet m k v).map (·.1) = if k ∈ m.map (·.1) then m.map (·.1) else m.map (·.1) ++ [k] := by
  induction m with
  | nil => simp [mapSet]
  | cons e rest ih =>
    by_cases h : e.1 = k
    · simp [mapSet, h]
    · have h2 : ¬ k = e.1 := fun e1 => h e1.symm
      simp only [mapSet, if_neg h, List.map_cons, ih, List.mem_cons, h2, false_or]
      split <;> simp

theorem mapSet_of_not_mem (m : List (GoString × GoString)) (k v : GoString)
    (h : k ∉ m.map (·.1)) : mapSet m k v = m ++ [(k, v)] := by
  induction m with
  | nil => rfl
  | cons e rest ih =>
    have h1 : ¬ e.1 = k := fun e1 => h (by simp [e1])
    have h2 : k ∉ rest.map (·.1) := fun hm => h (by simp at hm ⊢; right; exact hm)
    simp [mapSet, h1, ih h2]

theorem errorsMap_snoc (errs : List FieldError) (e : FieldError) :
    errorsMap (errs ++ [e]) = mapSet (errorsMap errs) e.Field (violationMessage e) := by
  simp [errorsMap, List.foldl_append]

/-- Reading the map of errors at a key gives the message of the last violation of the field
of that name, and nothing when no violation names the field. -/
theorem mapGet_errorsMap (errs : List FieldError) (k : GoString) :
    mapGet (errorsMap errs) k
      = (errs.reverse.find? fun e => e.Field = k).map violationMessage := by
  induction errs using List.reverseRecOn with
  | nil => rfl
  | append_singleton errs e ih =>
    rw [errorsMap_snoc, mapGet_mapSet, List.reverse_append, List.reverse_singleton,
      List.singleton_append, List.find?_cons]
    by_cases h : k = e.Field
    · simp [h]
    · have h2 : ¬ e.Field = k := fun e1 => h e1.symm
      simp [h, h2, ih]

theorem errorsMap_keys (errs : List FieldError) (k : GoString) :
    k ∈ (errorsMap errs).map (·.1) ↔ k ∈ errs.map (·.Field) := by
  rw [← mapGet_isSome_iff, mapGet_errorsMap]
  simp only [Option.isSome_map', List.find?_isSome, List.mem_reverse, decide_eq_true_eq,
    List.mem_map]

theorem errorsMap_nodup (errs : List FieldError) : ((errorsMap errs).map (·.1)).Nodup := by
  induction errs using List.reverseRecOn with
  | nil => simp [errorsMap]
  | append_singleton errs e ih =>
    rw [errorsMap_snoc, mapSet_keys]
    split
    · exact ih
    · rename_i h
      exact List.Nodup.append ih (List.nodup_singleton _) (by simpa using h)

/-- The map of errors has as many entries as the violation list has distinct field names. -/
theorem errorsMap_length (errs : List FieldError) :
    (errorsMap errs).length = (errs.map (·.Field)).dedup.length := by
  have hperm : ((errorsMap errs).map (·.1)).Perm (errs.map (·.Field)).dedup :=
    (List.perm_ext_iff_of_nodup (errorsMap_nodup errs) (List.nodup_dedup _)).2
      (fun k => by rw [errorsMap_keys, List.mem_dedup])
  simpa using hperm.length_eq

/-- When the violations name pairwise different fields, the map holds one entry for each, in
list order. -/
theorem errorsMap_of_nodup (errs : List FieldError) (h : (errs.map (·.Field)).Nodup) :
    errorsMap errs = errs.map fun e => (e.Field, violationMessage e) := by
  induction errs using List.reverseRecOn with
  | nil => rfl
  | append_singleton errs e ih =>
    rw [List.map_append, List.nodup_append] at h
    obtain ⟨h1, -, h3⟩ := h
    have hk : e.Field ∉ (errorsMap errs).map (·.1) := by
      rw [errorsMap_keys]
      intro hm
      exact h3 hm (by simp)
    rw [errorsMap_snoc, mapSet_of_not_mem _ _ _ hk, ih h1]
    simp

theorem sortEntries_perm (m : List (GoString × GoString)) : (sortEntries m).Perm m :=
  List.perm_insertionSort _ m

theorem writeValidationError_ops (w : ResponseWriter) (errs : List FieldError) :
    (WriteValidationError w (.validationErrors errs)).ops = w.ops ++
      [.setHeader "Content-Type".toList "application/json".toList, .writeHeader 400,
       .write (encodeErrorResponse (errorsMap errs))] := by
  simp [WriteValidationError, ResponseWriter.push]

/-! # The claims on the expiry, the validator and the error responder -/

theorem claims_segment (a b s : GoString) (ha : '.' ∉ a) (hb : '.' ∉ b) :
    (splitOnChar '.' ((a ++ '.' :: b) ++ '.' :: s)).getD 1 [] = b := by
  rw [splitOnChar_token a b s ha hb]
  rfl

/-- C11, as amended. The claims embedded in the token Generate returns carry the subject, the
role and an expiry that is the instant now plus the duration cut down to a whole second: it is
not after now plus the duration and less than a second before it, and equal to it exactly
when now plus the duration is a whole number of seconds. -/
theorem generate_expiry_truncated (j : JWTManager) (now : Int) (userID role : GoString) :
    ∃ tok c exp, j.Generate now userID role = .ok tok
      ∧ b64Decode ((splitOnChar '.' tok).getD 1 []) = some (marshalClaims c)
      ∧ c.UserID = userID ∧ c.Role = role ∧ c.ExpiresAt = some exp
      ∧ numericDateTime exp ≤ now + j.TokenDuration
      ∧ now + j.TokenDuration < numericDateTime exp + Second
      ∧ (numericDateTime exp = now + j.TokenDuration ↔ (now + j.TokenDuration) % Second = 0) := by
  refine ⟨_, j.newClaims now userID role, NewNumericDate (now + j.TokenDuration),
    generate_eq j now userID role, ?_, rfl, rfl, rfl, ?_, ?_, ?_⟩
  · unfold SigningString
    rw [claims_segment _ _ _ (b64Encode_no_dot _) (b64Encode_no_dot _)]
    exact b64Decode_b64Encode _ (marshalClaims_lt _)
  · simp only [numericDateTime, NewNumericDate, Second]
    omega
  · simp only [numericDateTime, NewNumericDate, Second]
    omega
  · simp only [numericDateTime, NewNumericDate, Second]
    omega

set_option maxRecDepth 1000000 in
/-- C11 as stated fails at the sample time: the token issued at 22:13:20 and 123456789
nanoseconds with a duration of 24 hours carries the expiry 1700086400 seconds, which is not
the instant of issuance plus 24 hours. -/
theorem generate_expiry_counterexample :
    sampleManager.Generate sampleNow "u1".toList "customer".toList = .ok sampleToken
      ∧ b64Decode ((splitOnChar '.' sampleToken).getD 1 []) = some (marshalClaims sampleClaims)
      ∧ sampleClaims.ExpiresAt = some 1700086400
      ∧ numericDateTime 1700086400 ≠ sampleNow + sampleManager.TokenDuration :=
  ⟨rfl, rfl, rfl, by decide⟩

theorem filter_field_self (errs : List FieldError) (name : GoString)
    (h : ∀ e ∈ errs, e.Field ≠ name) :
    errs.filter (fun e => decide (e.Field ≠ name)) = errs :=
  List.filter_eq_self.2 fun e he => by simpa using h e he

theorem filter_field_nil (errs : List FieldError) (name : GoString)
    (h : ∀ e ∈ errs, e.Field = name) :
    errs.filter (fun e => decide (e.Field ≠ name)) = [] :=
  List.filter_eq_nil_iff.2 fun e he => by simpa using h e he

theorem base_leaves_names (b : Base) :
    ∀ l ∈ b.leaves, l.name = "ID".toList ∨ l.name = "CreatedAt".toList
      ∨ l.name = "UpdatedAt".toList := by
  intro l hl
  simp only [Base.leaves, List.mem_cons, List.mem_singleton, List.not_mem_nil, or_false] at hl
  rcases hl with rfl | rfl | rfl <;> simp

theorem orderItem_leaves_names (i : OrderItem) :
    ∀ l ∈ i.leaves, l.name = "MenuItemID".toList ∨ l.name = "Quantity".toList
      ∨ l.name = "Price".toList := by
  intro l hl
  simp only [OrderItem.leaves, List.mem_cons, List.mem_singleton, List.not_mem_nil,
    or_false] at hl
  rcases hl with rfl | rfl | rfl <;> simp

/-- The walk over an order, the field UserID excluded or not, field by field. -/
theorem order_validateFields (V : Validator) (o : Order) (excluded : List GoString)
    (h : excluded = [] ∨ excluded = ["Order.UserID".toList]) :
    validateFields V excluded "Order.".toList o.toStruct.fields =
      validateLeaves V [] "Order.Base.".toList o.Base.leaves
        ++ ((if excluded = [] then
              traverseScalar V "Order.".toList "UserID".toList (.bytes o.UserID) [.required]
            else [])
        ++ (traverseScalar V "Order.".toList "Restaurant".toList (.bytes o.Restaurant) [.required]
        ++ (traverseSlice V [] "Order.".toList "Items".toList
              (o.Items.map fun items => items.map OrderItem.leaves) [.required, .min 1, .dive]
        ++ (traverseScalar V "Order.".toList "Status".toList (.string o.Status)
              [.required, .oneof orderStatuses]
        ++ (traverseScalar V "Order.".toList "TotalPrice".toList (.float o.TotalPrice)
              [.required, .gte 0] ++ []))))) := by
  have hbase : validateLeaves V excluded "Order.Base.".toList o.Base.leaves
      = validateLeaves V [] "Order.Base.".toList o.Base.leaves := by
    apply validateLeaves_excluded
    intro l hl
    rcases h with rfl | rfl
    · simp
    · rcases base_leaves_names o.Base l hl with e | e | e <;> rw [e] <;> decide
  have hdive : ∀ elems : List OrderItem,
      diveElements V excluded "Order.".toList "Items".toList 0 (elems.map OrderItem.leaves)
        = diveElements V [] "Order.".toList "Items".toList 0 (elems.map OrderItem.leaves) := by
    intro elems
    apply diveElements_excluded
    intro i leaves hl l hl2
    rcases h with rfl | rfl
    · simp
    · simp only [List.mem_singleton]
      intro heq
      have := congrArg (fun s => s.getD 6 'x') heq
      simp at this
  have hslice : traverseSlice V excluded "Order.".toList "Items".toList
        (o.Items.map fun items => items.map OrderItem.leaves) [.required, .min 1, .dive]
      = traverseSlice V [] "Order.".toList "Items".toList
        (o.Items.map fun items => items.map OrderItem.leaves) [.required, .min 1, .dive] := by
    cases hi : o.Items with
    | none => rfl
    | some items =>
      simp only [traverseSlice, Option.map_some', Option.getD_some]
      rw [hdive items]
  rcases h with rfl | rfl
  · simp only [Order.toStruct, validateFields, traverseField, List.not_mem_nil, if_false,
      if_true]
    rfl
  · have e1 : ("Order.".toList ++ "Base".toList ∈ ["Order.UserID".toList]) = False := by
      simp
    have e2 : ("Order.".toList ++ "UserID".toList ∈ ["Order.UserID".toList]) = True := by
      simp
    have e3 : ("Order.".toList ++ "Restaurant".toList ∈ ["Order.UserID".toList]) = False := by
      simp
    have e4 : ("Order.".toList ++ "Items".toList ∈ ["Order.UserID".toList]) = False := by
      simp
    have e5 : ("Order.".toList ++ "Status".toList ∈ ["Order.UserID".toList]) = False := by
      simp
    have e6 : ("Order.".toList ++ "TotalPrice".toList ∈ ["Order.UserID".toList]) = False := by
      simp
    have e7 : (["Order.UserID".toList] = ([] : List GoString)) = False := by simp
    simp only [Order.toStruct, validateFields, traverseField, Field.name, e1, e2, e3, e4, e5,
      e6, e7, if_false, if_true, hslice]
    rw [show ("Order.".toList ++ "Base".toList ++ ".".toList) = "Order.Base.".toList from rfl,
      hbase]

theorem order_namespace (o : Order) : o.toStruct.namespace = "Order.".toList := rfl

theorem traverseSlice_order_field (V : Validator) (elems : Option (List OrderItem)) :
    ∀ e ∈ traverseSlice V [] "Order.".toList "Items".toList
        (elems.map fun items => items.map OrderItem.leaves) [.required, .min 1, .dive],
      e.Field = "Items".toList ∨ e.Field = "MenuItemID".toList ∨ e.Field = "Quantity".toList
        ∨ e.Field = "Price".toList := by
  intro e he
  simp only [traverseSlice] at he
  split at he
  · split at he
    · obtain ⟨leaves, hl, l, hl2, hf⟩ := diveElements_field V [] _ _ _ 0 e he
      cases elems with
      | none => simp at hl
      | some items =>
        simp only [Option.map_some', Option.getD_some, List.mem_map] at hl
        obtain ⟨item, -, rfl⟩ := hl
        right
        rw [hf]
        exact orderItem_leaves_names item l hl2
    · simp only [List.mem_singleton] at he
      subst he
      left; rfl
  · simp only [List.mem_singleton] at he
    subst he
    left; rfl

/-- C12. For every order, ValidateStructExcept with the key UserID reports no violation for
the field UserID, whatever UserID holds, and reports exactly the violations ValidateStruct
reports for the other fields, in the same order. -/
theorem except_userID_skips_only_userID (validate : Validator) (o : Order) :
    violations (ValidateStructExcept validate o.toStruct ["UserID".toList])
        = (violations (ValidateStruct validate o.toStruct)).filter
            (fun e => decide (e.Field ≠ "UserID".toList))
      ∧ ∀ e ∈ violations (ValidateStructExcept validate o.toStruct ["UserID".toList]),
          e.Field ≠ "UserID".toList := by
  have hmain : violations (ValidateStructExcept validate o.toStruct ["UserID".toList])
      = (violations (ValidateStruct validate o.toStruct)).filter
          (fun e => decide (e.Field ≠ "UserID".toList)) := by
    unfold ValidateStructExcept ValidateStruct Validator.StructExcept Validator.Struct
    rw [violations_toError, violations_toError, order_namespace]
    rw [show (["UserID".toList].map fun key => "Order.".toList ++ key) = ["Order.UserID".toList]
      from rfl]
    rw [order_validateFields validate o [] (Or.inl rfl),
      order_validateFields validate o ["Order.UserID".toList] (Or.inr rfl)]
    simp only [if_true, List.filter_append]
    rw [if_neg (by simp)]
    rw [filter_field_self (validateLeaves validate [] "Order.Base.".toList o.Base.leaves),
      filter_field_nil (traverseScalar validate "Order.".toList "UserID".toList _ _),
      filter_field_self (traverseScalar validate "Order.".toList "Restaurant".toList _ _),
      filter_field_self (traverseSlice validate [] "Order.".toList "Items".toList _ _),
      filter_field_self (traverseScalar validate "Order.".toList "Status".toList _ _),
      filter_field_self (traverseScalar validate "Order.".toList "TotalPrice".toList _ _)]
    · rfl
    · intro e he
      rw [(traverseScalar_field _ _ _ _ _ e he).1]; decide
    · intro e he
      rw [(traverseScalar_field _ _ _ _ _ e he).1]; decide
    · intro e he
      rcases traverseSlice_order_field validate o.Items e he with h | h | h | h <;>
        rw [h] <;> decide
    · intro e he
      rw [(traverseScalar_field _ _ _ _ _ e he).1]; decide
    · intro e he
      exact (traverseScalar_field _ _ _ _ _ e he).1
    · intro e he
      obtain ⟨l, hl, hf, -⟩ := validateLeaves_field _ _ _ _ e he
      rcases base_leaves_names o.Base l hl with h | h | h <;> rw [hf, h] <;> decide
  refine ⟨hmain, fun e he => ?_⟩
  rw [hmain] at he
  simpa using (List.mem_filter.1 he).2

/-! # The walk over a payload, stop by stop -/

/-- A list that holds a value is its part before the first occurrence, the value and a rest. -/
theorem takeWhile_ne_split (tags : List Tag) (t : Tag) (h : t ∈ tags) :
    ∃ post, tags = (tags.takeWhile fun p => decide (p ≠ t)) ++ t :: post := by
  induction tags with
  | nil => simp at h
  | cons a rest ih =>
    by_cases hat : a = t
    · subst hat
      exact ⟨rest, by simp⟩
    · have hr : t ∈ rest := by
        rcases List.mem_cons.1 h with e | e
        · exact absurd e.symm hat
        · exact e
      obtain ⟨post, hp⟩ := ih hr
      refine ⟨post, ?_⟩
      rw [List.takeWhile_cons_of_pos (by simpa using hat), List.cons_append, ← hp]

/-- The walk over a scalar field reports the first constraint its value violates, and only
that one. -/
theorem traverseScalar_first (V : Validator) (ns name : GoString) (v : Scalar)
    (pre : List Tag) (t : Tag) (post : List Tag)
    (hpre : ∀ p ∈ pre, p ≠ .dive ∧ p.check V v = true ∧ (p = .omitempty → v.hasValue = true))
    (ht1 : t ≠ .omitempty) (ht2 : t ≠ .dive) (ht : t.check V v = false) :
    traverseScalar V ns name v (pre ++ t :: post)
      = [{ Namespace := ns ++ name, Field := name, Tag := t.name, Param := t.param }] := by
  induction pre with
  | nil =>
    rw [List.nil_append]
    cases t <;> first | exact absurd rfl ht1 | exact absurd rfl ht2 | simp [traverseScalar, ht]
  | cons p rest ih =>
    obtain ⟨hp1, hp2, hp3⟩ := hpre p (List.mem_cons_self _ _)
    have ih1 := ih fun q hq => hpre q (List.mem_cons_of_mem _ hq)
    rw [List.cons_append]
    cases p <;> first
      | exact absurd rfl hp1
      | (simp only [traverseScalar, hp3 rfl, if_true]; exact ih1)
      | (simp only [traverseScalar, hp2, if_true]; exact ih1)

/-- The walk over a scalar field reports nothing when the value meets every constraint before
dive. -/
theorem traverseScalar_met (V : Validator) (ns name : GoString) (v : Scalar) (tags : List Tag)
    (h : ∀ p ∈ tags.takeWhile (fun p => decide (p ≠ Tag.dive)), p.check V v = true) :
    traverseScalar V ns name v tags = [] := by
  induction tags with
  | nil => rfl
  | cons p rest ih =>
    by_cases hd : p = .dive
    · subst hd; rfl
    · have hp : p.check V v = true := h p (by simp [hd])
      have ih1 := ih fun q hq => h q (by
        rw [List.takeWhile_cons_of_pos (by simpa using hd)]
        exact List.mem_cons_of_mem _ hq)
      cases p <;> first
        | exact absurd rfl hd
        | (simp only [traverseScalar]; split <;> first | exact ih1 | rfl)

/-- The walk over a scalar field that begins with omitempty reports nothing when the field
holds no value. -/
theorem traverseScalar_omitted (V : Validator) (ns name : GoString) (v : Scalar)
    (tags : List Tag) (h1 : tags.head? = some .omitempty) (h2 : v.hasValue = false) :
    traverseScalar V ns name v tags = [] := by
  cases tags with
  | nil => rfl
  | cons p rest =>
    simp only [List.head?_cons, Option.some.injEq] at h1
    subst h1
    simp [traverseScalar, h2]

/-- The constraints on a list see the same in the list and in the list without the fields of
its elements. -/
theorem checkSlice_bare (t : Tag) (elems : Option (List (List Leaf))) :
    t.checkSlice (bare elems) = t.checkSlice elems := by
  cases elems with
  | none => rfl
  | some es => cases t <;> simp [Tag.checkSlice, bare]

/-- The walk over elements without fields reports nothing. -/
theorem diveElements_bare (V : Validator) (ns name : GoString) (es : List (List Leaf)) :
    ∀ i, diveElements V [] ns name i (es.map fun _ => []) = [] := by
  induction es with
  | nil => intro i; rfl
  | cons e rest ih =>
    intro i
    simp only [List.map_cons, diveElements, validateLeaves, List.nil_append]
    exact ih (i + 1)

theorem bare_getD (V : Validator) (ns name : GoString) (elems : Option (List (List Leaf))) :
    diveElements V [] ns name 0 ((bare elems).getD []) = [] := by
  cases elems with
  | none => rfl
  | some es => exact diveElements_bare V ns name es 0

/-- The walk over a list field reports the first constraint the list violates, and only that
one. -/
theorem traverseSlice_first (V : Validator) (ns name : GoString)
    (elems : Option (List (List Leaf))) (pre : List Tag) (t : Tag) (post : List Tag)
    (hpre : ∀ p ∈ pre, p ≠ .dive ∧ p.checkSlice elems = true
      ∧ (p = .omitempty → elems.isSome = true))
    (ht1 : t ≠ .omitempty) (ht2 : t ≠ .dive) (ht : t.checkSlice elems = false) :
    traverseSlice V [] ns name elems (pre ++ t :: post)
      = [{ Namespace := ns ++ name, Field := name, Tag := t.name, Param := t.param }] := by
  induction pre with
  | nil =>
    rw [List.nil_append]
    cases t <;> first | exact absurd rfl ht1 | exact absurd rfl ht2 | simp [traverseSlice, ht]
  | cons p rest ih =>
    obtain ⟨hp1, hp2, hp3⟩ := hpre p (List.mem_cons_self _ _)
    have ih1 := ih fun q hq => hpre q (List.mem_cons_of_mem _ hq)
    rw [List.cons_append]
    cases p <;> first
      | exact absurd rfl hp1
      | (simp only [traverseSlice, hp3 rfl, if_true]; exact ih1)
      | (simp only [traverseSlice, hp2, if_true]; exact ih1)

/-- The walk over a list without the fields of its elements reports nothing when the list
meets every constraint before dive. -/
theorem traverseSlice_met (V : Validator) (ns name : GoString)
    (elems : Option (List (List Leaf))) (tags : List Tag)
    (h : ∀ p ∈ tags.takeWhile (fun p => decide (p ≠ Tag.dive)), p.checkSlice elems = true) :
    traverseSlice V [] ns name (bare elems) tags = [] := by
  induction tags with
  | nil => rfl
  | cons p rest ih =>
    by_cases hd : p = .dive
    · subst hd
      simp only [traverseSlice]
      exact bare_getD V ns name elems
    · have hp : p.checkSlice (bare elems) = true := by
        rw [checkSlice_bare]; exact h p (by simp [hd])
      have ih1 := ih fun q hq => h q (by
        rw [List.takeWhile_cons_of_pos (by simpa using hd)]
        exact List.mem_cons_of_mem _ hq)
      cases p <;> first
        | exact absurd rfl hd
        | (simp only [traverseSlice]; split <;> first | exact ih1 | rfl)

theorem traverseSlice_omitted (V : Validator) (ns name : GoString)
    (elems : Option (List (List Leaf))) (tags : List Tag)
    (h1 : tags.head? = some .omitempty) (h2 : elems.isSome = false) :
    traverseSlice V [] ns name (bare elems) tags = [] := by
  cases tags with
  | nil => rfl
  | cons p rest =>
    simp only [List.head?_cons, Option.some.injEq] at h1
    subst h1
    cases elems with
    | none => rfl
    | some es => simp at h2

/-- The walk over a list field is the walk over the list itself followed, when dive is
declared and the list meets every constraint before it, by the walk over its elements. -/
theorem traverseSlice_split (V : Validator) (ns name : GoString)
    (elems : Option (List (List Leaf))) (tags : List Tag) :
    traverseSlice V [] ns name elems tags
      = traverseSlice V [] ns name (bare elems) tags
        ++ (if (decide (Tag.dive ∈ tags)
              && (tags.takeWhile fun p => decide (p ≠ .dive)).all fun p => p.checkSlice elems)
              = true
            then diveElements V [] ns name 0 (elems.getD []) else []) := by
  induction tags with
  | nil => simp [traverseSlice]
  | cons p rest ih =>
    by_cases hd : p = .dive
    · subst hd
      simp only [traverseSlice, bare_getD, List.nil_append]
      simp
    · have hcond : (decide (Tag.dive ∈ p :: rest)
          && ((p :: rest).takeWhile fun p => decide (p ≠ .dive)).all fun p => p.checkSlice elems)
          = (p.checkSlice elems && (decide (Tag.dive ∈ rest)
              && (rest.takeWhile fun p => decide (p ≠ .dive)).all fun p => p.checkSlice elems))
          := by
        rw [List.takeWhile_cons_of_pos (by simpa using hd)]
        have : (Tag.dive ∈ p :: rest) = (Tag.dive ∈ rest) := by
          simp [Ne.symm hd]
        simp only [this, List.all_cons]
        cases p.checkSlice elems <;> cases decide (Tag.dive ∈ rest) <;> rfl
      rw [hcond]
      by_cases ho : p = .omitempty
      · subst ho
        cases elems with
        | none => simp [traverseSlice, bare, diveElements]
        | some es =>
          have := ih
          simp only [traverseSlice, bare, Option.map_some', Option.isSome_some, if_true,
            Tag.checkSlice, Bool.true_and] at this ⊢
          exact this
      · have hstep : ∀ el : Option (List (List Leaf)),
            traverseSlice V [] ns name el (p :: rest)
              = if p.checkSlice el then traverseSlice V [] ns name el rest
                else [{ Namespace := ns ++ name, Field := name, Tag := p.name,
                        Param := p.param }] := by
          intro el
          cases p <;> first | exact absurd rfl hd | exact absurd rfl ho | rfl
        rw [hstep elems, hstep (bare elems), checkSlice_bare]
        by_cases hp : p.checkSlice elems = true
        · simp only [hp, if_true, Bool.true_and]
          exact ih
        · simp only [Bool.not_eq_true] at hp
          simp [hp]

/-- The walk over a struct of scalars is the walk over its fields, stop by stop. -/
theorem validateLeaves_stops (V : Validator) (ns : GoString) (leaves : List Leaf) :
    validateLeaves V [] ns leaves = (leaves.map (Stop.scalar ns)).flatMap (Stop.errors V) := by
  induction leaves with
  | nil => rfl
  | cons l rest ih =>
    simp only [validateLeaves, List.not_mem_nil, if_false, List.map_cons, List.flatMap_cons,
      ih]
    rfl

/-- The walk over the elements of a list is the walk over their fields, stop by stop. -/
theorem diveElements_stops (V : Validator) (ns name : GoString) (es : List (List Leaf)) :
    ∀ i, diveElements V [] ns name i es
      = (elementStops ns name i es).flatMap (Stop.errors V) := by
  induction es with
  | nil => intro i; rfl
  | cons e rest ih =>
    intro i
    simp only [diveElements, elementStops, List.flatMap_append, validateLeaves_stops, ih]

/-- The walk over one field is the walk over its stops. -/
theorem traverseField_stops (V : Validator) (ns : GoString) (f : Field) :
    traverseField V [] ns f = (f.stops ns).flatMap (Stop.errors V) := by
  cases f with
  | leaf l => simp [traverseField, Field.stops, Stop.errors]
  | nested name leaves => simp only [traverseField, Field.stops, validateLeaves_stops]
  | slice name tags elems =>
    simp only [traverseField, Field.stops, List.flatMap_cons]
    rw [traverseSlice_split]
    congr 1
    split
    · exact diveElements_stops V ns name _ 0
    · rfl

/-- The walk over the fields of a payload is the walk over their stops, in order. -/
theorem validateFields_stops (V : Validator) (ns : GoString) (fields : List Field) :
    validateFields V [] ns fields
      = (fields.flatMap (Field.stops ns)).flatMap (Stop.errors V) := by
  induction fields with
  | nil => rfl
  | cons f rest ih =>
    simp only [validateFields, List.not_mem_nil, if_false, List.flatMap_cons,
      List.flatMap_append, ih, traverseField_stops]

/-- The violations ValidateStruct returns are those of the stops of the payload, in the order
of the walk. -/
theorem violations_stops (V : Validator) (s : StructValue) :
    violations (ValidateStruct V s) = s.stops.flatMap (Stop.errors V) := by
  unfold ValidateStruct Validator.Struct StructValue.stops
  rw [violations_toError, validateFields_stops]

/-- At a stop whose value violates a constraint first, the walk reports that constraint and
nothing else. -/
theorem stop_errors_first (V : Validator) (u : Stop) (t : Tag)
    (h : u.violatesFirst V t = true) : u.errors V = [u.error t] := by
  simp only [Stop.violatesFirst, Bool.and_eq_true, decide_eq_true_eq, Bool.not_eq_true',
    List.all_eq_true, Bool.or_eq_true] at h
  obtain ⟨⟨⟨⟨hmem, ht1⟩, ht2⟩, ht⟩, hpre⟩ := h
  obtain ⟨post, hsplit⟩ := takeWhile_ne_split u.tags t hmem
  cases u with
  | scalar ns f =>
    simp only [Stop.tags] at hsplit hpre
    simp only [Stop.errors, Stop.error, Stop.ns, Stop.name]
    rw [hsplit]
    apply traverseScalar_first V ns f.name f.value _ t post _ ht1 ht2 ht
    intro p hp
    obtain ⟨⟨h1, h2⟩, h3⟩ := hpre p hp
    refine ⟨h1, h2, fun e => ?_⟩
    rcases h3 with h3 | h3
    · exact absurd e h3
    · exact h3
  | list ns name tags elems =>
    simp only [Stop.tags] at hsplit hpre
    simp only [Stop.errors, Stop.error, Stop.ns, Stop.name]
    rw [hsplit]
    simp only [Stop.met] at ht hpre
    apply traverseSlice_first V ns name (bare elems) _ t post _ ht1 ht2
      (by rw [checkSlice_bare]; exact ht)
    intro p hp
    obtain ⟨⟨h1, h2⟩, h3⟩ := hpre p hp
    refine ⟨h1, by rw [checkSlice_bare]; exact h2, fun e => ?_⟩
    rcases h3 with h3 | h3
    · exact absurd e h3
    · cases elems with
      | none => simp [Tag.checkSlice] at h3
      | some es => rfl

/-- At a stop whose value passes, the walk reports nothing. -/
theorem stop_errors_passes (V : Validator) (u : Stop) (h : u.passes V = true) :
    u.errors V = [] := by
  simp only [Stop.passes, Bool.or_eq_true, Bool.and_eq_true, decide_eq_true_eq,
    Bool.not_eq_true', List.all_eq_true] at h
  cases u with
  | scalar ns f =>
    rcases h with ⟨h1, h2⟩ | h
    · exact traverseScalar_omitted V ns f.name f.value f.tags h1 h2
    · exact traverseScalar_met V ns f.name f.value f.tags h
  | list ns name tags elems =>
    rcases h with ⟨h1, h2⟩ | h
    · apply traverseSlice_omitted V ns name elems tags h1
      cases elems with
      | none => rfl
      | some es => simp [Stop.met, Tag.checkSlice] at h2
    · exact traverseSlice_met V ns name elems tags h

/-- The walk reports one violation at most at a stop. -/
theorem stop_errors_length (V : Validator) (u : Stop) : (u.errors V).length ≤ 1 := by
  cases u with
  | scalar ns f => exact traverseScalar_length V ns f.name f.value f.tags
  | list ns name tags elems =>
    simp only [Stop.errors]
    induction tags with
    | nil => simp [traverseSlice]
    | cons t rest ih =>
      cases t <;> simp only [traverseSlice] <;>
        first
        | (split
           · exact ih
           · simp)
        | (rw [bare_getD]; simp)

/-- Stops whose values pass contribute nothing. -/
theorem flatMap_passes (V : Validator) (l : List Stop) (h : ∀ u ∈ l, u.passes V = true) :
    l.flatMap (Stop.errors V) = [] := by
  induction l with
  | nil => rfl
  | cons u rest ih =>
    rw [List.flatMap_cons, stop_errors_passes V u (h u (List.mem_cons_self _ _)),
      ih fun v hv => h v (List.mem_cons_of_mem _ hv)]
    rfl

/-- C13, as amended. Validation does not stop at the first offending field. The violation list
ValidateStruct returns is made of what the walk reports at every stop of the payload, in
order, whatever the other stops gave; the stops are the fields that hold a scalar, the fields
of an embedded struct, every list field and, when the list declares dive and meets the
constraints before it, the fields of its elements. At every stop whose value violates a
constraint after meeting those before it (omitempty is met by a value that is there), that
first violated constraint in tag order is reported; the constraints after it are not
evaluated, so a stop contributes one violation at most; and a stop that begins with omitempty
and holds no value, or meets every constraint, contributes none. -/
theorem first_violation_reported (validate : Validator) (s : StructValue) :
    violations (ValidateStruct validate s) = s.stops.flatMap (Stop.errors validate)
      ∧ (∀ f ∈ s.fields, ∀ e ∈ traverseField validate [] s.namespace f,
          e ∈ violations (ValidateStruct validate s))
      ∧ (∀ u ∈ s.stops, (u.errors validate).length ≤ 1)
      ∧ (∀ u ∈ s.stops, ∀ t, u.violatesFirst validate t = true →
          u.errors validate = [u.error t]
            ∧ u.error t ∈ violations (ValidateStruct validate s))
      ∧ (∀ u ∈ s.stops, u.passes validate = true → u.errors validate = []) := by
  refine ⟨violations_stops validate s, ?_, fun u _ => stop_errors_length validate u, ?_,
    fun u _ h => stop_errors_passes validate u h⟩
  · intro f hf e he
    unfold ValidateStruct Validator.Struct
    rw [violations_toError]
    exact validateFields_mem validate [] s.namespace s.fields f hf (by simp) e he
  · intro u hu t ht
    have he := stop_errors_first validate u t ht
    refine ⟨he, ?_⟩
    rw [violations_stops]
    exact List.mem_flatMap.2 ⟨u, hu, by rw [he]; exact List.mem_singleton_self _⟩

theorem first_violation_reported_witness :
    sampleNameStop ∈ sampleUser.toStruct.stops
      ∧ sampleNameStop.violatesFirst sampleValidator .required = true
      ∧ sampleNameStop.error .required ∈ violations (ValidateStruct sampleValidator
          sampleUser.toStruct)
      ∧ nilItemsStop ∈ ({ sampleOrder with Items := Option.none } : Order).toStruct.stops
      ∧ nilItemsStop.violatesFirst sampleValidator .required = true
      ∧ nilItemsStop.error .required ∈ violations (ValidateStruct sampleValidator
          ({ sampleOrder with Items := Option.none } : Order).toStruct) :=
  ⟨by decide, by decide,
    ((first_violation_reported sampleValidator sampleUser.toStruct).2.2.2.1 sampleNameStop
      (by decide) .required (by decide)).2,
    by decide, by decide,
    ((first_violation_reported sampleValidator
      ({ sampleOrder with Items := Option.none } : Order).toStruct).2.2.2.1 nilItemsStop
      (by decide) .required (by decide)).2⟩

/-- C13 as stated fails on a user with an empty name: the empty name violates required and
min=2, and the violation list holds the violation of required only. -/
theorem second_violation_omitted_counterexample :
    Tag.check sampleValidator .required (.string sampleUser.Name) = false
      ∧ Tag.check sampleValidator (.min 2) (.string sampleUser.Name) = false
      ∧ violations (ValidateStruct sampleValidator sampleUser.toStruct)
          = [{ Namespace := "User.Name".toList, Field := "Name".toList,
               Tag := "required".toList, Param := [] }]
      ∧ ∀ e ∈ violations (ValidateStruct sampleValidator sampleUser.toStruct),
          e.Tag ≠ "min".toList := by
  decide

/-- C14, as amended. When exactly three stops of the walk over a payload offend, each
violating a first constraint (as two fields that declare required and hold no value and one
number that is out of the bound it declares do), every other stop passes, and the three
offending fields have pairwise different names, validating the payload once gives exactly the
three violations, in the order of the walk, and WriteValidationError answers with status 400
and an errors object of exactly three entries, one keyed by the name of each offending field
with the message of its violation. -/
theorem three_violations_three_entries (validate : Validator) (s : StructValue)
    (w : ResponseWriter) (before between1 between2 after : List Stop) (u1 u2 u3 : Stop)
    (t1 t2 t3 : Tag)
    (hstops : s.stops = before ++ u1 :: (between1 ++ u2 :: (between2 ++ u3 :: after)))
    (hclean : ∀ u ∈ before ++ between1 ++ between2 ++ after, u.passes validate = true)
    (h1 : u1.violatesFirst validate t1 = true) (h2 : u2.violatesFirst validate t2 = true)
    (h3 : u3.violatesFirst validate t3 = true)
    (hnames : [u1.name, u2.name, u3.name].Nodup) :
    ValidateStruct validate s
        = some (.validationErrors [u1.error t1, u2.error t2, u3.error t3])
      ∧ (WriteValidationError w (.validationErrors [u1.error t1, u2.error t2, u3.error t3])).ops
          = w.ops ++
            [.setHeader "Content-Type".toList "application/json".toList, .writeHeader 400,
             .write (encodeErrorResponse
               (errorsMap [u1.error t1, u2.error t2, u3.error t3]))]
      ∧ errorsMap [u1.error t1, u2.error t2, u3.error t3]
          = [(u1.name, violationMessage (u1.error t1)),
             (u2.name, violationMessage (u2.error t2)),
             (u3.name, violationMessage (u3.error t3))]
      ∧ (errorsMap [u1.error t1, u2.error t2, u3.error t3]).length = 3 := by
  have hb : before.flatMap (Stop.errors validate) = [] :=
    flatMap_passes validate before fun u hu => hclean u (by simp [hu])
  have hm1 : between1.flatMap (Stop.errors validate) = [] :=
    flatMap_passes validate between1 fun u hu => hclean u (by simp [hu])
  have hm2 : between2.flatMap (Stop.errors validate) = [] :=
    flatMap_passes validate between2 fun u hu => hclean u (by simp [hu])
  have ha : after.flatMap (Stop.errors validate) = [] :=
    flatMap_passes validate after fun u hu => hclean u (by simp [hu])
  have hwalk : validateFields validate [] s.namespace s.fields
      = [u1.error t1, u2.error t2, u3.error t3] := by
    rw [validateFields_stops]
    show s.stops.flatMap (Stop.errors validate) = _
    rw [hstops]
    simp only [List.flatMap_append, List.flatMap_cons, hb, hm1, hm2, ha,
      stop_errors_first validate u1 t1 h1, stop_errors_first validate u2 t2 h2,
      stop_errors_first validate u3 t3 h3]
    rfl
  have hmap : errorsMap [u1.error t1, u2.error t2, u3.error t3]
      = [(u1.name, violationMessage (u1.error t1)),
         (u2.name, violationMessage (u2.error t2)),
         (u3.name, violationMessage (u3.error t3))] :=
    errorsMap_of_nodup _ hnames
  refine ⟨?_, writeValidationError_ops w _, hmap, by rw [hmap]; rfl⟩
  unfold ValidateStruct Validator.Struct
  rw [hwalk]
  rfl

theorem three_violations_three_entries_witness :
    sampleMenuItem.toStruct.stops
        = sampleMenuItem.toStruct.stops.take 4
          ++ sampleStop 4 :: ([] ++ sampleStop 5 :: ([] ++ sampleStop 6
            :: sampleMenuItem.toStruct.stops.drop 7))
      ∧ (∀ u ∈ sampleMenuItem.toStruct.stops.take 4 ++ [] ++ []
            ++ sampleMenuItem.toStruct.stops.drop 7, u.passes sampleValidator = true)
      ∧ (sampleStop 4).violatesFirst sampleValidator .required = true
      ∧ (sampleStop 5).violatesFirst sampleValidator .required = true
      ∧ (sampleStop 6).violatesFirst sampleValidator (.gt 0) = true
      ∧ (sampleStop 6).isNumber = true
      ∧ [(sampleStop 4).name, (sampleStop 5).name, (sampleStop 6).name].Nodup
      ∧ errorsMap (violations (ValidateStruct sampleValidator sampleMenuItem.toStruct))
          = [("Name".toList, "Name is required".toList),
             ("Category".toList, "Category is required".toList),
             ("Price".toList, "Price is invalid (gt)".toList)] :=
  ⟨by decide, by decide, by decide, by decide, by decide, by decide, by decide,
    by
      rw [(three_violations_three_entries sampleValidator sampleMenuItem.toStruct freshWriter
        (sampleMenuItem.toStruct.stops.take 4) [] [] (sampleMenuItem.toStruct.stops.drop 7)
        (sampleStop 4) (sampleStop 5) (sampleStop 6) .required .required (.gt 0)
        (by decide) (by decide) (by decide) (by decide) (by decide) (by decide)).1]
      decide⟩

/-- C14 as stated fails on an order with two items of quantity zero and a negative total
price: two required fields are missing and one number is out of range, validation gives the
three violations, and the errors object has two entries, because the two missing fields are
both named Quantity. -/
theorem same_name_fields_counterexample :
    violations (ValidateStruct sampleValidator sampleOrder.toStruct)
        = [{ Namespace := "Order.Items[0].Quantity".toList, Field := "Quantity".toList,
             Tag := "required".toList, Param := [] },
           { Namespace := "Order.Items[1].Quantity".toList, Field := "Quantity".toList,
             Tag := "required".toList, Param := [] },
           { Namespace := "Order.TotalPrice".toList, Field := "TotalPrice".toList,
             Tag := "gte".toList, Param := "0".toList }]
      ∧ errorsMap (violations (ValidateStruct sampleValidator sampleOrder.toStruct))
          = [("Quantity".toList, "Quantity is required".toList),
             ("TotalPrice".toList, "TotalPrice is invalid (gte)".toList)]
      ∧ (errorsMap (violations (ValidateStruct sampleValidator sampleOrder.toStruct))).length
          = 2 := by
  decide

/-- The walk over the items of an order reaches the element at every position. -/
theorem order_item_errors (V : Validator) (o : Order) (excluded : List GoString)
    (hex : excluded = [] ∨ excluded = ["Order.UserID".toList])
    (items : List OrderItem) (k : Nat) (item : OrderItem)
    (hitems : o.Items = some items) (hk : items[k]? = some item) :
    ∀ e ∈ validateLeaves V []
        ("Order.".toList ++ "Items".toList ++ '[' :: formatInt (k : Int) ++ "].".toList)
        item.leaves,
      e ∈ validateFields V excluded "Order.".toList o.toStruct.fields := by
  intro e he
  rw [order_validateFields V o excluded hex, hitems]
  have hlen : 1 ≤ (items.map OrderItem.leaves).length := by
    rw [List.length_map]
    have := (List.getElem?_eq_some_iff.1 hk).1
    omega
  have hdive : e ∈ diveElements V [] "Order.".toList "Items".toList 0
      (items.map OrderItem.leaves) := by
    have hk2 : (items.map OrderItem.leaves)[k]? = some item.leaves := by
      rw [List.getElem?_map, hk]; rfl
    have := diveElements_mem V [] "Order.".toList "Items".toList (items.map OrderItem.leaves)
      0 k item.leaves hk2 e
    rw [Nat.zero_add] at this
    exact this he
  have hslice : traverseSlice V [] "Order.".toList "Items".toList
      (Option.map (fun items => items.map OrderItem.leaves) (some items))
      [.required, .min 1, .dive]
      = diveElements V [] "Order.".toList "Items".toList 0 (items.map OrderItem.leaves) := by
    cases items with
    | nil => simp at hk
    | cons x rest => simp [traverseSlice, Tag.checkSlice]
  rw [hslice]
  simp only [List.mem_append]
  right; right; right; left
  exact hdive

theorem leaf_error_mem (V : Validator) (ns : GoString) (leaves : List Leaf) (l : Leaf)
    (hl : l ∈ leaves) (e : FieldError)
    (he : e ∈ traverseScalar V ns l.name l.value l.tags) :
    e ∈ validateLeaves V [] ns leaves :=
  validateLeaves_mem V [] ns leaves l hl (by simp) e he

theorem required_error (V : Validator) (ns name : GoString) (v : Scalar) (rest : List Tag)
    (h : v.hasValue = false) :
    ({ Namespace := ns ++ name, Field := name, Tag := "required".toList, Param := [] }
      : FieldError) ∈ traverseScalar V ns name v (.required :: rest) := by
  simp [traverseScalar, Tag.check, h, Tag.name, Tag.param]

theorem required_gt_error (V : Validator) (ns name : GoString) (v : Scalar)
    (h : v.above 0 = false) :
    ∃ e ∈ traverseScalar V ns name v [.required, .gt 0],
      e.Namespace = ns ++ name ∧ e.Field = name := by
  by_cases hv : v.hasValue = true
  · refine ⟨{ Namespace := ns ++ name, Field := name, Tag := "gt".toList,
              Param := "0".toList }, ?_, rfl, rfl⟩
    simp [traverseScalar, Tag.check, hv, h, Tag.name, Tag.param]
    rfl
  · simp only [Bool.not_eq_true] at hv
    exact ⟨_, required_error V ns name v _ hv, rfl, rfl⟩

/-- C15. For every order whose items hold, at any position, an element with a zero MenuItemID,
a quantity not greater than zero or a price not greater than zero, validation of the order
fails, with ValidateStruct and with ValidateStructExcept on the key UserID alike, and the
violation list holds a violation for that field of that element. -/
theorem order_item_violation_reported (validate : Validator) (o : Order)
    (items : List OrderItem) (k : Nat) (item : OrderItem)
    (hitems : o.Items = some items) (hk : items[k]? = some item) :
    (item.MenuItemID.IsZero = true →
        (∃ e ∈ violations (ValidateStruct validate o.toStruct),
          e.Namespace = "Order.Items[".toList ++ formatInt (k : Int) ++ "].MenuItemID".toList
            ∧ e.Field = "MenuItemID".toList)
          ∧ ∃ e ∈ violations (ValidateStructExcept validate o.toStruct ["UserID".toList]),
              e.Namespace
                  = "Order.Items[".toList ++ formatInt (k : Int) ++ "].MenuItemID".toList
                ∧ e.Field = "MenuItemID".toList)
      ∧ (item.Quantity ≤ 0 →
          (∃ e ∈ violations (ValidateStruct validate o.toStruct),
            e.Namespace = "Order.Items[".toList ++ formatInt (k : Int) ++ "].Quantity".toList
              ∧ e.Field = "Quantity".toList)
            ∧ ∃ e ∈ violations (ValidateStructExcept validate o.toStruct ["UserID".toList]),
                e.Namespace
                    = "Order.Items[".toList ++ formatInt (k : Int) ++ "].Quantity".toList
                  ∧ e.Field = "Quantity".toList)
      ∧ (item.Price ≤ 0 →
          (∃ e ∈ violations (ValidateStruct validate o.toStruct),
            e.Namespace = "Order.Items[".toList ++ formatInt (k : Int) ++ "].Price".toList
              ∧ e.Field = "Price".toList)
            ∧ ∃ e ∈ violations (ValidateStructExcept validate o.toStruct ["UserID".toList]),
                e.Namespace = "Order.Items[".toList ++ formatInt (k : Int) ++ "].Price".toList
                  ∧ e.Field = "Price".toList)
      ∧ (item.MenuItemID.IsZero = true ∨ item.Quantity ≤ 0 ∨ item.Price ≤ 0 →
          ValidateStruct validate o.toStruct ≠ Option.none
            ∧ ValidateStructExcept validate o.toStruct ["UserID".toList] ≠ Option.none) := by
  have hsome : ∀ (x : Option GoError) (e : FieldError), e ∈ violations x → x ≠ Option.none := by
    intro x e he hx
    rw [hx] at he
    simp [violations] at he
  have hboth : ∀ e ∈ validateLeaves validate []
      ("Order.".toList ++ "Items".toList ++ '[' :: formatInt (k : Int) ++ "].".toList)
      item.leaves,
      e ∈ violations (ValidateStruct validate o.toStruct)
        ∧ e ∈ violations (ValidateStructExcept validate o.toStruct ["UserID".toList]) := by
    intro e he
    unfold ValidateStruct ValidateStructExcept Validator.Struct Validator.StructExcept
    rw [violations_toError, violations_toError, order_namespace]
    exact ⟨order_item_errors validate o [] (Or.inl rfl) items k item hitems hk e he,
      order_item_errors validate o _ (Or.inr rfl) items k item hitems hk e he⟩
  have hns : ∀ name : GoString,
      ("Order.".toList ++ "Items".toList ++ '[' :: formatInt (k : Int) ++ "].".toList) ++ name
        = "Order.Items[".toList ++ formatInt (k : Int) ++ ("].".toList ++ name) := by
    intro name
    simp
  have hparts : (item.MenuItemID.IsZero = true →
        (∃ e ∈ violations (ValidateStruct validate o.toStruct),
          e.Namespace = "Order.Items[".toList ++ formatInt (k : Int) ++ "].MenuItemID".toList
            ∧ e.Field = "MenuItemID".toList)
          ∧ ∃ e ∈ violations (ValidateStructExcept validate o.toStruct ["UserID".toList]),
              e.Namespace
                  = "Order.Items[".toList ++ formatInt (k : Int) ++ "].MenuItemID".toList
                ∧ e.Field = "MenuItemID".toList)
      ∧ (item.Quantity ≤ 0 →
          (∃ e ∈ violations (ValidateStruct validate o.toStruct),
            e.Namespace = "Order.Items[".toList ++ formatInt (k : Int) ++ "].Quantity".toList
              ∧ e.Field = "Quantity".toList)
            ∧ ∃ e ∈ violations (ValidateStructExcept validate o.toStruct ["UserID".toList]),
                e.Namespace
                    = "Order.Items[".toList ++ formatInt (k : Int) ++ "].Quantity".toList
                  ∧ e.Field = "Quantity".toList)
      ∧ (item.Price ≤ 0 →
          (∃ e ∈ violations (ValidateStruct validate o.toStruct),
            e.Namespace = "Order.Items[".toList ++ formatInt (k : Int) ++ "].Price".toList
              ∧ e.Field = "Price".toList)
            ∧ ∃ e ∈ violations (ValidateStructExcept validate o.toStruct ["UserID".toList]),
                e.Namespace = "Order.Items[".toList ++ formatInt (k : Int) ++ "].Price".toList
                  ∧ e.Field = "Price".toList) := by
    refine ⟨fun hz => ?_, fun hq => ?_, fun hp => ?_⟩
    · have hv : (Scalar.bytes item.MenuItemID).hasValue = false := by
        simp only [ObjectID.IsZero, List.all_eq_true, decide_eq_true_eq] at hz
        simp only [Scalar.hasValue, List.any_eq_false, decide_eq_true_eq, not_not]
        exact hz
      have he := leaf_error_mem validate
        ("Order.".toList ++ "Items".toList ++ '[' :: formatInt (k : Int) ++ "].".toList)
        item.leaves
        { name := "MenuItemID".toList, tags := [.required], value := .bytes item.MenuItemID }
        (by simp [OrderItem.leaves]) _
        (required_error validate
          ("Order.".toList ++ "Items".toList ++ '[' :: formatInt (k : Int) ++ "].".toList)
          "MenuItemID".toList (.bytes item.MenuItemID) [] hv)
      obtain ⟨h1, h2⟩ := hboth _ he
      exact ⟨⟨_, h1, by rw [hns]; simp, rfl⟩, ⟨_, h2, by rw [hns]; simp, rfl⟩⟩
    · have hv : (Scalar.int item.Quantity).above 0 = false := by
        simp only [Scalar.above, Nat.cast_zero, decide_eq_false_iff_not, not_lt]
        exact hq
      obtain ⟨e, he, hens, hef⟩ := required_gt_error validate
        ("Order.".toList ++ "Items".toList ++ '[' :: formatInt (k : Int) ++ "].".toList)
        "Quantity".toList (.int item.Quantity) hv
      have he2 := leaf_error_mem validate _ item.leaves
        { name := "Quantity".toList, tags := [.required, .gt 0], value := .int item.Quantity }
        (by simp [OrderItem.leaves]) e he
      obtain ⟨h1, h2⟩ := hboth _ he2
      exact ⟨⟨e, h1, by rw [hens, hns]; simp, hef⟩, ⟨e, h2, by rw [hens, hns]; simp, hef⟩⟩
    · have hv : (Scalar.float item.Price).above 0 = false := by
        simp only [Scalar.above, Nat.cast_zero, decide_eq_false_iff_not, not_lt]
        exact hp
      obtain ⟨e, he, hens, hef⟩ := required_gt_error validate
        ("Order.".toList ++ "Items".toList ++ '[' :: formatInt (k : Int) ++ "].".toList)
        "Price".toList (.float item.Price) hv
      have he2 := leaf_error_mem validate _ item.leaves
        { name := "Price".toList, tags := [.required, .gt 0], value := .float item.Price }
        (by simp [OrderItem.leaves]) e he
      obtain ⟨h1, h2⟩ := hboth _ he2
      exact ⟨⟨e, h1, by rw [hens, hns]; simp, hef⟩, ⟨e, h2, by rw [hens, hns]; simp, hef⟩⟩
  refine ⟨hparts.1, hparts.2.1, hparts.2.2, fun h => ?_⟩
  rcases h with h | h | h
  · obtain ⟨⟨e1, h1, -⟩, ⟨e2, h2, -⟩⟩ := hparts.1 h
    exact ⟨hsome _ e1 h1, hsome _ e2 h2⟩
  · obtain ⟨⟨e1, h1, -⟩, ⟨e2, h2, -⟩⟩ := hparts.2.1 h
    exact ⟨hsome _ e1 h1, hsome _ e2 h2⟩
  · obtain ⟨⟨e1, h1, -⟩, ⟨e2, h2, -⟩⟩ := hparts.2.2 h
    exact ⟨hsome _ e1 h1, hsome _ e2 h2⟩

theorem order_item_violation_reported_witness :
    sampleOrder.Items
        = some [{ MenuItemID := sampleObjectID, Quantity := 0, Price := 3 },
                { MenuItemID := sampleObjectID, Quantity := 0, Price := 4 }]
      ∧ ([{ MenuItemID := sampleObjectID, Quantity := 0, Price := 3 },
          { MenuItemID := sampleObjectID, Quantity := 0, Price := 4 }] : List OrderItem)[1]?
          = some { MenuItemID := sampleObjectID, Quantity := 0, Price := 4 }
      ∧ ∃ e ∈ violations (ValidateStruct sampleValidator sampleOrder.toStruct),
          e.Namespace = "Order.Items[".toList ++ formatInt ((1 : Nat) : Int)
              ++ "].Quantity".toList
            ∧ e.Field = "Quantity".toList :=
  ⟨rfl, rfl,
    ((order_item_violation_reported sampleValidator sampleOrder _ 1
      { MenuItemID := sampleObjectID, Quantity := 0, Price := 4 } rfl rfl).2.1
        (by decide)).1⟩

/-- C16. For every non-empty violation list, WriteValidationError answers with status 400 and
the errors object built from the list: its keys are exactly the field names occurring in the
list, each once; reading it at a field name gives the message of the last violation of that
field in list order; and it has as many entries as the list has distinct field names. The body
is that object under the key errors, its entries in the order of their keys. -/
theorem validation_errors_object (w : ResponseWriter) (errs : List FieldError)
    (_hne : errs ≠ []) :
    (WriteValidationError w (.validationErrors errs)).ops = w.ops ++
        [.setHeader "Content-Type".toList "application/json".toList, .writeHeader 400,
         .write (encodeErrorResponse (errorsMap errs))]
      ∧ (w.ops = [] → (WriteValidationError w (.validationErrors errs)).status = some 400)
      ∧ ((errorsMap errs).map (·.1)).Nodup
      ∧ (∀ k, k ∈ (errorsMap errs).map (·.1) ↔ k ∈ errs.map (·.Field))
      ∧ (∀ k, mapGet (errorsMap errs) k
          = (errs.reverse.find? fun e => e.Field = k).map violationMessage)
      ∧ (errorsMap errs).length = (errs.map (·.Field)).dedup.length
      ∧ (sortEntries (errorsMap errs)).Perm (errorsMap errs) := by
  refine ⟨writeValidationError_ops w errs, fun hw => ?_, errorsMap_nodup errs,
    errorsMap_keys errs, mapGet_errorsMap errs, errorsMap_length errs, sortEntries_perm _⟩
  simp [ResponseWriter.status, writeValidationError_ops, hw]

theorem validation_errors_object_witness :
    [sampleMinViolation, sampleMaxViolation] ≠ []
      ∧ mapGet (errorsMap [sampleMinViolation, sampleMaxViolation]) "Name".toList
          = some "Name must not exceed 100 characters".toList
      ∧ (errorsMap [sampleMinViolation, sampleMaxViolation]).length = 1 :=
  ⟨by decide,
    ((validation_errors_object freshWriter [sampleMinViolation, sampleMaxViolation]
      (by decide)).2.2.2.2.1 "Name".toList).trans (by decide),
    ((validation_errors_object freshWriter [sampleMinViolation, sampleMaxViolation]
      (by decide)).2.2.2.2.2.1).trans (by decide)⟩

/-- C17. The message WriteValidationError records for a violation with field f, parameter p
and kind k is f is required when k is required, f must be a valid email address when k is
email, f must be one of: p when k is oneof, and f is invalid (k) when k is none of required,
email, min, max and oneof. -/
theorem violation_message_kinds (e : FieldError) :
    errorsMap [e] = [(e.Field, violationMessage e)]
      ∧ (e.Tag = "required".toList → violationMessage e = e.Field ++ " is required".toList)
      ∧ (e.Tag = "email".toList →
          violationMessage e = e.Field ++ " must be a valid email address".toList)
      ∧ (e.Tag = "oneof".toList →
          violationMessage e = e.Field ++ " must be one of: ".toList ++ e.Param)
      ∧ (e.Tag ∉ ["required".toList, "min".toList, "max".toList, "email".toList,
            "oneof".toList] →
          violationMessage e = e.Field ++ " is invalid (".toList ++ e.Tag ++ ")".toList) := by
  refine ⟨rfl, fun h => ?_, fun h => ?_, fun h => ?_, fun h => ?_⟩
  · simp [violationMessage, h]
  · simp [violationMessage, h]
  · simp [violationMessage, h]
  · simp only [List.mem_cons, List.mem_singleton, List.not_mem_nil, or_false, not_or] at h
    obtain ⟨h1, h2, h3, h4, h5⟩ := h
    unfold violationMessage
    rw [if_neg h1, if_neg h4, if_neg h2, if_neg h3, if_neg h5]

theorem violation_message_kinds_witness :
    sampleGtViolation.Tag ∉ ["required".toList, "min".toList, "max".toList, "email".toList,
        "oneof".toList]
      ∧ violationMessage sampleGtViolation = "Price is invalid (gt)".toList :=
  ⟨by decide, ((violation_message_kinds sampleGtViolation).2.2.2.2 (by decide)).trans
    (by decide)⟩

/-- C18, as amended. The message WriteValidationError records for a violation with field f and
parameter p is f must be at least p characters long when the kind is min, and f must not
exceed p characters when the kind is max. -/
theorem violation_message_min_max (e : FieldError) :
    (e.Tag = "min".toList →
        violationMessage e
          = e.Field ++ " must be at least ".toList ++ e.Param ++ " characters long".toList)
      ∧ (e.Tag = "max".toList →
          violationMessage e
            = e.Field ++ " must not exceed ".toList ++ e.Param ++ " characters".toList) := by
  refine ⟨fun h => ?_, fun h => ?_⟩
  · simp [violationMessage, h]
  · simp [violationMessage, h]

theorem violation_message_min_max_witness :
    violationMessage sampleMinViolation = "Name must be at least 2 characters long".toList :=
  ((violation_message_min_max sampleMinViolation).1 rfl).trans (by decide)

/-- C18 as stated fails on a violation of min=2 and on a violation of max=100 on the field
Name: the messages end in characters long and speak of not exceeding. -/
theorem violation_message_min_max_counterexample :
    sampleMinViolation.Tag = "min".toList
      ∧ violationMessage sampleMinViolation = "Name must be at least 2 characters long".toList
      ∧ violationMessage sampleMinViolation ≠ "Name must be at least 2".toList
      ∧ sampleMaxViolation.Tag = "max".toList
      ∧ violationMessage sampleMaxViolation = "Name must not exceed 100 characters".toList
      ∧ violationMessage sampleMaxViolation ≠ "Name must be at most 100".toList := by
  decide

/-- C19. For every status code s and message m, WriteSimpleError sets the content type, writes
the status s and writes a body that is the JSON object with the single key errors whose value
is the object with the single key message mapped to m (read back by the reference decoder),
followed by the line feed the encoder ends with. -/
theorem simple_error_shape (w : ResponseWriter) (s : Nat) (m : GoString)
    (_hs : 100 ≤ s ∧ s ≤ 999) :
    (WriteSimpleError w s m).ops = w.ops ++
        [.setHeader "Content-Type".toList "application/json".toList, .writeHeader s,
         .write (encodeErrorResponse [("message".toList, m)])]
      ∧ encodeErrorResponse [("message".toList, m)]
          = "\x7b\x22errors\x22:".toList ++ renderObject [("message".toList, JVal.str m)]
              ++ "\x7d\n".toList
      ∧ parseObject (renderObject [("message".toList, JVal.str m)])
          = some [("message".toList, JVal.str m)]
      ∧ (w.ops = [] →
          (WriteSimpleError w s m).status = some s
            ∧ (WriteSimpleError w s m).body = encodeErrorResponse [("message".toList, m)]) := by
  refine ⟨writeSimpleError_ops w s m, ?_, parseObject_render _ (by simp),
    fun hw => writeSimpleError_fresh w s m hw⟩
  simp [encodeErrorResponse, sortEntries, jsonQuote, jsonEscapeChar]

theorem simple_error_shape_witness :
    (100 ≤ 404 ∧ 404 ≤ 999)
      ∧ (WriteSimpleError freshWriter 404 "Order not found".toList).status = some 404
      ∧ (WriteSimpleError freshWriter 404 "Order not found".toList).body
          = simpleErrorBody "Order not found" :=
  ⟨by decide,
    ((simple_error_shape freshWriter 404 "Order not found".toList (by decide)).2.2.2 rfl).1,
    ((simple_error_shape freshWriter 404 "Order not found".toList (by decide)).2.2.2 rfl).2.trans
      (by decide)⟩

/-- An error ValidateStruct or ValidateStructExcept returns is a violation list that is not
empty. -/
theorem validation_error_is_list (validate : Validator) (s : StructValue)
    (exceptKeys : List GoString) (err : GoError)
    (herr : ValidateStruct validate s = some err
      ∨ ValidateStructExcept validate s exceptKeys = some err) :
    ∃ errs, err = .validationErrors errs ∧ errs ≠ [] := by
  rcases herr with h | h
  · unfold ValidateStruct Validator.Struct at h
    exact ⟨_, toError_eq_some _ _ h⟩
  · unfold ValidateStructExcept Validator.StructExcept at h
    exact ⟨_, toError_eq_some _ _ h⟩

/-- C20. Every error the handlers pass to WriteValidationError is one that ValidateStruct or
ValidateStructExcept returned for a payload. Such an error is a violation list, and the
response sets Content-Type to application/json, writes status 400 and a body that is the
object with the single key errors whose value is the object of the field messages, followed
by a line feed; on a fresh writer that is the content type, the status and the body sent. -/
theorem validation_error_always_json (validate : Validator) (s : StructValue)
    (exceptKeys : List GoString) (err : GoError) (w : ResponseWriter)
    (herr : ValidateStruct validate s = some err
      ∨ ValidateStructExcept validate s exceptKeys = some err) :
    ∃ errs, err = .validationErrors errs ∧ errs ≠ []
      ∧ (WriteValidationError w err).ops = w.ops ++
          [.setHeader "Content-Type".toList "application/json".toList, .writeHeader 400,
           .write (encodeErrorResponse (errorsMap errs))]
      ∧ encodeErrorResponse (errorsMap errs)
          = "\x7b\x22errors\x22:".toList
            ++ renderObject ((sortEntries (errorsMap errs)).map fun kv => (kv.1, JVal.str kv.2))
            ++ "\x7d\n".toList
      ∧ (w.ops = [] →
          (WriteValidationError w err).sentHeader "Content-Type".toList
              = some "application/json".toList
            ∧ (WriteValidationError w err).status = some 400
            ∧ (WriteValidationError w err).body = encodeErrorResponse (errorsMap errs)) := by
  obtain ⟨errs, rfl, hne⟩ := validation_error_is_list validate s exceptKeys err herr
  refine ⟨errs, rfl, hne, writeValidationError_ops w errs, ?_, fun hw => ?_⟩
  · simp [encodeErrorResponse, jsonQuote, jsonEscapeChar]
  · simp [ResponseWriter.sentHeader, ResponseWriter.status, ResponseWriter.body,
      writeValidationError_ops, hw]

theorem validation_error_always_json_witness :
    ValidateStruct sampleValidator sampleUser.toStruct
        = some (.validationErrors [sampleNameStop.error .required])
      ∧ ∃ errs, GoError.validationErrors [sampleNameStop.error .required]
            = .validationErrors errs
          ∧ errs ≠ []
          ∧ (WriteValidationError freshWriter
              (.validationErrors [sampleNameStop.error .required])).sentHeader
              "Content-Type".toList = some "application/json".toList
          ∧ (WriteValidationError freshWriter
              (.validationErrors [sampleNameStop.error .required])).status = some 400 :=
  ⟨by decide,
    (validation_error_always_json sampleValidator sampleUser.toStruct []
      (.validationErrors [sampleNameStop.error .required]) freshWriter
      (Or.inl (by decide))).imp
      fun _ h => ⟨h.1, h.2.1, (h.2.2.2.2 rfl).1, (h.2.2.2.2 rfl).2.1⟩⟩

/-! # Properties of the handlers -/

/-- The record Signup hands to the store, and what had to hold for it to get there. -/
theorem signup_created (h : UserHandler) (env : Env) (body : Except GoString User)
    (w : ResponseWriter) (r : Request) (u : User)
    (hu : StoreCall.CreateUser u ∈ (h.Signup env body w r).store) :
    ∃ user, body = .ok user
      ∧ ValidateStruct env.validate user.toStruct = Option.none
      ∧ h.Store.GetUserByEmail user.Email = .ok Option.none
      ∧ (user.Role = "admin".toList →
          r.HeaderGet "Admin-Secret".toList ≠ []
            ∧ r.HeaderGet "Admin-Secret".toList = h.AdminSecret)
      ∧ u.Role = (if user.Role = [] then "customer".toList else user.Role) := by
  cases body with
  | error e => simp [UserHandler.Signup] at hu
  | ok user =>
    refine ⟨user, rfl, ?_⟩
    cases hv : ValidateStruct env.validate user.toStruct with
    | some err => simp [UserHandler.Signup, hv] at hu
    | none =>
      cases hg : h.Store.GetUserByEmail user.Email with
      | error e => simp [UserHandler.Signup, hv, hg] at hu
      | ok found =>
        cases found with
        | some v => simp [UserHandler.Signup, hv, hg] at hu
        | none =>
          refine ⟨rfl, rfl, ?_⟩
          unfold UserHandler.Signup at hu
          simp only [hv, hg] at hu
          split at hu
          · simp at hu
          · rename_i href
            constructor
            · intro hadmin
              rw [if_pos hadmin] at href
              by_cases hkey : r.HeaderGet "Admin-Secret".toList = []
              · rw [if_pos hkey] at href; cases href
              · rw [if_neg hkey] at href
                by_cases hsec : r.HeaderGet "Admin-Secret".toList = h.AdminSecret
                · exact ⟨hkey, hsec⟩
                · rw [if_pos hsec] at href; cases href
            · split at hu
              · simp at hu
              · split at hu <;> simp at hu <;> subst hu <;>
                  by_cases hr : user.Role = [] <;> simp [hr]

/-- The violation of oneof the validator reports for a role it does not know. -/
theorem user_role_violation (V : Validator) (u : User) (h0 : u.Role ≠ [])
    (h1 : u.Role ≠ "admin".toList) (h2 : u.Role ≠ "customer".toList) :
    ∃ errs, ValidateStruct V u.toStruct = some (.validationErrors errs)
      ∧ ∃ e ∈ errs, e.Field = "Role".toList ∧ e.Tag = "oneof".toList := by
  have hmem : (FieldError.mk "User.Role".toList "Role".toList "oneof".toList
      "admin customer".toList) ∈ validateFields V [] "User.".toList u.toStruct.fields := by
    apply validateFields_mem V [] "User.".toList u.toStruct.fields
      (.leaf { name := "Role".toList,
               tags := [.omitempty, .oneof ["admin".toList, "customer".toList]],
               value := .string u.Role })
    · simp [User.toStruct]
    · simp
    · simp only [traverseField, traverseScalar, Scalar.hasValue, Tag.check]
      simp [h0, Tag.name, Tag.param]
      exact ⟨⟨h1, h2⟩, by decide⟩
  refine ⟨validateFields V [] "User.".toList u.toStruct.fields, ?_, _, hmem, rfl, rfl⟩
  show toError (validateFields V [] "User.".toList u.toStruct.fields) = _
  unfold toError
  rw [if_neg (List.ne_nil_of_mem hmem)]

/-- A user that passes validation has no role, the role admin or the role customer. -/
theorem user_role_of_valid (V : Validator) (u : User)
    (h : ValidateStruct V u.toStruct = Option.none) :
    u.Role = [] ∨ u.Role = "admin".toList ∨ u.Role = "customer".toList := by
  by_cases h0 : u.Role = []
  · exact Or.inl h0
  · by_cases h1 : u.Role = "admin".toList
    · exact Or.inr (Or.inl h1)
    · by_cases h2 : u.Role = "customer".toList
      · exact Or.inr (Or.inr h2)
      · obtain ⟨errs, he, -⟩ := user_role_violation V u h0 h1 h2
        rw [h] at he
        cases he

/-- Login on a payload that passes validation, for a user the store finds and whose password
matches: the token Generate returns is written with the role of the user. -/
theorem login_token (l : UserHandler) (env : Env) (req : LoginRequest) (w : ResponseWriter)
    (r : Request) (u : User) (token : GoString)
    (hv : ValidateStruct env.validate req.toStruct = Option.none)
    (hg : l.Store.GetUserByEmail req.Email = .ok (some u))
    (hc : env.CompareHashAndPassword u.Password req.Password = Option.none)
    (hgen : l.JWT.Generate (env.clock 0) u.ID.Hex u.Role = .ok token) :
    l.Login env (.ok req) w r
      = { w := w.push (.write (encodeMap [("token".toList, token), ("role".toList, u.Role)])),
          store := [.GetUserByEmail req.Email] } := by
  unfold UserHandler.Login
  simp only [hv, hg, hc, hgen]

/-- A token Generate returns verifies, under the reference decoder and before its expiry, to
claims that carry the role given to Generate. -/
theorem generate_verify_role (j : JWTManager) (now tv : Int) (userID role : GoString)
    (htv : tv < numericDateTime (NewNumericDate (now + j.TokenDuration))) :
    ∃ token claims, j.Generate now userID role = .ok token
      ∧ j.Verify goJSON tv token = .ok claims ∧ claims.Role = role ∧ claims.UserID = userID := by
  refine ⟨_, j.newClaims now userID role, generate_eq j now userID role, ?_, rfl, rfl⟩
  exact verify_of_tag goJSON j tv .SHA256 _ _ (goJSON_readsBack _ _)
    (b64Decode_b64Encode _ (hmacSum_lt _ _ _)) (validate_ok_of_expiry tv _ _ rfl rfl htv)

/-- The validation of an order with the key UserID left out does not read UserID. -/
theorem validateExcept_userID (V : Validator) (o : Order) (userID : ObjectID) :
    ValidateStructExcept V ({ o with UserID := userID } : Order).toStruct ["UserID".toList]
      = ValidateStructExcept V o.toStruct ["UserID".toList] := by
  unfold ValidateStructExcept Validator.StructExcept
  rw [order_namespace, order_namespace]
  rw [show (["UserID".toList].map fun key => "Order.".toList ++ key) = ["Order.UserID".toList]
    from rfl]
  rw [order_validateFields V o ["Order.UserID".toList] (Or.inr rfl),
    order_validateFields V _ ["Order.UserID".toList] (Or.inr rfl)]
  rw [if_neg (by simp), if_neg (by simp)]

/-- CreateOrder on a payload that passes validation, for a caller whose role is not admin and
whose subject is an ObjectID in hexadecimal: what is handed to the store. -/
theorem createOrder_customer (h : OrderHandler) (env : Env) (o : Order) (w : ResponseWriter)
    (r : Request) (c : Claims) (oid : ObjectID)
    (hr : r.Value "claims".toList = some (.claims c))
    (hv : ValidateStructExcept env.validate o.toStruct ["UserID".toList] = Option.none)
    (hrole : c.Role ≠ "admin".toList)
    (hid : ObjectIDFromHex env.hexErrorText c.UserID = .ok oid) :
    (h.CreateOrder env (.ok o) w r).store
      = [.CreateOrder { o with UserID := oid,
                               Base := { o.Base with CreatedAt := env.clock 0,
                                                     UpdatedAt := env.clock 1 } }] := by
  unfold OrderHandler.CreateOrder
  simp only [hr, hv, hid, if_neg hrole]
  split <;> rfl

/-- CreateOrder for a caller whose role is not admin and whose subject is no ObjectID in
hexadecimal. -/
theorem createOrder_bad_subject (h : OrderHandler) (env : Env) (o : Order) (w : ResponseWriter)
    (r : Request) (c : Claims) (err : GoString)
    (hr : r.Value "claims".toList = some (.claims c))
    (hv : ValidateStructExcept env.validate o.toStruct ["UserID".toList] = Option.none)
    (hrole : c.Role ≠ "admin".toList)
    (hid : ObjectIDFromHex env.hexErrorText c.UserID = .error err) :
    h.CreateOrder env (.ok o) w r
      = { w := WriteSimpleError w 401 ("Invalid user ID in token: ".toList ++ err),
          store := [] } := by
  unfold OrderHandler.CreateOrder
  simp only [hr, hv, hid, if_neg hrole]

/-- CreateOrder for a caller whose role is not admin does not read the UserID of the
payload. -/
theorem createOrder_userID_unread (h : OrderHandler) (env : Env) (o : Order)
    (w : ResponseWriter) (r : Request) (c : Claims) (userID : ObjectID)
    (hr : r.Value "claims".toList = some (.claims c)) (hrole : c.Role ≠ "admin".toList) :
    h.CreateOrder env (.ok { o with UserID := userID }) w r = h.CreateOrder env (.ok o) w r := by
  unfold OrderHandler.CreateOrder
  simp only [hr, validateExcept_userID, if_neg hrole]

/-- The rest of a path after the eight bytes of the route. -/
theorem path_after_route (idStr : GoString) :
    ¬ (utf8Encode ("/orders/".toList ++ idStr)).length < "/orders/".length
      ∧ utf8Decode ((utf8Encode ("/orders/".toList ++ idStr)).drop "/orders/".length)
          = some idStr := by
  have h : utf8Encode ("/orders/".toList ++ idStr)
      = utf8Encode "/orders/".toList ++ utf8Encode idStr := by
    simp [utf8Encode]
  have h8 : (utf8Encode "/orders/".toList).length = 8 := by decide
  have hl : "/orders/".length = 8 := by decide
  rw [h, hl]
  constructor
  · rw [List.length_append, h8]; omega
  · rw [List.drop_append_of_le_length (by rw [h8]), ← h8, List.drop_length, List.nil_append,
      utf8Decode_utf8Encode]

/-- GetOrderByID on a request that carries claims, names an order by its id and finds it in
the store. -/
theorem getOrderByID_found (h : OrderHandler) (env : Env) (w : ResponseWriter) (r : Request)
    (c : Claims) (idStr : GoString) (oid : ObjectID) (order : Order)
    (hr : r.Value "claims".toList = some (.claims c))
    (hp : r.Path = "/orders/".toList ++ idStr)
    (hid : ObjectIDFromHex env.hexErrorText idStr = .ok oid)
    (hs : h.Store.GetOrderByID oid = .ok (some order)) :
    h.GetOrderByID env w r =
      if c.Role ≠ "admin".toList ∧ order.UserID.Hex ≠ c.UserID then
        some { w := WriteSimpleError w 403 "You can only access your own orders".toList,
               store := [.GetOrderByID oid] }
      else
        some { w := w.push
                 (.write ('\x7b' :: jsonQuote "fetchedAt".toList ++ ':'
                   :: jsonQuote (env.formatRFC3339 (env.clock 0)) ++ ','
                   :: jsonQuote "order".toList ++ ':' :: env.marshalOrder order ++ ','
                   :: jsonQuote "requestedBy".toList ++ ':' :: jsonQuote c.UserID
                   ++ ['\x7d', '\n'])),
               store := [.GetOrderByID oid] } := by
  unfold OrderHandler.GetOrderByID
  simp only [hr, hp, if_neg (path_after_route idStr).1, (path_after_route idStr).2, hid, hs]

/-- Two simple error responses with different status codes differ. -/
theorem writeSimpleError_ne (w : ResponseWriter) (code1 code2 : Nat) (m1 m2 : GoString)
    (h : code1 ≠ code2) : WriteSimpleError w code1 m1 ≠ WriteSimpleError w code2 m2 := by
  intro heq
  have := congrArg ResponseWriter.ops heq
  rw [writeSimpleError_ops, writeSimpleError_ops] at this
  simp at this
  exact h this.1

/-- A validation error response is no simple error response of status 500. -/
theorem writeValidationError_ne (w : ResponseWriter) (err : GoError) (m : GoString) :
    WriteValidationError w err ≠ WriteSimpleError w 500 m := by
  intro heq
  have := congrArg ResponseWriter.ops heq
  rw [writeSimpleError_ops] at this
  cases err with
  | validationErrors errs =>
    rw [writeValidationError_ops] at this
    simp at this
  | other text =>
    simp [WriteValidationError, httpError, ResponseWriter.push] at this

/-- CreateOrder on a request whose context holds claims does not end in the branch that
answers 500 for missing claims. -/
theorem createOrder_with_claims (h : OrderHandler) (env : Env) (body : Except GoString Order)
    (w : ResponseWriter) (r : Request) (c : Claims)
    (hr : r.Value "claims".toList = some (.claims c)) :
    h.CreateOrder env body w r
      ≠ { w := WriteSimpleError w 500 "Failed to read user info from context".toList,
          store := [] } := by
  intro heq
  unfold OrderHandler.CreateOrder at heq
  simp only [hr] at heq
  split at heq
  · exact writeSimpleError_ne w 400 500 _ _ (by decide) (congrArg Handled.w heq)
  · split at heq
    · exact writeValidationError_ne w _ _ (congrArg Handled.w heq)
    · split at heq
      · rename_i w1 hown
        have hw : w1 = WriteSimpleError w 500 "Failed to read user info from context".toList :=
          congrArg Handled.w heq
        subst hw
        split at hown
        · split at hown
          · simp only [Except.error.injEq] at hown
            exact writeSimpleError_ne w 400 500 _ _ (by decide) hown
          · cases hown
        · split at hown
          · simp only [Except.error.injEq] at hown
            exact writeSimpleError_ne w 401 500 _ _ (by decide) hown
          · cases hown
      · split at heq <;>
        · have := congrArg Handled.store heq
          simp at this

/-- The violations ValidateStructExcept reports for an order with the key UserID, field by
field. -/
theorem order_except_violations (V : Validator) (o : Order) :
    violations (ValidateStructExcept V o.toStruct ["UserID".toList]) =
      validateLeaves V [] "Order.Base.".toList o.Base.leaves
        ++ (traverseScalar V "Order.".toList "Restaurant".toList (.bytes o.Restaurant) [.required]
        ++ (traverseSlice V [] "Order.".toList "Items".toList
              (o.Items.map fun items => items.map OrderItem.leaves) [.required, .min 1, .dive]
        ++ (traverseScalar V "Order.".toList "Status".toList (.string o.Status)
              [.required, .oneof orderStatuses]
        ++ traverseScalar V "Order.".toList "TotalPrice".toList (.float o.TotalPrice)
              [.required, .gte 0]))) := by
  unfold ValidateStructExcept Validator.StructExcept
  rw [violations_toError, order_namespace]
  rw [show (["UserID".toList].map fun key => "Order.".toList ++ key) = ["Order.UserID".toList]
    from rfl]
  rw [order_validateFields V o ["Order.UserID".toList] (Or.inr rfl)]
  rw [if_neg (by simp)]
  simp only [List.nil_append, List.append_nil]

/-- The walk over the constraints of Order.TotalPrice finds nothing exactly when the price is
greater than zero. -/
theorem total_price_walk (V : Validator) (x : ℚ) :
    traverseScalar V "Order.".toList "TotalPrice".toList (.float x) [.required, .gte 0] = []
      ↔ 0 < x := by
  by_cases h0 : x = 0
  · subst h0
    simp [traverseScalar, Tag.check, Scalar.hasValue]
  · by_cases hx : 0 ≤ x
    · have : 0 < x := lt_of_le_of_ne hx (Ne.symm h0)
      simp [traverseScalar, Tag.check, Scalar.hasValue, Scalar.atLeast, h0, hx, this]
    · have : ¬ 0 < x := fun h => hx (le_of_lt h)
      simp [traverseScalar, Tag.check, Scalar.hasValue, Scalar.atLeast, h0, hx, this]

/-- The violations on the field TotalPrice of an order are those of the walk over its
constraints. -/
theorem total_price_violations (V : Validator) (o : Order) (e : FieldError)
    (hf : e.Field = "TotalPrice".toList) :
    e ∈ violations (ValidateStructExcept V o.toStruct ["UserID".toList])
      ↔ e ∈ traverseScalar V "Order.".toList "TotalPrice".toList (.float o.TotalPrice)
          [.required, .gte 0] := by
  rw [order_except_violations]
  simp only [List.mem_append]
  constructor
  · rintro (he | he | he | he | he)
    · obtain ⟨l, hl, hf2, -⟩ := validateLeaves_field _ _ _ _ e he
      rw [hf] at hf2
      rcases base_leaves_names o.Base l hl with h | h | h <;> rw [h] at hf2 <;>
        exact absurd hf2 (by decide)
    · rw [(traverseScalar_field _ _ _ _ _ e he).1] at hf
      exact absurd hf (by decide)
    · rcases traverseSlice_order_field V o.Items e he with h | h | h | h <;>
        rw [h] at hf <;> exact absurd hf (by decide)
    · rw [(traverseScalar_field _ _ _ _ _ e he).1] at hf
      exact absurd hf (by decide)
    · exact he
  · intro he
    exact Or.inr (Or.inr (Or.inr (Or.inr he)))

/-! # The claims on the order of the writes and on the handlers -/

/-- C21. On every call of WriteErrorResponse and of WriteSimpleError, and on every call of
WriteValidationError with an error that ValidateStruct or ValidateStructExcept returned (the
errors the handlers pass to it), the effects on the response writer are these three, in this
order, after whatever was done before: Content-Type is set to application/json, the status is
written, the body is written. So on a fresh writer the first effect sets the content type, and
no status or body is written before it. -/
theorem content_type_then_status_then_body (w : ResponseWriter) (statusCode : Nat)
    (fieldErrors : List (GoString × GoString)) (message : GoString) (validate : Validator)
    (s : StructValue) (exceptKeys : List GoString) (err : GoError)
    (herr : ValidateStruct validate s = some err
      ∨ ValidateStructExcept validate s exceptKeys = some err) :
    (WriteErrorResponse w statusCode fieldErrors).ops = w.ops ++
        [.setHeader "Content-Type".toList "application/json".toList, .writeHeader statusCode,
         .write (encodeErrorResponse fieldErrors)]
      ∧ (WriteSimpleError w statusCode message).ops = w.ops ++
        [.setHeader "Content-Type".toList "application/json".toList, .writeHeader statusCode,
         .write (encodeErrorResponse [("message".toList, message)])]
      ∧ (∃ errs, err = .validationErrors errs
          ∧ (WriteValidationError w err).ops = w.ops ++
            [.setHeader "Content-Type".toList "application/json".toList, .writeHeader 400,
             .write (encodeErrorResponse (errorsMap errs))])
      ∧ (w.ops = [] →
          (WriteErrorResponse w statusCode fieldErrors).ops.head?
              = some (.setHeader "Content-Type".toList "application/json".toList)
            ∧ (WriteSimpleError w statusCode message).ops.head?
              = some (.setHeader "Content-Type".toList "application/json".toList)
            ∧ (WriteValidationError w err).ops.head?
              = some (.setHeader "Content-Type".toList "application/json".toList)) := by
  obtain ⟨errs, rfl, -⟩ := validation_error_is_list validate s exceptKeys err herr
  have h1 : (WriteErrorResponse w statusCode fieldErrors).ops = w.ops ++
      [.setHeader "Content-Type".toList "application/json".toList, .writeHeader statusCode,
       .write (encodeErrorResponse fieldErrors)] := by
    simp [WriteErrorResponse, ResponseWriter.push]
  refine ⟨h1, writeSimpleError_ops w statusCode message,
    ⟨errs, rfl, writeValidationError_ops w errs⟩, fun hw => ?_⟩
  rw [h1, writeSimpleError_ops, writeValidationError_ops, hw]
  exact ⟨rfl, rfl, rfl⟩

theorem content_type_then_status_then_body_witness :
    ValidateStruct sampleValidator sampleUser.toStruct
        = some (.validationErrors [sampleNameStop.error .required])
      ∧ (WriteValidationError freshWriter
          (.validationErrors [sampleNameStop.error .required])).ops
          = [.setHeader "Content-Type".toList "application/json".toList, .writeHeader 400,
             .write "\x7b\x22errors\x22:\x7b\x22Name\x22:\x22Name is required\x22\x7d\x7d\n".toList]
      ∧ (WriteSimpleError freshWriter 404 "Order not found".toList).ops.head?
          = some (.setHeader "Content-Type".toList "application/json".toList) :=
  ⟨by decide, by decide,
    ((content_type_then_status_then_body freshWriter 404 [] "Order not found".toList
      sampleValidator sampleUser.toStruct [] (.validationErrors [sampleNameStop.error .required])
      (Or.inl (by decide))).2.2.2 rfl).2.1⟩

/-- C23. Every record Signup hands to the store has the role admin or customer. A payload whose
role is any other non-empty text is answered with the validation error, which holds a
violation of oneof on Role and has status 400 on a fresh writer, and no call is made on the
store. For a payload without role the record handed to the store has the role customer. Hence,
when Login finds a record that Signup handed to the store and the password matches, the token
it writes verifies, before its expiry, to claims whose role is admin or customer. -/
theorem signup_role_enumeration (h : UserHandler) (env : Env) (body : Except GoString User)
    (w : ResponseWriter) (r : Request) :
    (∀ u, StoreCall.CreateUser u ∈ (h.Signup env body w r).store →
        u.Role = "admin".toList ∨ u.Role = "customer".toList)
      ∧ (∀ user, body = .ok user → user.Role ≠ [] → user.Role ≠ "admin".toList →
          user.Role ≠ "customer".toList →
          ∃ errs, h.Signup env body w r
              = { w := WriteValidationError w (.validationErrors errs), store := [] }
            ∧ (∃ e ∈ errs, e.Field = "Role".toList ∧ e.Tag = "oneof".toList)
            ∧ (w.ops = [] → (h.Signup env body w r).w.status = some 400))
      ∧ (∀ user, body = .ok user → user.Role = [] →
          ∀ u, StoreCall.CreateUser u ∈ (h.Signup env body w r).store →
            u.Role = "customer".toList)
      ∧ (∀ (l : UserHandler) (lenv : Env) (req : LoginRequest) (lw : ResponseWriter)
          (lr : Request) (u : User) (tv : Int),
          StoreCall.CreateUser u ∈ (h.Signup env body w r).store →
          ValidateStruct lenv.validate req.toStruct = Option.none →
          l.Store.GetUserByEmail req.Email = .ok (some u) →
          lenv.CompareHashAndPassword u.Password req.Password = Option.none →
          tv < numericDateTime (NewNumericDate (lenv.clock 0 + l.JWT.TokenDuration)) →
          ∃ token claims,
            (l.Login lenv (.ok req) lw lr).w
                = lw.push (.write (encodeMap [("token".toList, token), ("role".toList, u.Role)]))
              ∧ l.JWT.Verify goJSON tv token = .ok claims
              ∧ (claims.Role = "admin".toList ∨ claims.Role = "customer".toList)) := by
  have hrole : ∀ u, StoreCall.CreateUser u ∈ (h.Signup env body w r).store →
      u.Role = "admin".toList ∨ u.Role = "customer".toList := by
    intro u hu
    obtain ⟨user, -, hv, -, -, hr⟩ := signup_created h env body w r u hu
    rw [hr]
    rcases user_role_of_valid env.validate user hv with h0 | h1 | h2
    · rw [if_pos h0]; exact Or.inr rfl
    · rw [if_neg (by rw [h1]; decide)]; exact Or.inl h1
    · rw [if_neg (by rw [h2]; decide)]; exact Or.inr h2
  refine ⟨hrole, ?_, ?_, ?_⟩
  · intro user hb h0 h1 h2
    obtain ⟨errs, hv, he⟩ := user_role_violation env.validate user h0 h1 h2
    have heq : h.Signup env body w r
        = { w := WriteValidationError w (.validationErrors errs), store := [] } := by
      rw [hb]
      unfold UserHandler.Signup
      simp only [hv]
    refine ⟨errs, heq, he, fun hw => ?_⟩
    rw [heq]
    simp [ResponseWriter.status, writeValidationError_ops, hw]
  · intro user hb h0 u hu
    obtain ⟨user1, hb1, -, -, -, hr⟩ := signup_created h env body w r u hu
    rw [hb] at hb1
    cases hb1
    rw [hr, if_pos h0]
  · intro l lenv req lw lr u tv hu hv hg hc htv
    obtain ⟨token, claims, hgen, hver, hcr, -⟩ :=
      generate_verify_role l.JWT (lenv.clock 0) tv u.ID.Hex u.Role htv
    refine ⟨token, claims, ?_, hver, ?_⟩
    · rw [login_token l lenv req lw lr u token hv hg hc hgen]
    · rw [hcr]
      exact hrole u hu

theorem signup_role_enumeration_witness :
    StoreCall.CreateUser sampleStoredUser
        ∈ ((sampleUserHandler noUsers).Signup sampleEnv (.ok (sampleSignup [])) freshWriter
            bareRequest).store
      ∧ ValidateStruct sampleEnv.validate (sampleLogin "12345678".toList).toStruct = Option.none
      ∧ (sampleUserHandler (usersHolding sampleStoredUser)).Store.GetUserByEmail
          (sampleLogin "12345678".toList).Email = .ok (some sampleStoredUser)
      ∧ sampleEnv.CompareHashAndPassword sampleStoredUser.Password
          (sampleLogin "12345678".toList).Password = Option.none
      ∧ sampleNow < numericDateTime (NewNumericDate (sampleEnv.clock 0
          + (sampleUserHandler (usersHolding sampleStoredUser)).JWT.TokenDuration))
      ∧ (sampleStoredUser.Role = "admin".toList ∨ sampleStoredUser.Role = "customer".toList)
      ∧ ∃ token claims,
          ((sampleUserHandler (usersHolding sampleStoredUser)).Login sampleEnv
              (.ok (sampleLogin "12345678".toList)) freshWriter bareRequest).w
            = freshWriter.push (.write (encodeMap
                [("token".toList, token), ("role".toList, sampleStoredUser.Role)]))
          ∧ (sampleUserHandler (usersHolding sampleStoredUser)).JWT.Verify goJSON sampleNow token
              = .ok claims
          ∧ (claims.Role = "admin".toList ∨ claims.Role = "customer".toList) :=
  ⟨by decide, by decide, rfl, rfl, by decide,
    (signup_role_enumeration (sampleUserHandler noUsers) sampleEnv (.ok (sampleSignup []))
      freshWriter bareRequest).1 sampleStoredUser (by decide),
    (signup_role_enumeration (sampleUserHandler noUsers) sampleEnv (.ok (sampleSignup []))
      freshWriter bareRequest).2.2.2 (sampleUserHandler (usersHolding sampleStoredUser))
      sampleEnv (sampleLogin "12345678".toList) freshWriter bareRequest sampleStoredUser
      sampleNow (by decide) (by decide) rfl rfl (by decide)⟩

/-- C24. For every CreateOrder request whose payload passes validation and whose caller has a
role other than admin: when the subject of the claims parses as an ObjectID, exactly one order
is handed to the store and its UserID is that ObjectID, and the whole outcome is the same
whatever UserID the payload carried; when the subject does not parse, the handler answers 401
through WriteSimpleError and makes no call on the store. -/
theorem order_owner_from_claims (h : OrderHandler) (env : Env) (o : Order)
    (w : ResponseWriter) (r : Request) (c : Claims)
    (hr : r.Value "claims".toList = some (.claims c))
    (hv : ValidateStructExcept env.validate o.toStruct ["UserID".toList] = Option.none)
    (hrole : c.Role ≠ "admin".toList) :
    (∀ oid, ObjectIDFromHex env.hexErrorText c.UserID = .ok oid →
        (∃ stored, (h.CreateOrder env (.ok o) w r).store = [.CreateOrder stored]
          ∧ stored.UserID = oid)
        ∧ ∀ stored, StoreCall.CreateOrder stored ∈ (h.CreateOrder env (.ok o) w r).store →
            stored.UserID = oid)
      ∧ (∀ userID, h.CreateOrder env (.ok { o with UserID := userID }) w r
          = h.CreateOrder env (.ok o) w r)
      ∧ (∀ err, ObjectIDFromHex env.hexErrorText c.UserID = .error err →
          h.CreateOrder env (.ok o) w r
              = { w := WriteSimpleError w 401 ("Invalid user ID in token: ".toList ++ err),
                  store := [] }
            ∧ (w.ops = [] → (h.CreateOrder env (.ok o) w r).w.status = some 401)) := by
  refine ⟨fun oid hid => ?_, fun userID => createOrder_userID_unread h env o w r c userID hr hrole,
    fun err hid => ?_⟩
  · have hs := createOrder_customer h env o w r c oid hr hv hrole hid
    refine ⟨⟨_, hs, rfl⟩, fun stored hm => ?_⟩
    rw [hs] at hm
    simp only [List.mem_singleton, StoreCall.CreateOrder.injEq] at hm
    rw [hm]
  · have hs := createOrder_bad_subject h env o w r c err hr hv hrole hid
    refine ⟨hs, fun hw => ?_⟩
    rw [hs]
    exact (writeSimpleError_fresh w 401 _ hw).1

theorem order_owner_from_claims_witness :
    (authedRequest (customerClaims "0101010101010101010101ab".toList) "/orders".toList).Value
        "claims".toList = some (.claims (customerClaims "0101010101010101010101ab".toList))
      ∧ ValidateStructExcept sampleEnv.validate (sampleOrderPayload zeroObjectID 5).toStruct
          ["UserID".toList] = Option.none
      ∧ (customerClaims "0101010101010101010101ab".toList).Role ≠ "admin".toList
      ∧ ObjectIDFromHex sampleEnv.hexErrorText "0101010101010101010101ab".toList
          = .ok (List.replicate 11 1 ++ [171])
      ∧ (∃ stored, ((sampleOrderHandler sampleOrder).CreateOrder sampleEnv
              (.ok (sampleOrderPayload zeroObjectID 5)) freshWriter
              (authedRequest (customerClaims "0101010101010101010101ab".toList)
                "/orders".toList)).store = [.CreateOrder stored]
          ∧ stored.UserID = List.replicate 11 1 ++ [171])
      ∧ ObjectIDFromHex sampleEnv.hexErrorText "u1".toList
          = .error "the provided hex string is not a valid ObjectID".toList
      ∧ ((sampleOrderHandler sampleOrder).CreateOrder sampleEnv
            (.ok (sampleOrderPayload zeroObjectID 5)) freshWriter
            (authedRequest (customerClaims "u1".toList) "/orders".toList)).w.status = some 401 :=
  ⟨rfl, by decide, by decide, rfl,
    ((order_owner_from_claims (sampleOrderHandler sampleOrder) sampleEnv
      (sampleOrderPayload zeroObjectID 5) freshWriter
      (authedRequest (customerClaims "0101010101010101010101ab".toList) "/orders".toList)
      (customerClaims "0101010101010101010101ab".toList) rfl (by decide) (by decide)).1
      (List.replicate 11 1 ++ [171]) (by rfl)).1,
    rfl,
    (((order_owner_from_claims (sampleOrderHandler sampleOrder) sampleEnv
      (sampleOrderPayload zeroObjectID 5) freshWriter
      (authedRequest (customerClaims "u1".toList) "/orders".toList)
      (customerClaims "u1".toList) rfl (by decide) (by decide)).2.2
      "the provided hex string is not a valid ObjectID".toList (by rfl)).2 rfl)⟩

/-- C25. For every request that carries claims and names, by its id, an order the store
finds: when the role of the claims is not admin and the hexadecimal text of the UserID of the
order differs from the subject, GetOrderByID answers as WriteSimpleError does for status 403
and the message You can only access your own orders, whatever the order holds otherwise, so
nothing of the order is written; when the role is admin, it writes the order whoever owns
it, and on a fresh writer the status is 200. -/
theorem foreign_order_forbidden (h : OrderHandler) (env : Env) (w : ResponseWriter)
    (r : Request) (c : Claims) (idStr : GoString) (oid : ObjectID) (order : Order)
    (hr : r.Value "claims".toList = some (.claims c))
    (hp : r.Path = "/orders/".toList ++ idStr)
    (hid : ObjectIDFromHex env.hexErrorText idStr = .ok oid)
    (hs : h.Store.GetOrderByID oid = .ok (some order)) :
    (c.Role ≠ "admin".toList → order.UserID.Hex ≠ c.UserID →
        h.GetOrderByID env w r
            = some { w := WriteSimpleError w 403 "You can only access your own orders".toList,
                     store := [.GetOrderByID oid] }
          ∧ (w.ops = [] →
              (WriteSimpleError w 403 "You can only access your own orders".toList).status
                  = some 403
                ∧ (WriteSimpleError w 403 "You can only access your own orders".toList).body
                  = encodeErrorResponse
                      [("message".toList, "You can only access your own orders".toList)]))
      ∧ (c.Role = "admin".toList →
          ∃ w1, h.GetOrderByID env w r = some { w := w1, store := [.GetOrderByID oid] }
            ∧ w1.ops = w.ops ++
                [.write ('\x7b' :: jsonQuote "fetchedAt".toList ++ ':'
                   :: jsonQuote (env.formatRFC3339 (env.clock 0)) ++ ','
                   :: jsonQuote "order".toList ++ ':' :: env.marshalOrder order ++ ','
                   :: jsonQuote "requestedBy".toList ++ ':' :: jsonQuote c.UserID
                   ++ ['\x7d', '\n'])]
            ∧ (w.ops = [] → w1.status = some 200)) := by
  have hmain := getOrderByID_found h env w r c idStr oid order hr hp hid hs
  constructor
  · intro hrole hne
    rw [if_pos ⟨hrole, hne⟩] at hmain
    exact ⟨hmain, fun hw => writeSimpleError_fresh w 403 _ hw⟩
  · intro hrole
    rw [if_neg (fun hc => hc.1 hrole)] at hmain
    refine ⟨_, hmain, rfl, fun hw => ?_⟩
    simp [ResponseWriter.status, ResponseWriter.push, hw]

theorem foreign_order_forbidden_witness :
    (authedRequest (customerClaims "0101010101010101010101ab".toList)
        "/orders/000000000000000000000000".toList).Value "claims".toList
        = some (.claims (customerClaims "0101010101010101010101ab".toList))
      ∧ (authedRequest (customerClaims "0101010101010101010101ab".toList)
          "/orders/000000000000000000000000".toList).Path
        = "/orders/".toList ++ "000000000000000000000000".toList
      ∧ ObjectIDFromHex sampleEnv.hexErrorText "000000000000000000000000".toList
          = .ok zeroObjectID
      ∧ (sampleOrderHandler (sampleOrderPayload sampleObjectID 5)).Store.GetOrderByID
          zeroObjectID = .ok (some (sampleOrderPayload sampleObjectID 5))
      ∧ (customerClaims "0101010101010101010101ab".toList).Role ≠ "admin".toList
      ∧ (sampleOrderPayload sampleObjectID 5).UserID.Hex
          ≠ (customerClaims "0101010101010101010101ab".toList).UserID
      ∧ (sampleOrderHandler (sampleOrderPayload sampleObjectID 5)).GetOrderByID sampleEnv
            freshWriter (authedRequest (customerClaims "0101010101010101010101ab".toList)
              "/orders/000000000000000000000000".toList)
          = some { w := WriteSimpleError freshWriter 403
                          "You can only access your own orders".toList,
                   store := [.GetOrderByID zeroObjectID] } :=
  ⟨rfl, rfl, rfl, rfl, by decide, by decide,
    ((foreign_order_forbidden (sampleOrderHandler (sampleOrderPayload sampleObjectID 5))
      sampleEnv freshWriter
      (authedRequest (customerClaims "0101010101010101010101ab".toList)
        "/orders/000000000000000000000000".toList)
      (customerClaims "0101010101010101010101ab".toList) "000000000000000000000000".toList
      zeroObjectID (sampleOrderPayload sampleObjectID 5) rfl rfl (by rfl) (by rfl)).1
      (by decide) (by decide)).1⟩

/-- C26 fails on a payload with the role admin, sent without the Admin-Secret header, whose
email is already registered: Signup answers 409; and on such a payload with a name of one
character: Signup answers 400. In both cases nothing is handed to the store. -/
theorem admin_signup_conflict_counterexample :
    (sampleSignup "admin".toList).Role = "admin".toList
      ∧ bareRequest.HeaderGet "Admin-Secret".toList = []
      ∧ ((sampleUserHandler (usersHolding sampleStoredUser)).Signup sampleEnv
            (.ok (sampleSignup "admin".toList)) freshWriter bareRequest).w.status = some 409
      ∧ ((sampleUserHandler (usersHolding sampleStoredUser)).Signup sampleEnv
            (.ok (sampleSignup "admin".toList)) freshWriter bareRequest).w.body
          = simpleErrorBody "Email already registered"
      ∧ ((sampleUserHandler noUsers).Signup sampleEnv
            (.ok { sampleSignup "admin".toList with Name := "A".toList }) freshWriter
            bareRequest).w.status = some 400 := by
  decide

/-- C26, amended. Signup hands a user with the role admin to the store only if the
Admin-Secret header of the request is non-empty and equal to the AdminSecret of the handler.
When the role of the payload is admin and the header is missing or different, Signup hands no
user to the store; and when, besides, the payload passes validation and the store reports no
user with its email, Signup answers as WriteSimpleError does for status 401, with the message
Missing Admin-Secret header for an empty header and Invalid Admin-Secret key otherwise. -/
theorem admin_signup_needs_secret (h : UserHandler) (env : Env) (body : Except GoString User)
    (w : ResponseWriter) (r : Request) :
    (∀ u, StoreCall.CreateUser u ∈ (h.Signup env body w r).store → u.Role = "admin".toList →
        r.HeaderGet "Admin-Secret".toList ≠ []
          ∧ r.HeaderGet "Admin-Secret".toList = h.AdminSecret)
      ∧ (∀ user, body = .ok user → user.Role = "admin".toList →
          (r.HeaderGet "Admin-Secret".toList = []
            ∨ r.HeaderGet "Admin-Secret".toList ≠ h.AdminSecret) →
          (∀ u, StoreCall.CreateUser u ∉ (h.Signup env body w r).store)
            ∧ (ValidateStruct env.validate user.toStruct = Option.none →
                h.Store.GetUserByEmail user.Email = .ok Option.none →
                h.Signup env body w r
                    = { w := WriteSimpleError w 401
                          (if r.HeaderGet "Admin-Secret".toList = [] then
                            "Missing Admin-Secret header".toList
                          else "Invalid Admin-Secret key".toList),
                        store := [.GetUserByEmail user.Email] }
                  ∧ (w.ops = [] → (h.Signup env body w r).w.status = some 401))) := by
  constructor
  · intro u hu hadmin
    obtain ⟨user, -, -, -, hsec, hr⟩ := signup_created h env body w r u hu
    apply hsec
    by_cases h0 : user.Role = []
    · rw [hr, if_pos h0] at hadmin
      exact absurd hadmin (by decide)
    · rw [hr, if_neg h0] at hadmin
      exact hadmin
  · intro user hb hadmin hkey
    constructor
    · intro u hu
      obtain ⟨user1, hb1, -, -, hsec, -⟩ := signup_created h env body w r u hu
      rw [hb] at hb1
      cases hb1
      obtain ⟨h1, h2⟩ := hsec hadmin
      rcases hkey with hk | hk
      · exact h1 hk
      · exact hk h2
    · intro hv hg
      have heq : h.Signup env body w r
          = { w := WriteSimpleError w 401
                (if r.HeaderGet "Admin-Secret".toList = [] then
                  "Missing Admin-Secret header".toList
                else "Invalid Admin-Secret key".toList),
              store := [.GetUserByEmail user.Email] } := by
        rw [hb]
        unfold UserHandler.Signup
        simp only [hv, hg, if_pos hadmin]
        by_cases hk : r.HeaderGet "Admin-Secret".toList = []
        · simp only [if_pos hk]
        · have hs : r.HeaderGet "Admin-Secret".toList ≠ h.AdminSecret := by
            rcases hkey with hk1 | hk1
            · exact absurd hk1 hk
            · exact hk1
          simp only [if_neg hk, if_pos hs]
      refine ⟨heq, fun hw => ?_⟩
      rw [heq]
      exact (writeSimpleError_fresh w 401 _ hw).1

theorem admin_signup_needs_secret_witness :
    StoreCall.CreateUser { sampleStoredUser with Role := "admin".toList }
        ∈ ((sampleUserHandler noUsers).Signup sampleEnv (.ok (sampleSignup "admin".toList))
            freshWriter (signupRequest "s3cret".toList)).store
      ∧ (signupRequest "s3cret".toList).HeaderGet "Admin-Secret".toList
          = (sampleUserHandler noUsers).AdminSecret
      ∧ (signupRequest "guess".toList).HeaderGet "Admin-Secret".toList
          ≠ (sampleUserHandler noUsers).AdminSecret
      ∧ ValidateStruct sampleEnv.validate (sampleSignup "admin".toList).toStruct = Option.none
      ∧ (sampleUserHandler noUsers).Store.GetUserByEmail (sampleSignup "admin".toList).Email
          = .ok Option.none
      ∧ ((sampleUserHandler noUsers).Signup sampleEnv (.ok (sampleSignup "admin".toList))
            freshWriter (signupRequest "guess".toList)).w.status = some 401
      ∧ ∀ u, StoreCall.CreateUser u
          ∉ ((sampleUserHandler noUsers).Signup sampleEnv (.ok (sampleSignup "admin".toList))
              freshWriter (signupRequest "guess".toList)).store :=
  ⟨by decide,
    ((admin_signup_needs_secret (sampleUserHandler noUsers) sampleEnv
      (.ok (sampleSignup "admin".toList)) freshWriter (signupRequest "s3cret".toList)).1
      { sampleStoredUser with Role := "admin".toList } (by decide) rfl).2,
    by decide, by decide, rfl,
    ((((admin_signup_needs_secret (sampleUserHandler noUsers) sampleEnv
      (.ok (sampleSignup "admin".toList)) freshWriter (signupRequest "guess".toList)).2
      (sampleSignup "admin".toList) rfl rfl (Or.inr (by decide))).2 (by decide) rfl).2 rfl),
    ((admin_signup_needs_secret (sampleUserHandler noUsers) sampleEnv
      (.ok (sampleSignup "admin".toList)) freshWriter (signupRequest "guess".toList)).2
      (sampleSignup "admin".toList) rfl rfl (Or.inr (by decide))).1⟩

/-- C27. For every login payload that passes validation, Login answers in the same way when
the store reports no user with the email and when it reports a user whose password does not
match: as WriteSimpleError does for status 401 and the message Invalid email or password,
after the one query on the store. -/
theorem login_failures_alike (absent present : UserHandler) (env : Env) (req : LoginRequest)
    (w : ResponseWriter) (r : Request) (user : User) (mismatch : GoString)
    (hv : ValidateStruct env.validate req.toStruct = Option.none)
    (ha : absent.Store.GetUserByEmail req.Email = .ok Option.none)
    (hp : present.Store.GetUserByEmail req.Email = .ok (some user))
    (hc : env.CompareHashAndPassword user.Password req.Password = some mismatch) :
    absent.Login env (.ok req) w r
        = { w := WriteSimpleError w 401 "Invalid email or password".toList,
            store := [.GetUserByEmail req.Email] }
      ∧ present.Login env (.ok req) w r = absent.Login env (.ok req) w r
      ∧ (w.ops = [] →
          (present.Login env (.ok req) w r).w.status = some 401
            ∧ (present.Login env (.ok req) w r).w.body
              = encodeErrorResponse [("message".toList, "Invalid email or password".toList)]) := by
  have h1 : absent.Login env (.ok req) w r
      = { w := WriteSimpleError w 401 "Invalid email or password".toList,
          store := [.GetUserByEmail req.Email] } := by
    unfold UserHandler.Login
    simp only [hv, ha]
  have h2 : present.Login env (.ok req) w r
      = { w := WriteSimpleError w 401 "Invalid email or password".toList,
          store := [.GetUserByEmail req.Email] } := by
    unfold UserHandler.Login
    simp only [hv, hp, hc]
  refine ⟨h1, h2.trans h1.symm, fun hw => ?_⟩
  rw [h2]
  exact writeSimpleError_fresh w 401 _ hw

theorem login_failures_alike_witness :
    ValidateStruct sampleEnv.validate (sampleLogin "wrong-password".toList).toStruct
        = Option.none
      ∧ (sampleUserHandler noUsers).Store.GetUserByEmail
          (sampleLogin "wrong-password".toList).Email = .ok Option.none
      ∧ (sampleUserHandler (usersHolding sampleStoredUser)).Store.GetUserByEmail
          (sampleLogin "wrong-password".toList).Email = .ok (some sampleStoredUser)
      ∧ sampleEnv.CompareHashAndPassword sampleStoredUser.Password
          (sampleLogin "wrong-password".toList).Password
          = some "crypto/bcrypt: hashedPassword is not the hash of the given password".toList
      ∧ (sampleUserHandler (usersHolding sampleStoredUser)).Login sampleEnv
            (.ok (sampleLogin "wrong-password".toList)) freshWriter bareRequest
          = (sampleUserHandler noUsers).Login sampleEnv
            (.ok (sampleLogin "wrong-password".toList)) freshWriter bareRequest :=
  ⟨by decide, rfl, rfl, rfl,
    (login_failures_alike (sampleUserHandler noUsers)
      (sampleUserHandler (usersHolding sampleStoredUser)) sampleEnv
      (sampleLogin "wrong-password".toList) freshWriter bareRequest sampleStoredUser
      "crypto/bcrypt: hashedPassword is not the hash of the given password".toList
      (by decide) rfl rfl rfl).2.1⟩

/-- C28. Every request the middleware hands to the wrapped handler holds, under the key
claims of its context, the claims Verify returned for the token of the request, so the
lookup of a handler and its assertion to a pointer to claims succeed; CreateOrder on such a
request does not end in its branch that answers 500 for missing claims. -/
theorem middleware_claims_reach_handler (D : JSONDecoder) (secret : GoString)
    (allowedRoles : List GoString) (next : HandlerFunc) (now : Int) (w : ResponseWriter)
    (r : Request) :
    ∀ r1 ∈ (NewAuthMiddleware D secret allowedRoles next now w r).calls,
      ∃ token claims, (NewJWTManager secret (24 * Hour)).Verify D now token = .ok claims
        ∧ r1.Value "claims".toList = some (.claims claims)
        ∧ ∀ (h : OrderHandler) (env : Env) (body : Except GoString Order) (w1 : ResponseWriter),
            h.CreateOrder env body w1 r1
              ≠ { w := WriteSimpleError w1 500 "Failed to read user info from context".toList,
                  store := [] } := by
  intro r1 hr1
  unfold NewAuthMiddleware at hr1
  simp only at hr1
  split at hr1
  · simp at hr1
  · split at hr1
    · simp at hr1
    · split at hr1
      · simp at hr1
      · rename_i claims hver
        split at hr1
        · simp at hr1
        · simp only [List.mem_singleton] at hr1
          have hval : r1.Value "claims".toList = some (.claims claims) := by
            rw [hr1]
            simp [Request.Value, Request.WithValue]
          exact ⟨_, claims, hver, hval,
            fun h env body w1 => createOrder_with_claims h env body w1 r1 claims hval⟩

theorem middleware_claims_reach_handler_witness :
    (sampleRequest ("Bearer ".toList ++ sampleToken)).WithValue "claims".toList
        (.claims sampleClaims)
        ∈ (NewAuthMiddleware goJSON "secret".toList ["admin".toList, "customer".toList]
            okHandler sampleNow freshWriter (sampleRequest ("Bearer ".toList ++ sampleToken))).calls
      ∧ ∃ token claims,
          (NewJWTManager "secret".toList (24 * Hour)).Verify goJSON sampleNow token = .ok claims
            ∧ ((sampleRequest ("Bearer ".toList ++ sampleToken)).WithValue "claims".toList
                (.claims sampleClaims)).Value "claims".toList = some (.claims claims) :=
  have hmem : (sampleRequest ("Bearer ".toList ++ sampleToken)).WithValue "claims".toList
        (.claims sampleClaims)
        ∈ (NewAuthMiddleware goJSON "secret".toList ["admin".toList, "customer".toList]
            okHandler sampleNow freshWriter
            (sampleRequest ("Bearer ".toList ++ sampleToken))).calls := by
    have hv : (NewJWTManager "secret".toList (24 * Hour)).Verify goJSON sampleNow sampleToken
        = .ok sampleClaims := sample_verify
    rw [middleware_bearer goJSON "secret".toList ["admin".toList, "customer".toList] okHandler
      sampleNow freshWriter (sampleRequest ("Bearer ".toList ++ sampleToken)) sampleToken rfl
      (by decide), hv]
    decide
  ⟨hmem,
    (middleware_claims_reach_handler goJSON "secret".toList ["admin".toList, "customer".toList]
      okHandler sampleNow freshWriter (sampleRequest ("Bearer ".toList ++ sampleToken))
      _ hmem).imp fun _ ht => ht.imp fun _ hc => ⟨hc.1, hc.2.1⟩⟩

/-- C29. Every order whose TotalPrice is 0 is rejected by ValidateStructExcept with the key
UserID, with the violation of required on TotalPrice, and CreateOrder answers it with the
validation error and hands nothing to the store; the orders for which no violation on
TotalPrice is reported are exactly those whose TotalPrice is greater than 0. A float64 is held
as the rational number it stands for. -/
theorem total_price_zero_rejected (validate : Validator) (o : Order) :
    (o.TotalPrice = 0 →
        totalPriceRequired
          ∈ violations (ValidateStructExcept validate o.toStruct ["UserID".toList])
        ∧ ∃ errs, ValidateStructExcept validate o.toStruct ["UserID".toList]
            = some (.validationErrors errs)
          ∧ ∀ (h : OrderHandler) (env : Env) (w : ResponseWriter) (r : Request) (c : Claims),
              env.validate = validate → r.Value "claims".toList = some (.claims c) →
              h.CreateOrder env (.ok o) w r
                = { w := WriteValidationError w (.validationErrors errs), store := [] })
      ∧ ((∀ e ∈ violations (ValidateStructExcept validate o.toStruct ["UserID".toList]),
            e.Field ≠ "TotalPrice".toList) ↔ 0 < o.TotalPrice) := by
  constructor
  · intro h0
    have hmem : totalPriceRequired
          ∈ violations (ValidateStructExcept validate o.toStruct ["UserID".toList]) := by
      rw [total_price_violations validate o _ rfl]
      exact required_error validate "Order.".toList "TotalPrice".toList _ _
        (by simp [Scalar.hasValue, h0])
    refine ⟨hmem, ?_⟩
    cases hv : ValidateStructExcept validate o.toStruct ["UserID".toList] with
    | none => rw [hv] at hmem; simp [violations] at hmem
    | some err =>
      cases err with
      | other text => rw [hv] at hmem; simp [violations] at hmem
      | validationErrors errs =>
        refine ⟨errs, rfl, ?_⟩
        intro h env w r c henv hr
        simp only [OrderHandler.CreateOrder, hr, henv, hv]
  · constructor
    · intro hall
      rw [← total_price_walk validate]
      apply List.eq_nil_iff_forall_not_mem.2
      intro e he
      have hf := (traverseScalar_field _ _ _ _ _ e he).1
      exact hall e ((total_price_violations validate o e hf).2 he) hf
    · intro hpos e he hf
      rw [total_price_violations validate o e hf, (total_price_walk validate _).2 hpos] at he
      simp at he

theorem total_price_zero_rejected_witness :
    (sampleOrderPayload sampleObjectID 0).TotalPrice = 0
      ∧ totalPriceRequired
          ∈ violations (ValidateStructExcept sampleValidator
              (sampleOrderPayload sampleObjectID 0).toStruct ["UserID".toList])
      ∧ ValidateStructExcept sampleValidator
          (sampleOrderPayload sampleObjectID 5).toStruct ["UserID".toList] = Option.none :=
  ⟨rfl, ((total_price_zero_rejected sampleValidator (sampleOrderPayload sampleObjectID 0)).1
    rfl).1, by decide⟩

end Restify
